import Mathlib

/-!
# Private blockchain notary service: ledger manager

A shallow embedding of `Block.js`, `levelSandbox.js` and `BlockChain.js`.

Modelling decisions.

* The LevelDB instance is a finite map from keys to values.  It is represented by the
  list of writes, newest first: a `get` returns the newest write for the key and the
  read stream yields one entry per distinct key.  Every list therefore denotes a store.
* Keys are integers (`level` renders a numeric key in decimal, which is injective).
* A stored value is `JSON.stringify(block)` and every reader applies `JSON.parse` to it.
  The store of the model holds the parsed record; `stringify` below gives the text.
* `SHA256(...).toString()` comes from `crypto-js`; it is the parameter `digest`.
* `new Date().getTime().toString().slice(0,-3)` is the parameter `now` of each operation.
* A promise is an `Except String`: `.ok` is a resolved and `.error` a rejected promise.
  Store input/output failures (the `error` event of a stream, a failing `put`) are not
  modelled; the only store failure is a `get` on an absent key.
-/

namespace Notary

/-! ## Block.js -/

/-- The record of `Block.js`, fields in the order the constructor assigns them (the order
`JSON.stringify` prints them in).  `body` holds the JSON text of the payload. -/
structure Block where
  hash : String
  height : Int
  body : String
  time : String
  previousBlockHash : String
deriving DecidableEq

/-- The constructor `new Block(data)`.  The source sets `time` to the number `0`; every
writer of this repository overwrites it with a string before the block is serialised. -/
def Block.new (data : String) : Block :=
  { hash := "", height := 0, body := data, time := "0", previousBlockHash := "" }

/-! ## JSON.stringify on a block -/

/-- Lower-case hexadecimal digit. -/
def hexDigit (n : Nat) : Char :=
  if n < 10 then Char.ofNat (48 + n) else Char.ofNat (87 + n)

/-- The escape `JSON.stringify` writes for one character of a string. -/
def escapeChar (c : Char) : List Char :=
  if c.toNat = 34 then [Char.ofNat 92, Char.ofNat 34]
  else if c.toNat = 92 then [Char.ofNat 92, Char.ofNat 92]
  else if c.toNat = 8 then [Char.ofNat 92, 'b']
  else if c.toNat = 12 then [Char.ofNat 92, 'f']
  else if c.toNat = 10 then [Char.ofNat 92, 'n']
  else if c.toNat = 13 then [Char.ofNat 92, 'r']
  else if c.toNat = 9 then [Char.ofNat 92, 't']
  else if c.toNat < 32 then
    [Char.ofNat 92, 'u', '0', '0', hexDigit (c.toNat / 16), hexDigit (c.toNat % 16)]
  else [c]

/-- A string as `JSON.stringify` prints it: quoted and escaped. -/
def quote (s : String) : String :=
  String.mk ([Char.ofNat 34] ++ (s.data.map escapeChar).flatten ++ [Char.ofNat 34])

/-- The text `JSON.stringify(block)`. -/
def stringify (b : Block) : String :=
  "\x7b\"hash\":" ++ quote b.hash ++
  ",\"height\":" ++ toString b.height ++
  ",\"body\":" ++ b.body ++
  ",\"time\":" ++ quote b.time ++
  ",\"previousBlockHash\":" ++ quote b.previousBlockHash ++ "\x7d"

/-! ## levelSandbox.js -/

/-- The contents of the LevelDB instance: the writes, newest first. -/
abbrev Store := List (Int × Block)

/-- The keys the read stream visits: each stored key once. -/
def keys (db : Store) : List Int :=
  (db.map Prod.fst).dedup

/-- Source `getLevelDBData(key)`: the value at `key`, rejected when the key is absent. -/
def getLevelDBData (db : Store) (key : Int) : Except String Block :=
  match db.lookup key with
  | some value => .ok value
  | none => .error ("NotFoundError: Key not found in database [" ++ toString key ++ "]")

/-- Source `addLevelDBData(key, value)`: `db.put`, which replaces the value of a present
key. -/
def addLevelDBData (db : Store) (key : Int) (value : Block) : Store :=
  (key, value) :: db

/-- Source `getBlocksCount()`: the number of entries the read stream yields. -/
def getBlocksCount (db : Store) : Nat :=
  (keys db).length

/-- Source `addDataToLevelDB(value)`: counts the entries and writes under that count. -/
def addDataToLevelDB (db : Store) (value : Block) : Store :=
  let i := (keys db).length
  addLevelDBData db (i : Int) value

/-- The order of the read stream: LevelDB sorts its keys bytewise, and a numeric key is
stored as its decimal text, so key 10 comes before key 2. -/
def keyOrder (a b : Int) : Prop :=
  (toString a).data ≤ (toString b).data

instance keyOrderDecidable : DecidableRel keyOrder :=
  fun a b => inferInstanceAs (Decidable ((toString a).data ≤ (toString b).data))

/-- The entries `createReadStream()` emits as `data` events, in order: every stored key
once, with the value a `get` of that key gives. -/
def scan (db : Store) : List (Int × Block) :=
  ((keys db).insertionSort keyOrder).filterMap
    (fun key => (db.lookup key).map (fun value => (key, value)))

/-- Source `getLevelDBDatabyHash(blockHash)`.  Every `data` event whose record has the hash
calls `resolve` with the stored text, the `close` event calls `reject`; a promise keeps
the first settlement. -/
def getLevelDBDatabyHash (db : Store) (blockHash : String) : Except String String :=
  let promise : Option String := (scan db).foldl (fun promise data =>
    if data.2.hash = blockHash then
      match promise with
      | none => some (stringify data.2)
      | some value => some value
    else promise) none
  match promise with
  | some value => .ok value
  | none => .error ("Warning: Block has not been found by hash: " ++ blockHash)

/-! ## BlockChain.js -/

/-- Source `getBlockHeight()`: the count minus one. -/
def getBlockHeight (db : Store) : Int :=
  (getBlocksCount db : Int) - 1

/-- Source `getBlock(blockHeight)`. -/
def getBlock (db : Store) (blockHeight : Int) : Except String Block :=
  getLevelDBData db blockHeight

/-- The payload of the genesis block `generateGenesisBlock` writes, as JSON text. -/
def genesisBlockBody : String :=
  "\x7b\"address\":\"1JsrVe7pHZGUrJB4NnjfXwDckAMmiXsDHN\",\"star\":\x7b" ++
  "\"ra\":\"17h 22m 13.1s\",\"dec\":\"-27° 14\x27 8.2\",\"story\":\"" ++
  "466f756e642073746172207573696e672068747470733a2f2f7777772e676f6f676c652e636f6d2f736b792f" ++
  "\"\x7d\x7d"

/-- Source `generateGenesisBlock()`: on an empty store writes the genesis block, on any
other store only logs. -/
def generateGenesisBlock (digest : String → String) (now : String) (db : Store) : Store :=
  let height := getBlockHeight db
  if height < 0 then
    let newBlock := Block.new genesisBlockBody
    let newBlock := { newBlock with height := 0 }
    let newBlock := { newBlock with time := now }
    let newBlock := { newBlock with previousBlockHash := "" }
    let newBlock := { newBlock with hash := digest (stringify newBlock) }
    addDataToLevelDB db newBlock
  else
    db

/-- Source `addBlock(newBlock)`.  `now0` is the clock reading for the genesis block of the
empty-store branch, `now` the one for the new block.  The promise resolves with the text
of the written record. -/
def addBlock (digest : String → String) (now0 now : String) (newBlock : Block)
    (db : Store) : Except String (String × Store) :=
  let height := getBlockHeight db
  if height < 0 then
    let genesisBlock := Block.new "\"First block in the chain - Genesis block\""
    let genesisBlock := { genesisBlock with height := 0 }
    let genesisBlock := { genesisBlock with time := now0 }
    let genesisBlock := { genesisBlock with previousBlockHash := "" }
    let genesisBlock := { genesisBlock with hash := digest (stringify genesisBlock) }
    let db := addDataToLevelDB db genesisBlock
    let newBlock := { newBlock with height := 1 }
    let newBlock := { newBlock with time := now }
    let newBlock := { newBlock with previousBlockHash := genesisBlock.hash }
    let newBlock := { newBlock with hash := digest (stringify newBlock) }
    let db := addDataToLevelDB db newBlock
    .ok (stringify newBlock, db)
  else
    match getBlock db height with
    | .ok previousBlock =>
      let newBlock := { newBlock with height := height + 1 }
      let newBlock := { newBlock with time := now }
      let newBlock := { newBlock with previousBlockHash := previousBlock.hash }
      let newBlock := { newBlock with hash := digest (stringify newBlock) }
      let db := addDataToLevelDB db newBlock
      .ok (stringify newBlock, db)
    | .error error =>
      .error ("addBlock: Error found when calling getBlock without creating genesisBlock: "
        ++ error)

/-- Source `validateBlock(blockHeight)`. -/
def validateBlock (digest : String → String) (db : Store) (blockHeight : Int) :
    Except String Bool :=
  match getBlock db blockHeight with
  | .ok block =>
    let blockHash := block.hash
    let block := { block with hash := "" }
    let validBlockHash := digest (stringify block)
    if blockHash = validBlockHash then .ok true else .ok false
  | .error error => .error ("validateBlock: Error found when calling getBlock: " ++ error)

/-- Source `validateBlockLink(blockHeight)`. -/
def validateBlockLink (db : Store) (blockHeight : Int) : Except String Bool :=
  match getBlock db blockHeight with
  | .ok block =>
    if block.height = 0 then
      if block.previousBlockHash = "" then .ok true else .ok false
    else
      match getBlock db (blockHeight - 1) with
      | .ok previousBlock =>
        if block.previousBlockHash = previousBlock.hash then .ok true else .ok false
      | .error error =>
        .error ("validateBlockLink: Error found when calling getBlock of previous block: "
          ++ error)
  | .error error =>
    .error ("validateBlockLink: Error found when calling getBlock of current block: "
      ++ error)

/-- The built-in `Promise.all`: every value in order, or the rejection of a promise that
rejects (the first one in array order). -/
def promiseAll {α : Type} : List (Except String α) → Except String (List α)
  | [] => .ok []
  | .error e :: _ => .error e
  | .ok a :: rest =>
    match promiseAll rest with
    | .ok as => .ok (a :: as)
    | .error e => .error e

/-- Source `validateChain()`.  A missing element of `responses` is `undefined`, which `!`
turns into `true`. -/
def validateChain (digest : String → String) (db : Store) : Except String (List String) :=
  let chainHeight := getBlockHeight db
  let chainLength := (chainHeight + 1).toNat
  let arrayofPromises :=
    (List.range chainLength).map (fun (i : Nat) => validateBlock digest db (i : Int)) ++
    (List.range chainLength).map (fun (i : Nat) => validateBlockLink db (i : Int))
  match promiseAll arrayofPromises with
  | .ok responses =>
    let errorLog : List String := []
    let errorLog := errorLog ++ (List.range chainLength).filterMap (fun i =>
      if !(responses.getD i false) then some ("block hash invalid for block " ++ toString i)
      else none)
    let errorLog := errorLog ++
      (List.range' chainLength (responses.length - chainLength)).filterMap (fun i =>
        if !(responses.getD i false) then
          some ("previous block hash invalid for block " ++ toString (i - chainLength))
        else none)
    .ok errorLog
  | .error error =>
    .error ("validateChain: Error found when executing Promise.all " ++
      "(validateBlock and validateBlockLink): " ++ error)

/-- Source `getBlockByHash(blockHash)`. -/
def getBlockByHash (db : Store) (blockHash : String) : Except String String :=
  match getLevelDBDatabyHash db blockHash with
  | .ok result => .ok result
  | .error error => .error error

/-- Source `_modifyBlock(height, block)`: writes `block` under key `height`, whatever is
stored there. -/
def _modifyBlock (db : Store) (height : Int) (block : Block) : Store :=
  addLevelDBData db height block

/-! ## The asynchronous steps of `addBlock`

`addBlock` reaches the store four times on a ledger that has a genesis block (entry count
of `getBlockHeight`, `get` of the tail, entry count of `addDataToLevelDB`, `put`) and five
times on an empty one (entry count, entry count and `put` for the genesis block, entry
count and `put` for the new block).  Each access is issued from the callback of the one
before, so other calls may reach the store in between.  `Progress` records which access a
call waits for, and `Progress.step` performs that access together with the synchronous
code of the callback that follows it. -/

/-- How far one call of `addBlock` has got. -/
inductive Progress where
  /-- The call is made; the count of `getBlockHeight` is outstanding. -/
  | called (now0 now : String) (newBlock : Block)
  /-- The callback of `getBlockHeight` has the height. -/
  | gotHeight (now0 now : String) (newBlock : Block) (height : Int)
  /-- Empty ledger: the genesis block is built and `addDataToLevelDB` has counted `i`. -/
  | genesisCounted (now : String) (newBlock genesisBlock : Block) (i : Nat)
  /-- The fields of the new block are assigned and its hash is taken. -/
  | built (newBlock : Block)
  /-- The stream of `addDataToLevelDB(newBlock)` has closed with count `i`. -/
  | counted (newBlock : Block) (i : Nat)
  /-- The promise has resolved, with the text of `newBlock`. -/
  | resolved (newBlock : Block)
  /-- The promise has rejected. -/
  | rejected (error : String)
deriving DecidableEq

/-- The next store access of a call of `addBlock` and the callback code after it. -/
def Progress.step (digest : String → String) : Progress → Store → Progress × Store
  | .called now0 now newBlock, db =>
    (.gotHeight now0 now newBlock (getBlockHeight db), db)
  | .gotHeight now0 now newBlock height, db =>
    if height < 0 then
      let genesisBlock := Block.new "\"First block in the chain - Genesis block\""
      let genesisBlock := { genesisBlock with height := 0 }
      let genesisBlock := { genesisBlock with time := now0 }
      let genesisBlock := { genesisBlock with previousBlockHash := "" }
      let genesisBlock := { genesisBlock with hash := digest (stringify genesisBlock) }
      (.genesisCounted now newBlock genesisBlock (keys db).length, db)
    else
      match getBlock db height with
      | .ok previousBlock =>
        let newBlock := { newBlock with height := height + 1 }
        let newBlock := { newBlock with time := now }
        let newBlock := { newBlock with previousBlockHash := previousBlock.hash }
        let newBlock := { newBlock with hash := digest (stringify newBlock) }
        (.built newBlock, db)
      | .error error =>
        (.rejected
          ("addBlock: Error found when calling getBlock without creating genesisBlock: "
            ++ error), db)
  | .genesisCounted now newBlock genesisBlock i, db =>
    let db := addLevelDBData db (i : Int) genesisBlock
    let newBlock := { newBlock with height := 1 }
    let newBlock := { newBlock with time := now }
    let newBlock := { newBlock with previousBlockHash := genesisBlock.hash }
    let newBlock := { newBlock with hash := digest (stringify newBlock) }
    (.built newBlock, db)
  | .built newBlock, db => (.counted newBlock (keys db).length, db)
  | .counted newBlock i, db => (.resolved newBlock, addLevelDBData db (i : Int) newBlock)
  | .resolved newBlock, db => (.resolved newBlock, db)
  | .rejected error, db => (.rejected error, db)

/-- The settled promise of a call, if it has settled. -/
def Progress.result : Progress → Option (Except String String)
  | .resolved newBlock => some (.ok (stringify newBlock))
  | .rejected error => some (.error error)
  | _ => none

/-- The store accesses a call still has to make (on a ledger with a genesis block). -/
def Progress.stepsLeft : Progress → Nat
  | .called _ _ _ => 4
  | .gotHeight _ _ _ _ => 3
  | .genesisCounted _ _ _ _ => 3
  | .built _ => 2
  | .counted _ _ => 1
  | .resolved _ => 0
  | .rejected _ => 0

/-- A call running alone: `k` store accesses in a row. -/
def Progress.steps (digest : String → String) : Nat → Progress → Store → Progress × Store
  | 0, t, db => (t, db)
  | k + 1, t, db => Progress.steps digest k (t.step digest db).1 (t.step digest db).2

/-- Whose store access comes next. -/
inductive Turn where
  | first
  | second
deriving DecidableEq

/-- Two calls of `addBlock` in flight on one store. -/
structure Config where
  first : Progress
  second : Progress
  db : Store
deriving DecidableEq

/-- One store access of the call whose turn it is. -/
def stepTurn (digest : String → String) : Turn → Config → Config
  | .first, c =>
    { c with first := (c.first.step digest c.db).1, db := (c.first.step digest c.db).2 }
  | .second, c =>
    { c with second := (c.second.step digest c.db).1, db := (c.second.step digest c.db).2 }

/-- The store accesses of the two calls in the order of the schedule. -/
def run (digest : String → String) : List Turn → Config → Config
  | [], c => c
  | t :: ts, c => run digest ts (stepTurn digest t c)

/-! ## mempool.js

The pool is the three arrays of the class together with the timeouts the runtime holds for
it.  The clock `new Date().getTime()` is the parameter `now` (milliseconds) of each
operation; the controller passes `requestTimeStamp` as the decimal text of the clock in
seconds, and the model keeps its value.  `bitcoinMessage.verify` is the parameter `verify`,
which returns a boolean or throws.

`timeoutRequests` is an array the source uses as a table keyed by wallet address; the model
keeps the entries the source makes (the own properties it assigns), latest first.  Two
wallet addresses are not ordinary keys of an array.  For `length` the assignment
`timeoutRequests[walletAddress] = setTimeout(..)` sets the length of the array: the handle
is an object, and on the Node.js releases this service was written for it has no numeric
value, so the assignment throws `RangeError: Invalid array length`; and
`delete timeoutRequests[walletAddress]` throws a `TypeError` on every release (class bodies
are strict code and the `length` of an array cannot be deleted).  For `__proto__` the
assignment replaces the prototype of the array and makes no entry, and the `delete` finds
nothing to delete.  What stands before the failing step has happened when it throws: the
request is pushed and the timeout is made before the assignment, and the entry of `mempool`
is spliced out before the `delete`.

A call of `addRequestValidation` or `removeValidationRequest` that throws has already
changed the pool, so their `.error` carries the pool the call leaves behind next to the
text of the exception. -/

/-- The request object kept in the array `mempool`. -/
structure Request where
  walletAddress : String
  requestTimeStamp : Nat
  message : String
  validationWindow : Int
deriving DecidableEq

/-- The `status` object of a valid request. -/
structure Status where
  address : String
  requestTimeStamp : Nat
  message : String
  validationWindow : Int
  messageSignature : Bool
deriving DecidableEq

/-- The object kept in the array `mempoolValid`. -/
structure ValidRequest where
  registerStar : Bool
  status : Status
deriving DecidableEq

/-- A timeout made by `setTimeout`: the wallet address its callback removes and the clock
reading (milliseconds) from which the runtime may run it. -/
structure Timeout where
  walletAddress : String
  due : Nat
deriving DecidableEq

/-- The state of the class `Mempool` (`mempool`, `timeoutRequests`, `mempoolValid`) and the
timeouts made by it that the runtime has not run yet (`timers`). -/
structure Mempool where
  mempool : List Request
  timeoutRequests : List (String × Timeout)
  mempoolValid : List ValidRequest
  timers : List Timeout
deriving DecidableEq

/-- The constructor `new Mempool()`. -/
def Mempool.new : Mempool :=
  { mempool := [], timeoutRequests := [], mempoolValid := [], timers := [] }

/-- The `data` of a response object: an error text or a valid request. -/
inductive ResponseData where
  | text (message : String)
  | request (validRequest : ValidRequest)
deriving DecidableEq

/-- The response object of `validateRequestByWallet`. -/
structure ResponseObject where
  error : Bool
  data : ResponseData
deriving DecidableEq

/-- Source constant `TimeoutRequestsWindowTime`. -/
def TimeoutRequestsWindowTime : Nat := 5 * 60 * 1000

/-- The built-in `Array.prototype.findIndex`: the first index whose element satisfies the
test, or `-1`. -/
def findIndex {α : Type} (p : α → Bool) (l : List α) : Int :=
  match l.findIdx? p with
  | some i => (i : Int)
  | none => -1

/-- Source `verifyWindowTime(requestTimeStamp)`. -/
def verifyWindowTime (now : Nat) (requestTimeStamp : Nat) : Int :=
  let timeElapse : Int := ((now / 1000 : Nat) : Int) - (requestTimeStamp : Int)
  let timeLeft : Int := ((TimeoutRequestsWindowTime / 1000 : Nat) : Int) - timeElapse
  timeLeft

/-- Source `addRequestValidation(walletAddress, requestTimeStamp)`.  In the first branch
the stored object itself gets the new `validationWindow` and is returned.  In the second
branch the request is pushed and the timeout is made before the handle is assigned to
`timeoutRequests[walletAddress]`; for `length` that assignment throws, so nothing is
returned, and for `__proto__` it makes no entry. -/
def addRequestValidation (now : Nat) (walletAddress : String) (requestTimeStamp : Nat)
    (self : Mempool) : Except (String × Mempool) (Request × Mempool) :=
  let checkMempool := fun (request : Request) => decide (request.walletAddress = walletAddress)
  let index := findIndex checkMempool self.mempool
  if index ≥ 0 then
    match self.mempool[index.toNat]? with
    | some requestObject =>
      let requestObject :=
        { requestObject with
          validationWindow := verifyWindowTime now requestObject.requestTimeStamp }
      .ok (requestObject,
        { self with mempool := self.mempool.set index.toNat requestObject })
    | none =>
      .error ("TypeError: Cannot set property \x27validationWindow\x27 of undefined", self)
  else
    let message := walletAddress ++ ":" ++ toString requestTimeStamp ++ ":starRegistry"
    let validationWindow := verifyWindowTime now requestTimeStamp
    let requestObject : Request :=
      { walletAddress := walletAddress, requestTimeStamp := requestTimeStamp,
        message := message, validationWindow := validationWindow }
    let mempool := self.mempool ++ [requestObject]
    let timeout : Timeout :=
      { walletAddress := requestObject.walletAddress, due := now + TimeoutRequestsWindowTime }
    let timers := self.timers ++ [timeout]
    if walletAddress = "length" then
      .error ("RangeError: Invalid array length",
        { self with mempool := mempool, timers := timers })
    else
      let timeoutRequests :=
        if walletAddress = "__proto__" then self.timeoutRequests
        else (walletAddress, timeout) :: self.timeoutRequests
      .ok (requestObject,
        { self with mempool := mempool, timeoutRequests := timeoutRequests,
                    timers := timers })

/-- Source `removeValidationRequest(walletAddress)`; the logging is left out.  The entry of
`mempool` is spliced out before the `delete`; for `length` the `delete` throws, so the
entry of `mempoolValid` stays and the call does not return. -/
def removeValidationRequest (walletAddress : String) (self : Mempool) :
    Except (String × Mempool) (Unit × Mempool) :=
  let checkMempool := fun (request : Request) => decide (request.walletAddress = walletAddress)
  let checkMempoolValid := fun (validRequest : ValidRequest) =>
    decide (validRequest.status.address = walletAddress)
  let index := findIndex checkMempool self.mempool
  let mempool := if index ≥ 0 then self.mempool.eraseIdx index.toNat else self.mempool
  if walletAddress = "length" then
    .error ("TypeError: Cannot delete property \x27length\x27 of [object Array]",
      { self with mempool := mempool })
  else
    let timeoutRequests := self.timeoutRequests.filter (fun entry => entry.1 ≠ walletAddress)
    let index := findIndex checkMempoolValid self.mempoolValid
    let mempoolValid :=
      if index ≥ 0 then self.mempoolValid.eraseIdx index.toNat else self.mempoolValid
    .ok ((), { self with mempool := mempool, timeoutRequests := timeoutRequests,
                         mempoolValid := mempoolValid })

/-- Source `validateRequestByWallet(walletAddress, signature)`. -/
def validateRequestByWallet (verify : String → String → String → Except String Bool)
    (now : Nat) (walletAddress signature : String) (self : Mempool) :
    Except String (ResponseObject × Mempool) :=
  let checkMempool := fun (request : Request) => decide (request.walletAddress = walletAddress)
  let checkMempoolValid := fun (validRequest : ValidRequest) =>
    decide (validRequest.status.address = walletAddress)
  let index := findIndex checkMempool self.mempool
  if index ≥ 0 then
    match self.mempool[index.toNat]? with
    | some requestObject =>
      let validationWindow := verifyWindowTime now requestObject.requestTimeStamp
      match verify requestObject.message requestObject.walletAddress signature with
      | .error err =>
        .ok ({ error := true,
               data := .text ("validateRequestByWallet: an error has occurred while " ++
                 "validating signature: " ++ err) }, self)
      | .ok isValid =>
        if isValid then
          let validRequest : ValidRequest :=
            { registerStar := true,
              status :=
                { address := walletAddress,
                  requestTimeStamp := requestObject.requestTimeStamp,
                  message := requestObject.message,
                  validationWindow := validationWindow,
                  messageSignature := true } }
          let index := findIndex checkMempoolValid self.mempoolValid
          let mempoolValid :=
            if index < 0 then self.mempoolValid ++ [validRequest] else self.mempoolValid
          .ok ({ error := false, data := .request validRequest },
            { self with mempoolValid := mempoolValid })
        else
          .ok ({ error := true,
                 data := .text ("validateRequestByWallet: signature is not valid: " ++
                   walletAddress) }, self)
    | none => .error "TypeError: Cannot read property \x27requestTimeStamp\x27 of undefined"
  else
    .ok ({ error := true,
           data := .text ("validateRequestByWallet: request not found on mempool: " ++
             walletAddress) }, self)

/-- Source `verifyAddressRequest(walletAddress)`. -/
def verifyAddressRequest (walletAddress : String) (self : Mempool) : Bool :=
  let checkMempoolValid := fun (validRequest : ValidRequest) =>
    decide (validRequest.status.address = walletAddress)
  let index := findIndex checkMempoolValid self.mempoolValid
  if index < 0 then false else true

/-- The pool a call leaves behind, whether it returned or threw. -/
def leaves {α : Type} : Except (String × Mempool) (α × Mempool) → Mempool
  | .ok (_, next) => next
  | .error (_, next) => next

/-- The runtime runs a timeout made by `addRequestValidation`: the timeout leaves the
queue and its callback calls `removeValidationRequest(requestObject.walletAddress)`.  The
value is the pool the callback leaves behind; for the wallet address `length` the callback
ends with the `TypeError` of `removeValidationRequest`. -/
def fireTimeout (timeout : Timeout) (self : Mempool) : Mempool :=
  leaves (removeValidationRequest timeout.walletAddress
    { self with timers := self.timers.erase timeout })

/-- One event on the pool: a call of one of the three operations at some clock reading, or
the runtime running a pending timeout that is due.  A call of `addRequestValidation` or
`removeValidationRequest` is an event whether it returns or throws.  The clock readings of
successive events are not tied to each other, so the states reached include every state the
running service can reach. -/
inductive Step (verify : String → String → String → Except String Bool) :
    Mempool → Mempool → Prop where
  | request (now : Nat) (walletAddress : String) (requestTimeStamp : Nat)
      (self : Mempool) :
      Step verify self (leaves (addRequestValidation now walletAddress requestTimeStamp self))
  | validate (now : Nat) (walletAddress signature : String)
      (self : Mempool) (responseObject : ResponseObject) (next : Mempool) :
      validateRequestByWallet verify now walletAddress signature self
        = .ok (responseObject, next) →
      Step verify self next
  | remove (walletAddress : String) (self : Mempool) :
      Step verify self (leaves (removeValidationRequest walletAddress self))
  | fire (now : Nat) (timeout : Timeout) (self : Mempool) :
      timeout ∈ self.timers → timeout.due ≤ now →
      Step verify self (fireTimeout timeout self)

/-- The pool states reachable from the empty pool. -/
def Reachable (verify : String → String → String → Except String Bool) (self : Mempool) :
    Prop :=
  Relation.ReflTransGen (Step verify) Mempool.new self

/-- No wallet address has two entries in `mempool` or two entries in `mempoolValid`. -/
def OneEntryEach (self : Mempool) : Prop :=
  (self.mempool.map (fun request => request.walletAddress)).Nodup ∧
  (self.mempoolValid.map (fun validRequest => validRequest.status.address)).Nodup

/-! ## Auxiliary definitions for the statements -/

/-- The valid request `validateRequestByWallet` builds from the stored request. -/
def validRequestOf (now : Nat) (walletAddress : String) (requestObject : Request) :
    ValidRequest :=
  { registerStar := true,
    status :=
      { address := walletAddress,
        requestTimeStamp := requestObject.requestTimeStamp,
        message := requestObject.message,
        validationWindow := verifyWindowTime now requestObject.requestTimeStamp,
        messageSignature := true } }


/-- The record `addBlock` and `generateGenesisBlock` build from a block: the three fields
assigned, then the hash taken over the text of the block as it stands at that moment (its
`hash` field still holds the value it came with). -/
def stamp (digest : String → String) (b : Block) (height : Int) (time prev : String) :
    Block :=
  let b := { b with height := height, time := time, previousBlockHash := prev }
  { b with hash := digest (stringify b) }

/-- One `addBlock` call of a sequence: its two clock readings and its candidate block. -/
structure Call where
  now0 : String
  now : String
  newBlock : Block

/-- The calls of `addBlock` made one after another, each one started when the promise of
the one before has resolved; the run stops at the first rejection. -/
def addBlocks (digest : String → String) : List Call → Store → Except String Store
  | [], db => .ok db
  | c :: rest, db =>
    match addBlock digest c.now0 c.now c.newBlock db with
    | .ok (_, db) => addBlocks digest rest db
    | .error error => .error error

deriving instance DecidableEq for Except

/-- The store holds a record at each of the keys `0..n` and at no other key. -/
def KeysUpTo (db : Store) (n : Nat) : Prop :=
  ∀ k : Int, (db.lookup k).isSome = true ↔ (0 ≤ k ∧ k ≤ (n : Int))

/-- The height field of every stored record is the key it is stored under. -/
def HeightIsKey (db : Store) : Prop :=
  ∀ (k : Int) (b : Block), db.lookup k = some b → b.height = k

/-- Every stored record carries the digest of itself with the hash field emptied. -/
def HashesOk (digest : String → String) (db : Store) : Prop :=
  ∀ (k : Int) (b : Block), db.lookup k = some b →
    b.hash = digest (stringify { b with hash := "" })

/-- The record at key 0 has an empty `previousBlockHash` and every other record carries the
hash field of the record stored one key below. -/
def LinksOk (db : Store) : Prop :=
  (∀ b : Block, db.lookup 0 = some b → b.previousBlockHash = "") ∧
  ∀ (k : Int) (b p : Block), db.lookup k = some b → db.lookup (k - 1) = some p →
    b.previousBlockHash = p.hash

/-- The state of two overlapping calls on a ledger whose tail is at key `h`, once both have
read the height: both work towards a record of height `h + 1` linked to the same tail,
nothing is written at or below key `h`, and every record written above it carries height
`h + 1`.  `m` is the largest key of the store. -/
def InFlight (h : Nat) (tail : Block) (m : Nat) : Progress → Prop
  | .called _ _ _ => False
  | .gotHeight _ _ _ height => height = (h : Int)
  | .genesisCounted _ _ _ _ => False
  | .built r => r.height = (h : Int) + 1 ∧ r.previousBlockHash = tail.hash
  | .counted r i => r.height = (h : Int) + 1 ∧ r.previousBlockHash = tail.hash ∧
      h < i ∧ i ≤ m + 1
  | .resolved r => r.height = (h : Int) + 1 ∧ r.previousBlockHash = tail.hash
  | .rejected _ => False

/-- The invariant of two overlapping calls, see `InFlight`. -/
def Overlapped (h : Nat) (tail : Block) (c : Config) : Prop :=
  ∃ m : Nat, h ≤ m ∧ KeysUpTo c.db m ∧ c.db.lookup (h : Int) = some tail ∧
    (∀ (k : Int) (r : Block), (h : Int) < k → c.db.lookup k = some r →
      r.height = (h : Int) + 1) ∧
    InFlight h tail m c.first ∧ InFlight h tail m c.second

/-- The characters of the base58 alphabet, in which wallet addresses are written. -/
def base58 : List Char :=
  "123456789ABCDEFGHJKLMNPQRSTUVWXYZabcdefghijkmnopqrstuvwxyz".data

/-- A signature check for the worked examples: it throws on the signature `malformed` and
on an address that has a character outside the base58 alphabet, and accepts exactly the
signature `signed`. -/
def exampleVerify : String → String → String → Except String Bool :=
  fun _ address signature =>
    if signature = "malformed" then .error "Error: Invalid signature length"
    else if address.data.all (fun c => decide (c ∈ base58)) then
      .ok (decide (signature = "signed"))
    else .error "Error: Non-base58 character"

/-- The pool after `addRequestValidation` for wallet address `A` with time stamp 1, called
on the empty pool when the clock shows 1000 milliseconds. -/
def examplePending : Mempool :=
  { mempool := [⟨"A", 1, "A:1:starRegistry", 300⟩],
    timeoutRequests := [("A", ⟨"A", 301000⟩)],
    mempoolValid := [],
    timers := [⟨"A", 301000⟩] }

/-- The pool `examplePending` after a successful `validateRequestByWallet` for `A`, called
when the clock shows 2000 milliseconds. -/
def exampleConfirmed : Mempool :=
  { examplePending with
    mempoolValid := [validRequestOf 2000 "A" ⟨"A", 1, "A:1:starRegistry", 300⟩] }

/-- The pool that `addRequestValidation` for the wallet address `length` with time stamp 1
leaves behind, called on the empty pool when the clock shows 1000 milliseconds: the request
is stored and its timeout is pending, and `timeoutRequests` has no entry. -/
def exampleThrown : Mempool :=
  { mempool := [⟨"length", 1, "length:1:starRegistry", 300⟩],
    timeoutRequests := [],
    mempoolValid := [],
    timers := [⟨"length", 301000⟩] }

/-- Every wallet address with an entry in `mempoolValid` has an entry in `mempool`. -/
def ConfirmedArePending (self : Mempool) : Prop :=
  ∀ v ∈ self.mempoolValid,
    v.status.address ∈ self.mempool.map (fun request => request.walletAddress)

/-- The verifier never accepts a signature for the wallet address `length`.
`bitcoinMessage.verify` decodes the address it is given and throws when that is not written
in base58, an alphabet that has no letter `l`. -/
def RejectsLength (verify : String → String → String → Except String Bool) : Prop :=
  ∀ message signature : String, verify message "length" signature ≠ .ok true

/-! ## Facts about the store -/

theorem lookup_cons_eq (db : Store) (k k0 : Int) (v : Block) :
    List.lookup k ((k0, v) :: db) = if k = k0 then some v else db.lookup k := by
  by_cases h : k = k0
  · subst h
    simp [List.lookup_cons]
  · have hb : (k == k0) = false := by simpa using h
    simp [List.lookup_cons, hb, h]

theorem lookup_isSome_iff_mem_keys (db : Store) (k : Int) :
    (db.lookup k).isSome = true ↔ k ∈ keys db := by
  unfold keys
  rw [List.mem_dedup]
  induction db with
  | nil => simp
  | cons e db ih =>
    obtain ⟨k0, v⟩ := e
    rw [lookup_cons_eq]
    by_cases h : k = k0
    · subst h
      simp
    · simp [h, ih]

theorem getBlocksCount_of_keysUpTo (db : Store) (n : Nat) (h : KeysUpTo db n) :
    getBlocksCount db = n + 1 := by
  have hnd : (keys db).Nodup := List.nodup_dedup _
  have hset : (keys db).toFinset = Finset.Icc (0 : Int) (n : Int) := by
    ext k
    rw [List.mem_toFinset, ← lookup_isSome_iff_mem_keys, Finset.mem_Icc]
    exact h k
  have hcard := List.toFinset_card_of_nodup hnd
  rw [hset, Int.card_Icc] at hcard
  unfold getBlocksCount
  omega

theorem getBlocksCount_eq_zero (db : Store) : getBlocksCount db = 0 ↔ db = [] := by
  unfold getBlocksCount keys
  constructor
  · intro h
    cases db with
    | nil => rfl
    | cons e db =>
      have hmem : e.1 ∈ (List.map Prod.fst (e :: db)).dedup := by
        rw [List.mem_dedup]
        simp
      rw [List.length_eq_zero] at h
      rw [h] at hmem
      simp at hmem
  · intro h
    subst h
    rfl

theorem getBlocksCount_put_new (db : Store) (k : Int) (v : Block) (h : db.lookup k = none) :
    getBlocksCount (addLevelDBData db k v) = getBlocksCount db + 1 := by
  have hk : k ∉ List.map Prod.fst db := by
    have := (lookup_isSome_iff_mem_keys db k).not
    rw [h] at this
    unfold keys at this
    rw [List.mem_dedup] at this
    simpa using this
  unfold getBlocksCount keys addLevelDBData
  rw [List.map_cons, List.dedup_cons_of_not_mem hk]
  simp

theorem getBlocksCount_put_old (db : Store) (k : Int) (v : Block)
    (h : (db.lookup k).isSome = true) :
    getBlocksCount (addLevelDBData db k v) = getBlocksCount db := by
  have hk : k ∈ List.map Prod.fst db := by
    have := (lookup_isSome_iff_mem_keys db k).mp h
    unfold keys at this
    rwa [List.mem_dedup] at this
  unfold getBlocksCount keys addLevelDBData
  rw [List.map_cons, List.dedup_cons_of_mem hk]

theorem getLevelDBData_eq_ok (db : Store) (k : Int) (b : Block) :
    getLevelDBData db k = .ok b ↔ db.lookup k = some b := by
  unfold getLevelDBData
  cases h : db.lookup k <;> simp

theorem getLevelDBData_of_none (db : Store) (k : Int) (h : db.lookup k = none) :
    getLevelDBData db k =
      .error ("NotFoundError: Key not found in database [" ++ toString k ++ "]") := by
  unfold getLevelDBData
  rw [h]

/-! ## Facts about `addBlock` -/

theorem getBlockHeight_of_keysUpTo (db : Store) (n : Nat) (h : KeysUpTo db n) :
    getBlockHeight db = n := by
  unfold getBlockHeight
  rw [getBlocksCount_of_keysUpTo db n h]
  omega

theorem addBlock_of_tail (digest : String → String) (now0 now : String) (newBlock : Block)
    (db : Store) (n : Nat) (tail : Block) (hc : getBlocksCount db = n + 1)
    (ht : db.lookup (n : Int) = some tail) :
    addBlock digest now0 now newBlock db =
      .ok (stringify (stamp digest newBlock ((n : Int) + 1) now tail.hash),
        (((n : Int) + 1), stamp digest newBlock ((n : Int) + 1) now tail.hash) :: db) := by
  have hh : getBlockHeight db = n := by
    unfold getBlockHeight
    omega
  have hg : getBlock db n = .ok tail := (getLevelDBData_eq_ok _ _ _).mpr ht
  have hk : (keys db).length = n + 1 := hc
  have hneg : ¬ ((n : Int) < 0) := by omega
  simp [addBlock, hh, hg, hneg, stamp, addDataToLevelDB, addLevelDBData, hk]

theorem addBlock_of_no_tail (digest : String → String) (now0 now : String)
    (newBlock : Block) (db : Store) (hc : 0 < getBlocksCount db)
    (ht : db.lookup (getBlockHeight db) = none) :
    ∃ e, addBlock digest now0 now newBlock db = .error e := by
  have hneg : ¬ (getBlockHeight db < 0) := by
    unfold getBlockHeight
    omega
  have hg := getLevelDBData_of_none db _ ht
  simp only [addBlock, hneg, if_false, getBlock, hg]
  exact ⟨_, rfl⟩

theorem addBlock_of_empty (digest : String → String) (now0 now : String)
    (newBlock : Block) :
    addBlock digest now0 now newBlock [] =
      .ok (stringify (stamp digest newBlock 1 now
            (stamp digest (Block.new "\"First block in the chain - Genesis block\"")
              0 now0 "").hash),
        [(1, stamp digest newBlock 1 now
            (stamp digest (Block.new "\"First block in the chain - Genesis block\"")
              0 now0 "").hash),
         (0, stamp digest (Block.new "\"First block in the chain - Genesis block\"")
              0 now0 "")]) := by
  simp [addBlock, getBlockHeight, getBlocksCount, keys, stamp, addDataToLevelDB,
    addLevelDBData, Block.new]

theorem keysUpTo_put_next (db : Store) (n : Nat) (v : Block) (h : KeysUpTo db n) :
    KeysUpTo ((((n : Int) + 1), v) :: db) (n + 1) := by
  intro k
  rw [lookup_cons_eq]
  by_cases hk : k = (n : Int) + 1
  · subst hk
    simp
    omega
  · rw [if_neg hk, h k]
    push_cast
    omega

theorem keysUpTo_singleton (v : Block) : KeysUpTo [(0, v)] 0 := by
  intro k
  rw [lookup_cons_eq]
  by_cases hk : k = 0
  · subst hk
    simp
  · rw [if_neg hk]
    simp
    omega

theorem tail_of_keysUpTo (db : Store) (n : Nat) (h : KeysUpTo db n) :
    ∃ tail, db.lookup (n : Int) = some tail := by
  have := (h (n : Int)).mpr ⟨by omega, le_refl _⟩
  exact Option.isSome_iff_exists.mp this

theorem stamp_hash_of_fresh (digest : String → String) (b : Block) (height : Int)
    (time prev : String) (hb : b.hash = "") :
    (stamp digest b height time prev).hash =
      digest (stringify { stamp digest b height time prev with hash := "" }) := by
  obtain ⟨bh, bn, bb, bt, bp⟩ := b
  simp only at hb
  subst hb
  rfl

/-! ## Facts about the per-block checks -/

theorem validateBlock_of_some (digest : String → String) (db : Store) (k : Int) (b : Block)
    (hb : db.lookup k = some b) :
    validateBlock digest db k =
      .ok (decide (b.hash = digest (stringify { b with hash := "" }))) := by
  have hg : getBlock db k = .ok b := (getLevelDBData_eq_ok _ _ _).mpr hb
  unfold validateBlock
  rw [hg]
  by_cases h : b.hash = digest (stringify { b with hash := "" })
  · simp [h]
  · simp [h]

theorem validateBlock_of_none (digest : String → String) (db : Store) (k : Int)
    (hb : db.lookup k = none) :
    validateBlock digest db k =
      .error ("validateBlock: Error found when calling getBlock: " ++
        ("NotFoundError: Key not found in database [" ++ toString k ++ "]")) := by
  unfold validateBlock getBlock
  rw [getLevelDBData_of_none db k hb]

theorem validateBlockLink_of_genesis (db : Store) (k : Int) (b : Block)
    (hb : db.lookup k = some b) (h0 : b.height = 0) :
    validateBlockLink db k = .ok (decide (b.previousBlockHash = "")) := by
  have hg : getBlock db k = .ok b := (getLevelDBData_eq_ok _ _ _).mpr hb
  unfold validateBlockLink
  rw [hg]
  by_cases h : b.previousBlockHash = ""
  · simp [h0, h]
  · simp [h0, h]

theorem validateBlockLink_of_later (db : Store) (k : Int) (b p : Block)
    (hb : db.lookup k = some b) (h0 : b.height ≠ 0) (hp : db.lookup (k - 1) = some p) :
    validateBlockLink db k = .ok (decide (b.previousBlockHash = p.hash)) := by
  have hg : getBlock db k = .ok b := (getLevelDBData_eq_ok _ _ _).mpr hb
  have hq : getBlock db (k - 1) = .ok p := (getLevelDBData_eq_ok _ _ _).mpr hp
  unfold validateBlockLink
  rw [hg]
  simp only [h0, if_false, hq]
  by_cases h : b.previousBlockHash = p.hash
  · simp [h]
  · simp [h]

theorem validateBlockLink_of_no_previous (db : Store) (k : Int) (b : Block)
    (hb : db.lookup k = some b) (h0 : b.height ≠ 0) (hp : db.lookup (k - 1) = none) :
    validateBlockLink db k =
      .error ("validateBlockLink: Error found when calling getBlock of previous block: " ++
        ("NotFoundError: Key not found in database [" ++ toString (k - 1) ++ "]")) := by
  have hg : getBlock db k = .ok b := (getLevelDBData_eq_ok _ _ _).mpr hb
  have hq := getLevelDBData_of_none db (k - 1) hp
  unfold validateBlockLink
  rw [hg]
  simp only [h0, if_false, getBlock, hq]

/-! ## Facts about `generateGenesisBlock` -/

theorem generateGenesisBlock_of_empty (digest : String → String) (now : String) :
    generateGenesisBlock digest now [] =
      [(0, stamp digest (Block.new genesisBlockBody) 0 now "")] := by
  simp [generateGenesisBlock, getBlockHeight, getBlocksCount, keys, stamp, addDataToLevelDB,
    addLevelDBData, Block.new]

theorem generateGenesisBlock_of_nonempty (digest : String → String) (now : String)
    (db : Store) (h : 0 < getBlocksCount db) :
    generateGenesisBlock digest now db = db := by
  have hneg : ¬ (getBlockHeight db < 0) := by
    unfold getBlockHeight
    omega
  simp only [generateGenesisBlock, hneg, if_false]

/-! ## Facts about `validateChain` -/

theorem promiseAll_ok {α : Type} (l : List α) :
    promiseAll (l.map (Except.ok : α → Except String α)) = .ok l := by
  induction l with
  | nil => rfl
  | cons a l ih => simp [promiseAll, ih]

theorem validateChain_of_checks (digest : String → String) (db : Store) (len : Nat)
    (vb vl : Nat → Bool) (hc : getBlocksCount db = len)
    (hvb : ∀ i : Nat, i < len → validateBlock digest db (i : Int) = .ok (vb i))
    (hvl : ∀ i : Nat, i < len → validateBlockLink db (i : Int) = .ok (vl i)) :
    validateChain digest db =
      .ok ((List.range len).filterMap (fun i =>
            if vb i = false then some ("block hash invalid for block " ++ toString i)
            else none) ++
          (List.range len).filterMap (fun i =>
            if vl i = false then
              some ("previous block hash invalid for block " ++ toString i)
            else none)) := by
  have hlen : (getBlockHeight db + 1).toNat = len := by
    unfold getBlockHeight
    omega
  have h1 : (List.range len).map (fun i : Nat => validateBlock digest db (i : Int))
      = ((List.range len).map vb).map Except.ok := by
    rw [List.map_map]
    apply List.map_congr_left
    intro i hi
    exact hvb i (List.mem_range.mp hi)
  have h2 : (List.range len).map (fun i : Nat => validateBlockLink db (i : Int))
      = ((List.range len).map vl).map Except.ok := by
    rw [List.map_map]
    apply List.map_congr_left
    intro i hi
    exact hvl i (List.mem_range.mp hi)
  simp only [validateChain, hlen, h1, h2, ← List.map_append, promiseAll_ok]
  congr 1
  rw [List.nil_append]
  congr 1
  · apply List.filterMap_congr
    intro i hi
    have hi := List.mem_range.mp hi
    rw [List.getD_append _ _ _ _ (by simpa using hi)]
    rw [List.getD_eq_getElem _ _ (by simpa using hi)]
    simp
  · rw [List.length_append, List.length_map, List.length_map, List.length_range,
      Nat.add_sub_cancel, List.range'_eq_map_range, List.filterMap_map]
    apply List.filterMap_congr
    intro i hi
    have hi := List.mem_range.mp hi
    simp only [Function.comp]
    rw [List.getD_append_right _ _ _ _ (by simp)]
    simp only [List.length_map, List.length_range, Nat.add_sub_cancel_left]
    rw [List.getD_eq_getElem _ _ (by simpa using hi)]
    simp

/-! ## Facts about ledgers built by appends -/

theorem heightIsKey_put (db : Store) (k : Int) (v : Block) (h : HeightIsKey db)
    (hv : v.height = k) : HeightIsKey ((k, v) :: db) := by
  intro k1 b hb
  rw [lookup_cons_eq] at hb
  by_cases hk : k1 = k
  · rw [if_pos hk] at hb
    injection hb with hb
    rw [← hb, hv, hk]
  · rw [if_neg hk] at hb
    exact h k1 b hb

theorem hashesOk_put (digest : String → String) (db : Store) (k : Int) (v : Block)
    (h : HashesOk digest db) (hv : v.hash = digest (stringify { v with hash := "" })) :
    HashesOk digest ((k, v) :: db) := by
  intro k1 b hb
  rw [lookup_cons_eq] at hb
  by_cases hk : k1 = k
  · rw [if_pos hk] at hb
    injection hb with hb
    rw [← hb]
    exact hv
  · rw [if_neg hk] at hb
    exact h k1 b hb

theorem linksOk_put_next (db : Store) (n : Nat) (v tail : Block) (hkeys : KeysUpTo db n)
    (h : LinksOk db) (ht : db.lookup (n : Int) = some tail)
    (hv : v.previousBlockHash = tail.hash) :
    LinksOk ((((n : Int) + 1), v) :: db) := by
  constructor
  · intro b hb
    rw [lookup_cons_eq, if_neg (by omega)] at hb
    exact h.1 b hb
  · intro k b p hb hp
    rw [lookup_cons_eq] at hb hp
    by_cases hk : k = (n : Int) + 1
    · rw [if_pos hk] at hb
      rw [if_neg (by omega)] at hp
      injection hb with hb
      have hkn : k - 1 = (n : Int) := by omega
      rw [hkn, ht] at hp
      injection hp with hp
      rw [← hb, ← hp]
      exact hv
    · rw [if_neg hk] at hb
      have hle : k ≤ (n : Int) := ((hkeys k).mp (by rw [hb]; rfl)).2
      rw [if_neg (by omega)] at hp
      exact h.2 k b p hb hp

theorem addBlocks_invariant (digest : String → String) (calls : List Call) :
    ∀ (db : Store) (n : Nat), KeysUpTo db n → HeightIsKey db →
      ∃ db1, addBlocks digest calls db = .ok db1 ∧
        KeysUpTo db1 (n + calls.length) ∧ HeightIsKey db1 ∧
        ((∀ c ∈ calls, c.newBlock.hash = "") → HashesOk digest db → LinksOk db →
          HashesOk digest db1 ∧ LinksOk db1) := by
  induction calls with
  | nil =>
    intro db n hk hh
    exact ⟨db, rfl, hk, hh, fun _ h1 h2 => ⟨h1, h2⟩⟩
  | cons c rest ih =>
    intro db n hk hh
    obtain ⟨tail, ht⟩ := tail_of_keysUpTo db n hk
    have hc := getBlocksCount_of_keysUpTo db n hk
    have hstep := addBlock_of_tail digest c.now0 c.now c.newBlock db n tail hc ht
    have hk1 := keysUpTo_put_next db n
      (stamp digest c.newBlock ((n : Int) + 1) c.now tail.hash) hk
    have hh1 := heightIsKey_put db ((n : Int) + 1)
      (stamp digest c.newBlock ((n : Int) + 1) c.now tail.hash) hh rfl
    obtain ⟨db1, hrun, hkeys1, hheight1, hrest⟩ := ih _ (n + 1) hk1 hh1
    refine ⟨db1, ?_, ?_, hheight1, ?_⟩
    · simp only [addBlocks, hstep]
      exact hrun
    · have hlen : n + (c :: rest).length = n + 1 + rest.length := by
        simp only [List.length_cons]
        omega
      rw [hlen]
      exact hkeys1
    · intro hfresh hhash hlink
      apply hrest
      · intro c1 hc1
        exact hfresh c1 (List.mem_cons_of_mem _ hc1)
      · exact hashesOk_put digest db _ _ hhash
          (stamp_hash_of_fresh digest c.newBlock _ _ _ (hfresh c (List.mem_cons_self _ _)))
      · exact linksOk_put_next db n _ tail hk hlink ht rfl

theorem genesis_invariant (digest : String → String) (now : String) :
    KeysUpTo (generateGenesisBlock digest now []) 0 ∧
    HeightIsKey (generateGenesisBlock digest now []) ∧
    HashesOk digest (generateGenesisBlock digest now []) ∧
    LinksOk (generateGenesisBlock digest now []) := by
  rw [generateGenesisBlock_of_empty]
  refine ⟨keysUpTo_singleton _, ?_, ?_, ?_, ?_⟩
  · exact heightIsKey_put [] 0 _ (fun _ _ hb => by simp at hb) rfl
  · exact hashesOk_put digest [] 0 _ (fun _ _ hb => by simp at hb)
      (stamp_hash_of_fresh digest (Block.new genesisBlockBody) 0 now "" rfl)
  · intro b hb
    rw [lookup_cons_eq, if_pos rfl] at hb
    injection hb with hb
    rw [← hb]
    rfl
  · intro k b p hb hp
    rw [lookup_cons_eq] at hb hp
    by_cases hk : k = 0
    · rw [if_neg (by omega)] at hp
      simp at hp
    · rw [if_neg hk] at hb
      simp at hb

theorem record_of_keysUpTo (db : Store) (n : Nat) (hk : KeysUpTo db n) (i : Nat)
    (hi : i ≤ n) : ∃ b, db.lookup (i : Int) = some b := by
  have := (hk (i : Int)).mpr ⟨by omega, by omega⟩
  exact Option.isSome_iff_exists.mp this

theorem validateBlock_of_hashesOk (digest : String → String) (db : Store) (n : Nat)
    (hk : KeysUpTo db n) (hhash : HashesOk digest db) (i : Nat) (hi : i ≤ n) :
    validateBlock digest db (i : Int) = .ok true := by
  obtain ⟨b, hb⟩ := record_of_keysUpTo db n hk i hi
  rw [validateBlock_of_some digest db _ b hb]
  simp only [decide_eq_true_eq, Except.ok.injEq]
  exact hhash _ b hb

theorem validateBlockLink_of_linksOk (db : Store) (n : Nat) (hk : KeysUpTo db n)
    (hh : HeightIsKey db) (hlink : LinksOk db) (i : Nat) (hi : i ≤ n) :
    validateBlockLink db (i : Int) = .ok true := by
  obtain ⟨b, hb⟩ := record_of_keysUpTo db n hk i hi
  have hheight := hh _ b hb
  rcases Nat.eq_zero_or_pos i with h0 | h0
  · subst h0
    rw [validateBlockLink_of_genesis db _ b hb (by simpa using hheight)]
    simp only [decide_eq_true_eq, Except.ok.injEq]
    exact hlink.1 b (by simpa using hb)
  · obtain ⟨p, hp⟩ := record_of_keysUpTo db n hk (i - 1) (by omega)
    have hcast : ((i - 1 : Nat) : Int) = (i : Int) - 1 := by omega
    rw [hcast] at hp
    rw [validateBlockLink_of_later db _ b p hb (by omega) hp]
    simp only [decide_eq_true_eq, Except.ok.injEq]
    exact hlink.2 _ b p hb hp

/-! ## Facts about the asynchronous steps -/

theorem step_gotHeight_of_tail (digest : String → String) (now0 now : String)
    (newBlock : Block) (db : Store) (h : Nat) (tail : Block)
    (ht : db.lookup (h : Int) = some tail) :
    (Progress.gotHeight now0 now newBlock (h : Int)).step digest db =
      (.built (stamp digest newBlock ((h : Int) + 1) now tail.hash), db) := by
  have hg : getBlock db h = .ok tail := (getLevelDBData_eq_ok _ _ _).mpr ht
  have hneg : ¬ ((h : Int) < 0) := by omega
  simp [Progress.step, hneg, hg, stamp]

theorem steps_alone_of_tail (digest : String → String) (now0 now : String)
    (newBlock : Block) (db : Store) (n : Nat) (tail : Block)
    (hc : getBlocksCount db = n + 1) (ht : db.lookup (n : Int) = some tail) :
    Progress.steps digest 4 (.called now0 now newBlock) db =
      (.resolved (stamp digest newBlock ((n : Int) + 1) now tail.hash),
        (((n : Int) + 1), stamp digest newBlock ((n : Int) + 1) now tail.hash) :: db) := by
  have hh : getBlockHeight db = n := by
    unfold getBlockHeight
    omega
  have hk : (keys db).length = n + 1 := hc
  simp only [Progress.steps]
  have e1 : (Progress.called now0 now newBlock).step digest db =
      (.gotHeight now0 now newBlock (n : Int), db) := by
    simp [Progress.step, hh]
  rw [e1]
  simp only [step_gotHeight_of_tail digest now0 now newBlock db n tail ht]
  simp [Progress.step, hk, addLevelDBData]

theorem steps_alone_of_empty (digest : String → String) (now0 now : String)
    (newBlock : Block) :
    Progress.steps digest 5 (.called now0 now newBlock) [] =
      (.resolved (stamp digest newBlock 1 now
            (stamp digest (Block.new "\"First block in the chain - Genesis block\"")
              0 now0 "").hash),
        [(1, stamp digest newBlock 1 now
            (stamp digest (Block.new "\"First block in the chain - Genesis block\"")
              0 now0 "").hash),
         (0, stamp digest (Block.new "\"First block in the chain - Genesis block\"")
              0 now0 "")]) := by
  simp [Progress.steps, Progress.step, getBlockHeight, getBlocksCount, keys, stamp,
    addLevelDBData, Block.new]

/-- The steps of one call running alone make up `addBlock`: after at most five store
accesses the promise has settled as `addBlock` settles it, on the store `addBlock`
leaves. -/
theorem steps_alone_eq_addBlock (digest : String → String) (now0 now : String)
    (newBlock : Block) (db : Store) :
    ∃ k, k ≤ 5 ∧
      (Progress.steps digest k (.called now0 now newBlock) db).1.result =
        some ((addBlock digest now0 now newBlock db).map Prod.fst) ∧
      (Progress.steps digest k (.called now0 now newBlock) db).2 =
        (match addBlock digest now0 now newBlock db with
         | .ok (_, db1) => db1
         | .error _ => db) := by
  rcases Nat.eq_zero_or_pos (getBlocksCount db) with hc | hc
  · have hdb := (getBlocksCount_eq_zero db).mp hc
    subst hdb
    refine ⟨5, le_refl _, ?_, ?_⟩
    · rw [steps_alone_of_empty, addBlock_of_empty]
      rfl
    · rw [steps_alone_of_empty, addBlock_of_empty]
  · cases ht : db.lookup (getBlockHeight db) with
    | none =>
      have hneg : ¬ (getBlockHeight db < 0) := by
        unfold getBlockHeight
        omega
      have hg := getLevelDBData_of_none db _ ht
      refine ⟨2, by omega, ?_, ?_⟩
      · simp [Progress.steps, Progress.step, addBlock, hneg, getBlock, hg,
          Progress.result, Except.map]
      · simp [Progress.steps, Progress.step, addBlock, hneg, getBlock, hg]
    | some tail =>
      obtain ⟨n, hn⟩ : ∃ n : Nat, getBlocksCount db = n + 1 :=
        ⟨getBlocksCount db - 1, by omega⟩
      have hhn : getBlockHeight db = (n : Int) := by
        unfold getBlockHeight
        omega
      rw [hhn] at ht
      refine ⟨4, by omega, ?_, ?_⟩
      · rw [steps_alone_of_tail digest now0 now newBlock db n tail hn ht,
          addBlock_of_tail digest now0 now newBlock db n tail hn ht]
        rfl
      · rw [steps_alone_of_tail digest now0 now newBlock db n tail hn ht,
          addBlock_of_tail digest now0 now newBlock db n tail hn ht]

theorem run_append (digest : String → String) (xs ys : List Turn) (c : Config) :
    run digest (xs ++ ys) c = run digest ys (run digest xs c) := by
  induction xs generalizing c with
  | nil => rfl
  | cons t xs ih =>
    show run digest (xs ++ ys) (stepTurn digest t c) = _
    exact ih _

theorem keysUpTo_put_present (db : Store) (m : Nat) (k : Int) (v : Block)
    (hk : KeysUpTo db m) (h0 : 0 ≤ k) (hm : k ≤ (m : Int)) :
    KeysUpTo ((k, v) :: db) m := by
  intro k1
  rw [lookup_cons_eq]
  by_cases h : k1 = k
  · subst h
    simp
    exact ⟨h0, hm⟩
  · rw [if_neg h]
    exact hk k1

theorem inFlight_mono (h : Nat) (tail : Block) (m m1 : Nat) (hm : m ≤ m1) (t : Progress)
    (ht : InFlight h tail m t) : InFlight h tail m1 t := by
  cases t with
  | counted r i =>
    obtain ⟨h1, h2, h3, h4⟩ := ht
    exact ⟨h1, h2, h3, by omega⟩
  | called _ _ _ => exact ht
  | gotHeight _ _ _ _ => exact ht
  | genesisCounted _ _ _ _ => exact ht
  | built _ => exact ht
  | resolved _ => exact ht
  | rejected _ => exact ht

theorem step_inFlight (digest : String → String) (h : Nat) (tail : Block) (m : Nat)
    (t : Progress) (db : Store) (hm : h ≤ m) (hk : KeysUpTo db m)
    (ht : db.lookup (h : Int) = some tail)
    (hrec : ∀ (k : Int) (r : Block), (h : Int) < k → db.lookup k = some r →
      r.height = (h : Int) + 1)
    (hin : InFlight h tail m t) :
    ∃ m1 : Nat, m ≤ m1 ∧ KeysUpTo (t.step digest db).2 m1 ∧
      (t.step digest db).2.lookup (h : Int) = some tail ∧
      (∀ (k : Int) (r : Block), (h : Int) < k → (t.step digest db).2.lookup k = some r →
        r.height = (h : Int) + 1) ∧
      InFlight h tail m1 (t.step digest db).1 ∧
      (t.step digest db).1.stepsLeft = t.stepsLeft - 1 := by
  cases t with
  | called _ _ _ => exact absurd hin id
  | genesisCounted _ _ _ _ => exact absurd hin id
  | rejected _ => exact absurd hin id
  | gotHeight now0 now nb height =>
    have hh : height = (h : Int) := hin
    subst hh
    rw [step_gotHeight_of_tail digest now0 now nb db h tail ht]
    exact ⟨m, le_refl _, hk, ht, hrec, ⟨rfl, rfl⟩, rfl⟩
  | built r =>
    have hc : (keys db).length = m + 1 := getBlocksCount_of_keysUpTo db m hk
    refine ⟨m, le_refl _, hk, ht, hrec, ?_, rfl⟩
    show InFlight h tail m (.counted r (keys db).length)
    rw [hc]
    exact ⟨hin.1, hin.2, by omega, le_refl _⟩
  | resolved r =>
    exact ⟨m, le_refl _, hk, ht, hrec, hin, rfl⟩
  | counted r i =>
    obtain ⟨h1, h2, h3, h4⟩ := hin
    have hstore : ((Progress.counted r i).step digest db).2 = ((i : Int), r) :: db := rfl
    have hprog : ((Progress.counted r i).step digest db).1 = .resolved r := rfl
    rw [hstore, hprog]
    have hlook : List.lookup (h : Int) (((i : Int), r) :: db) = some tail := by
      rw [lookup_cons_eq, if_neg (by omega)]
      exact ht
    have hrec1 : ∀ (k : Int) (r1 : Block), (h : Int) < k →
        List.lookup k (((i : Int), r) :: db) = some r1 → r1.height = (h : Int) + 1 := by
      intro k r1 hlt hl
      rw [lookup_cons_eq] at hl
      by_cases hki : k = (i : Int)
      · rw [if_pos hki] at hl
        injection hl with hl
        rw [← hl]
        exact h1
      · rw [if_neg hki] at hl
        exact hrec k r1 hlt hl
    rcases Nat.lt_or_ge i (m + 1) with hlt | hge
    · exact ⟨m, le_refl _, keysUpTo_put_present db m _ r hk (by omega) (by omega), hlook,
        hrec1, ⟨h1, h2⟩, rfl⟩
    · have hi : i = m + 1 := by omega
      subst hi
      refine ⟨m + 1, by omega, ?_, hlook, hrec1, ⟨h1, h2⟩, rfl⟩
      have := keysUpTo_put_next db m r hk
      simpa using this

theorem stepTurn_overlapped (digest : String → String) (h : Nat) (tail : Block)
    (t : Turn) (c : Config) (hc : Overlapped h tail c) :
    Overlapped h tail (stepTurn digest t c) ∧
    (stepTurn digest t c).first.stepsLeft =
      c.first.stepsLeft - (if t = Turn.first then 1 else 0) ∧
    (stepTurn digest t c).second.stepsLeft =
      c.second.stepsLeft - (if t = Turn.second then 1 else 0) := by
  obtain ⟨m, hm, hk, ht, hrec, hf, hs⟩ := hc
  cases t with
  | first =>
    obtain ⟨m1, hm1, hk1, ht1, hrec1, hf1, hleft⟩ :=
      step_inFlight digest h tail m c.first c.db hm hk ht hrec hf
    refine ⟨⟨m1, by omega, hk1, ht1, hrec1, hf1, inFlight_mono h tail m m1 hm1 _ hs⟩, ?_, ?_⟩
    · simpa [stepTurn] using hleft
    · simp [stepTurn]
  | second =>
    obtain ⟨m1, hm1, hk1, ht1, hrec1, hs1, hleft⟩ :=
      step_inFlight digest h tail m c.second c.db hm hk ht hrec hs
    refine ⟨⟨m1, by omega, hk1, ht1, hrec1, inFlight_mono h tail m m1 hm1 _ hf, hs1⟩, ?_, ?_⟩
    · simp [stepTurn]
    · simpa [stepTurn] using hleft

theorem run_overlapped (digest : String → String) (h : Nat) (tail : Block)
    (post : List Turn) :
    ∀ c : Config, Overlapped h tail c →
      Overlapped h tail (run digest post c) ∧
      (run digest post c).first.stepsLeft = c.first.stepsLeft - post.count Turn.first ∧
      (run digest post c).second.stepsLeft =
        c.second.stepsLeft - post.count Turn.second := by
  induction post with
  | nil =>
    intro c hc
    exact ⟨hc, rfl, rfl⟩
  | cons t post ih =>
    intro c hc
    obtain ⟨hc1, hf1, hs1⟩ := stepTurn_overlapped digest h tail t c hc
    obtain ⟨hc2, hf2, hs2⟩ := ih _ hc1
    refine ⟨hc2, ?_, ?_⟩
    · simp only [run]
      rw [hf2, hf1]
      cases t
      · simp [List.count_cons]
        omega
      · simp [List.count_cons]
    · simp only [run]
      rw [hs2, hs1]
      cases t
      · simp [List.count_cons]
      · simp [List.count_cons]
        omega

theorem prefix_config (digest : String → String) (db : Store) (h : Nat)
    (hkeys : KeysUpTo db h) (tail : Block) (ht : db.lookup (h : Int) = some tail)
    (a b : Call) :
    run digest [Turn.first, Turn.second]
        ⟨.called a.now0 a.now a.newBlock, .called b.now0 b.now b.newBlock, db⟩ =
      ⟨.gotHeight a.now0 a.now a.newBlock (h : Int),
       .gotHeight b.now0 b.now b.newBlock (h : Int), db⟩ ∧
    run digest [Turn.first, Turn.first, Turn.second]
        ⟨.called a.now0 a.now a.newBlock, .called b.now0 b.now b.newBlock, db⟩ =
      ⟨.built (stamp digest a.newBlock ((h : Int) + 1) a.now tail.hash),
       .gotHeight b.now0 b.now b.newBlock (h : Int), db⟩ ∧
    run digest [Turn.first, Turn.first, Turn.first, Turn.second]
        ⟨.called a.now0 a.now a.newBlock, .called b.now0 b.now b.newBlock, db⟩ =
      ⟨.counted (stamp digest a.newBlock ((h : Int) + 1) a.now tail.hash) (h + 1),
       .gotHeight b.now0 b.now b.newBlock (h : Int), db⟩ := by
  have hh := getBlockHeight_of_keysUpTo db h hkeys
  have hc : (keys db).length = h + 1 := getBlocksCount_of_keysUpTo db h hkeys
  have hg : getBlock db h = .ok tail := (getLevelDBData_eq_ok _ _ _).mpr ht
  have hneg : ¬ ((h : Int) < 0) := by omega
  refine ⟨?_, ?_, ?_⟩ <;>
    simp [run, stepTurn, Progress.step, hh, hneg, hg, hc, stamp]

theorem prefix_overlapped (digest : String → String) (db : Store) (h : Nat)
    (hkeys : KeysUpTo db h) (tail : Block) (ht : db.lookup (h : Int) = some tail)
    (a b : Call) (j : Nat) (hj1 : 1 ≤ j) (hj3 : j ≤ 3) :
    Overlapped h tail
      (run digest (List.replicate j Turn.first ++ [Turn.second])
        ⟨.called a.now0 a.now a.newBlock, .called b.now0 b.now b.newBlock, db⟩) ∧
    (run digest (List.replicate j Turn.first ++ [Turn.second])
        ⟨.called a.now0 a.now a.newBlock, .called b.now0 b.now b.newBlock, db⟩).first.stepsLeft
      = 4 - j ∧
    (run digest (List.replicate j Turn.first ++ [Turn.second])
        ⟨.called a.now0 a.now a.newBlock, .called b.now0 b.now b.newBlock, db⟩).second.stepsLeft
      = 3 := by
  have hrec : ∀ (k : Int) (r : Block), (h : Int) < k → db.lookup k = some r →
      r.height = (h : Int) + 1 := by
    intro k r hlt hl
    have := ((hkeys k).mp (by rw [hl]; rfl)).2
    omega
  obtain ⟨e1, e2, e3⟩ := prefix_config digest db h hkeys tail ht a b
  interval_cases j
  · show Overlapped h tail (run digest [Turn.first, Turn.second] _) ∧
      (run digest [Turn.first, Turn.second] _).first.stepsLeft = _ ∧
      (run digest [Turn.first, Turn.second] _).second.stepsLeft = _
    rw [e1]
    exact ⟨⟨h, le_refl _, hkeys, ht, hrec, rfl, rfl⟩, rfl, rfl⟩
  · show Overlapped h tail (run digest [Turn.first, Turn.first, Turn.second] _) ∧
      (run digest [Turn.first, Turn.first, Turn.second] _).first.stepsLeft = _ ∧
      (run digest [Turn.first, Turn.first, Turn.second] _).second.stepsLeft = _
    rw [e2]
    exact ⟨⟨h, le_refl _, hkeys, ht, hrec, ⟨rfl, rfl⟩, rfl⟩, rfl, rfl⟩
  · show Overlapped h tail
        (run digest [Turn.first, Turn.first, Turn.first, Turn.second] _) ∧
      (run digest [Turn.first, Turn.first, Turn.first, Turn.second] _).first.stepsLeft = _ ∧
      (run digest [Turn.first, Turn.first, Turn.first, Turn.second] _).second.stepsLeft = _
    rw [e3]
    exact ⟨⟨h, le_refl _, hkeys, ht, hrec, ⟨rfl, rfl, by omega, le_refl _⟩, rfl⟩, rfl, rfl⟩

theorem resolved_of_no_steps_left (h : Nat) (tail : Block) (m : Nat) (t : Progress)
    (hin : InFlight h tail m t) (hleft : t.stepsLeft = 0) : ∃ r, t = .resolved r := by
  cases t with
  | resolved r => exact ⟨r, rfl⟩
  | rejected _ => exact absurd hin id
  | called _ _ _ => exact absurd hin id
  | genesisCounted _ _ _ _ => exact absurd hin id
  | gotHeight _ _ _ _ => simp [Progress.stepsLeft] at hleft
  | built _ => simp [Progress.stepsLeft] at hleft
  | counted _ _ => simp [Progress.stepsLeft] at hleft

theorem resolved_of_inFlight (h : Nat) (tail : Block) (m : Nat) (r : Block)
    (hin : InFlight h tail m (.resolved r)) :
    r.height = (h : Int) + 1 ∧ r.previousBlockHash = tail.hash :=
  hin

/-! ## Facts about tampered stores -/

theorem promiseAll_error {α : Type} (l : List (Except String α)) (e : String)
    (h : Except.error e ∈ l) : ∃ e1, promiseAll l = .error e1 := by
  induction l with
  | nil => simp at h
  | cons x l ih =>
    cases x with
    | error e0 => exact ⟨e0, rfl⟩
    | ok a =>
      have hl : Except.error e ∈ l := by
        rcases List.mem_cons.mp h with h1 | h1
        · cases h1
        · exact h1
      obtain ⟨e1, he1⟩ := ih hl
      exact ⟨e1, by simp [promiseAll, he1]⟩

theorem validateChain_of_rejected_link (digest : String → String) (db : Store) (len : Nat)
    (hc : getBlocksCount db = len) (i : Nat) (hi : i < len) (e : String)
    (he : validateBlockLink db (i : Int) = .error e) :
    ∃ e1, validateChain digest db = .error e1 := by
  have hlen : (getBlockHeight db + 1).toNat = len := by
    unfold getBlockHeight
    omega
  have hmem : Except.error e ∈
      (List.range len).map (fun (i : Nat) => validateBlock digest db (i : Int)) ++
      (List.range len).map (fun (i : Nat) => validateBlockLink db (i : Int)) := by
    apply List.mem_append_right
    rw [List.mem_map]
    exact ⟨i, List.mem_range.mpr hi, he⟩
  obtain ⟨e1, he1⟩ := promiseAll_error _ e hmem
  simp only [validateChain, hlen, he1]
  exact ⟨_, rfl⟩

theorem validateChain_of_resolved (digest : String → String) (db : Store) (len : Nat)
    (hc : getBlocksCount db = len)
    (hvb : ∀ i : Nat, i < len → ∃ r, validateBlock digest db (i : Int) = .ok r)
    (hvl : ∀ i : Nat, i < len → ∃ r, validateBlockLink db (i : Int) = .ok r) :
    validateChain digest db =
      .ok ((List.range len).filterMap (fun (i : Nat) =>
            if validateBlock digest db (i : Int) = .ok false then
              some ("block hash invalid for block " ++ toString i)
            else none) ++
          (List.range len).filterMap (fun (i : Nat) =>
            if validateBlockLink db (i : Int) = .ok false then
              some ("previous block hash invalid for block " ++ toString i)
            else none)) := by
  have hb : ∀ i : Nat, i < len → validateBlock digest db (i : Int) =
      .ok (decide (validateBlock digest db (i : Int) = .ok true)) := by
    intro i hi
    obtain ⟨r, hr⟩ := hvb i hi
    rw [hr]
    cases r <;> simp
  have hl : ∀ i : Nat, i < len → validateBlockLink db (i : Int) =
      .ok (decide (validateBlockLink db (i : Int) = .ok true)) := by
    intro i hi
    obtain ⟨r, hr⟩ := hvl i hi
    rw [hr]
    cases r <;> simp
  have hb2 : ∀ i : Nat, i < len →
      (decide (validateBlock digest db (i : Int) = .ok true) = false ↔
        validateBlock digest db (i : Int) = .ok false) := by
    intro i hi
    obtain ⟨r, hr⟩ := hvb i hi
    rw [hr]
    cases r <;> simp
  have hl2 : ∀ i : Nat, i < len →
      (decide (validateBlockLink db (i : Int) = .ok true) = false ↔
        validateBlockLink db (i : Int) = .ok false) := by
    intro i hi
    obtain ⟨r, hr⟩ := hvl i hi
    rw [hr]
    cases r <;> simp
  rw [validateChain_of_checks digest db len _ _ hc hb hl]
  congr 2
  · apply List.filterMap_congr
    intro i hi
    simp only [hb2 i (List.mem_range.mp hi)]
  · apply List.filterMap_congr
    intro i hi
    simp only [hl2 i (List.mem_range.mp hi)]

theorem validateBlock_resolves (digest : String → String) (db : Store) (n : Nat)
    (hk : KeysUpTo db n) (i : Nat) (hi : i ≤ n) :
    ∃ r, validateBlock digest db (i : Int) = .ok r := by
  obtain ⟨b, hb⟩ := record_of_keysUpTo db n hk i hi
  exact ⟨_, validateBlock_of_some digest db _ b hb⟩

theorem validateBlockLink_resolves (db : Store) (n : Nat) (hk : KeysUpTo db n)
    (g : Block) (hg : db.lookup 0 = some g) (h0 : g.height = 0) (i : Nat) (hi : i ≤ n) :
    ∃ r, validateBlockLink db (i : Int) = .ok r := by
  obtain ⟨b, hb⟩ := record_of_keysUpTo db n hk i hi
  by_cases hb0 : b.height = 0
  · exact ⟨_, validateBlockLink_of_genesis db _ b hb hb0⟩
  · rcases Nat.eq_zero_or_pos i with hi0 | hi0
    · subst hi0
      have hbg : b = g := by
        have : some b = some g := by
          rw [← hb, ← hg]
          rfl
        injection this
      rw [hbg] at hb0
      exact absurd h0 hb0
    · obtain ⟨p, hp⟩ := record_of_keysUpTo db n hk (i - 1) (by omega)
      have hcast : ((i - 1 : Nat) : Int) = (i : Int) - 1 := by omega
      rw [hcast] at hp
      exact ⟨_, validateBlockLink_of_later db _ b p hb hb0 hp⟩

theorem modifyBlock_body_invariant (db : Store) (n k : Nat)
    (hk : k ≤ n) (b : Block) (body : String) (hkeys : KeysUpTo db n)
    (hheight : HeightIsKey db) (hb : db.lookup (k : Int) = some b) :
    KeysUpTo (_modifyBlock db (k : Int) { b with body := body }) n ∧
    HeightIsKey (_modifyBlock db (k : Int) { b with body := body }) ∧
    (_modifyBlock db (k : Int) { b with body := body }).lookup (k : Int)
      = some { b with body := body } ∧
    ∃ g, (_modifyBlock db (k : Int) { b with body := body }).lookup 0 = some g ∧
      g.height = 0 := by
  have hbh : b.height = (k : Int) := hheight _ b hb
  refine ⟨keysUpTo_put_present db n _ _ hkeys (by omega) (by omega),
    heightIsKey_put db _ _ hheight hbh, ?_, ?_⟩
  · show List.lookup (k : Int) (((k : Int), { b with body := body }) :: db) = _
    rw [lookup_cons_eq, if_pos rfl]
  · rcases Nat.eq_zero_or_pos k with h0 | h0
    · subst h0
      refine ⟨{ b with body := body }, ?_, by simpa using hbh⟩
      show List.lookup 0 ((((0 : Nat) : Int), { b with body := body }) :: db) = _
      rw [lookup_cons_eq, if_pos (by simp)]
    · obtain ⟨g, hg⟩ := record_of_keysUpTo db n hkeys 0 (by omega)
      refine ⟨g, ?_, by simpa using hheight _ g hg⟩
      show List.lookup 0 (((k : Int), { b with body := body }) :: db) = _
      rw [lookup_cons_eq, if_neg (by omega)]
      simpa using hg

/-! ## Facts about the read stream -/

theorem mem_scan_iff (db : Store) (k : Int) (b : Block) :
    (k, b) ∈ scan db ↔ db.lookup k = some b := by
  unfold scan
  rw [List.mem_filterMap]
  constructor
  · rintro ⟨k1, -, h⟩
    cases hl : db.lookup k1 with
    | none => simp [hl] at h
    | some v =>
      simp only [hl, Option.map_some', Option.some.injEq, Prod.mk.injEq] at h
      rw [← h.1, ← h.2]
      exact hl
  · intro h
    refine ⟨k, ?_, by simp [h]⟩
    rw [List.mem_insertionSort, ← lookup_isSome_iff_mem_keys, h]
    rfl

theorem foldl_settled (blockHash : String) (l : List (Int × Block)) (value : String) :
    l.foldl (fun promise data =>
      if data.2.hash = blockHash then
        match promise with
        | none => some (stringify data.2)
        | some value => some value
      else promise) (some value) = some value := by
  induction l with
  | nil => rfl
  | cons d l ih =>
    simp only [List.foldl_cons]
    by_cases h : d.2.hash = blockHash
    · simp only [h, if_true]
      exact ih
    · simp only [h, if_false]
      exact ih

theorem foldl_eq_find (blockHash : String) (l : List (Int × Block)) :
    l.foldl (fun promise data =>
      if data.2.hash = blockHash then
        match promise with
        | none => some (stringify data.2)
        | some value => some value
      else promise) none =
    (l.find? (fun data => decide (data.2.hash = blockHash))).map
      (fun data => stringify data.2) := by
  induction l with
  | nil => rfl
  | cons d l ih =>
    simp only [List.foldl_cons, List.find?_cons]
    by_cases h : d.2.hash = blockHash
    · simp only [h, if_true, decide_True, Option.map_some']
      exact foldl_settled blockHash l _
    · simp only [h, if_false, decide_False]
      exact ih

theorem getBlockByHash_eq_find (db : Store) (blockHash : String) :
    getBlockByHash db blockHash =
      match (scan db).find? (fun data => decide (data.2.hash = blockHash)) with
      | some data => .ok (stringify data.2)
      | none => .error ("Warning: Block has not been found by hash: " ++ blockHash) := by
  unfold getBlockByHash getLevelDBDatabyHash
  simp only [foldl_eq_find]
  cases (scan db).find? (fun data => decide (data.2.hash = blockHash)) <;> rfl

/-! ## Facts about arrays -/

theorem eraseIdx_findIdx? {α : Type} (p : α → Bool) (l : List α) :
    (match l.findIdx? p with
     | some i => l.eraseIdx i
     | none => l) = l.eraseP p := by
  induction l with
  | nil => rfl
  | cons a l ih =>
    rw [List.findIdx?_cons, List.eraseP_cons]
    by_cases h : p a = true
    · simp [h]
    · simp only [h, if_false, Bool.false_eq_true, cond_false]
      rw [List.findIdx?_succ, ← ih]
      cases l.findIdx? p <;> simp

theorem findIndex_erase {α : Type} (p : α → Bool) (l : List α) :
    (if findIndex p l ≥ 0 then l.eraseIdx (findIndex p l).toNat else l) = l.eraseP p := by
  rw [← eraseIdx_findIdx?]
  unfold findIndex
  cases l.findIdx? p with
  | none => simp
  | some i => simp

theorem findIndex_neg_iff {α : Type} (p : α → Bool) (l : List α) :
    findIndex p l < 0 ↔ ∀ x ∈ l, p x = false := by
  unfold findIndex
  cases h : l.findIdx? p with
  | none =>
    rw [List.findIdx?_eq_none_iff] at h
    simp
    exact h
  | some i =>
    constructor
    · intro hlt
      simp at hlt
      omega
    · intro hall
      rw [← List.findIdx?_eq_none_iff, h] at hall
      cases hall

theorem findIndex_of_none {α : Type} (p : α → Bool) (l : List α)
    (h : ∀ x ∈ l, p x = false) : findIndex p l = -1 := by
  unfold findIndex
  rw [List.findIdx?_eq_none_iff.mpr h]

theorem findIndex_of_some {α : Type} (p : α → Bool) (l : List α) (i : Nat)
    (h : l.findIdx? p = some i) : findIndex p l = (i : Int) := by
  unfold findIndex
  rw [h]

theorem findIdx?_of_exists {α : Type} (p : α → Bool) (l : List α)
    (h : ¬ ∀ x ∈ l, p x = false) :
    ∃ (i : Nat) (r : α), l.findIdx? p = some i ∧ l[i]? = some r ∧ p r = true ∧
      l.find? p = some r := by
  cases hf : l.findIdx? p with
  | none => exact absurd (List.findIdx?_eq_none_iff.mp hf) h
  | some i =>
    obtain ⟨hlt, hp, hbefore⟩ := List.findIdx?_eq_some_iff_getElem.mp hf
    refine ⟨i, l[i], rfl, List.getElem?_eq_getElem hlt, hp, ?_⟩
    rw [List.find?_eq_some]
    refine ⟨hp, l.take i, l.drop (i + 1), ?_, ?_⟩
    · rw [← List.drop_eq_getElem_cons hlt, List.take_append_drop]
    · intro a ha
      obtain ⟨j, hj, hja⟩ := List.getElem_of_mem ha
      rw [List.length_take] at hj
      rw [List.getElem_take] at hja
      have := hbefore j (by omega)
      rw [hja] at this
      simpa using this

theorem findIdx?_append_new {α : Type} (p : α → Bool) (l : List α) (x : α)
    (hl : ∀ y ∈ l, p y = false) (hx : p x = true) :
    (l ++ [x]).findIdx? p = some l.length := by
  rw [List.findIdx?_eq_some_iff_getElem]
  refine ⟨by simp, by simpa using hx, ?_⟩
  intro j hj
  rw [List.getElem_append_left hj]
  simpa using hl _ (List.getElem_mem hj)

theorem findIdx?_set {α : Type} (p : α → Bool) (l : List α) (i : Nat) (x : α)
    (hf : l.findIdx? p = some i) (hx : p x = true) :
    (l.set i x).findIdx? p = some i := by
  obtain ⟨hlt, -, hbefore⟩ := List.findIdx?_eq_some_iff_getElem.mp hf
  rw [List.findIdx?_eq_some_iff_getElem]
  refine ⟨by simpa using hlt, by simpa using hx, ?_⟩
  intro j hj
  rw [List.getElem_set_ne (by omega)]
  exact hbefore j hj

theorem nodup_eraseP_no_match {α β : Type} [DecidableEq β] (f : α → β) (a : β)
    (l : List α) (hnd : (l.map f).Nodup) :
    ∀ x ∈ l.eraseP (fun y => decide (f y = a)), f x ≠ a := by
  induction l with
  | nil => simp
  | cons y l ih =>
    rw [List.map_cons, List.nodup_cons] at hnd
    by_cases hy : f y = a
    · rw [List.eraseP_cons_of_pos (by simpa using hy)]
      intro x hx hfx
      apply hnd.1
      rw [hy, ← hfx]
      exact List.mem_map_of_mem f hx
    · rw [List.eraseP_cons_of_neg (by simpa using hy)]
      intro x hx
      rcases List.mem_cons.mp hx with h1 | h1
      · rw [h1]
        exact hy
      · exact ih hnd.2 x h1

theorem eraseP_of_no_match {α : Type} (p : α → Bool) (l : List α)
    (h : ∀ x ∈ l, p x = false) : l.eraseP p = l := by
  induction l with
  | nil => rfl
  | cons y l ih =>
    have hy : ¬ (p y = true) := by
      rw [h y (List.mem_cons_self _ _)]
      simp
    rw [List.eraseP_cons_of_neg hy, ih (fun x hx => h x (List.mem_cons_of_mem _ hx))]

theorem append_ne_of_prefix_ne (a1 a2 b1 b2 : String)
    (hlen : a1.data.length = b1.data.length) (hne : a1 ≠ b1) :
    a1 ++ a2 ≠ b1 ++ b2 := by
  intro h
  apply hne
  have hd := congrArg String.data h
  rw [String.data_append, String.data_append] at hd
  exact String.ext (List.append_inj_left hd hlen)

theorem notFound_ne_verifyError (a e : String) :
    "validateRequestByWallet: request not found on mempool: " ++ a ≠
      "validateRequestByWallet: an error has occurred while " ++
        "validating signature: " ++ e := by
  have h1 : "validateRequestByWallet: request not found on mempool: " =
      "validateRequestByWallet: r" ++ "equest not found on mempool: " := by decide
  have h2 : "validateRequestByWallet: an error has occurred while " =
      "validateRequestByWallet: a" ++ "n error has occurred while " := by decide
  rw [h1, h2, String.append_assoc, String.append_assoc, String.append_assoc]
  exact append_ne_of_prefix_ne _ _ _ _ (by decide) (by decide)

theorem notFound_ne_invalid (a b : String) :
    "validateRequestByWallet: request not found on mempool: " ++ a ≠
      "validateRequestByWallet: signature is not valid: " ++ b := by
  have h1 : "validateRequestByWallet: request not found on mempool: " =
      "validateRequestByWallet: r" ++ "equest not found on mempool: " := by decide
  have h2 : "validateRequestByWallet: signature is not valid: " =
      "validateRequestByWallet: s" ++ "ignature is not valid: " := by decide
  rw [h1, h2, String.append_assoc, String.append_assoc]
  exact append_ne_of_prefix_ne _ _ _ _ (by decide) (by decide)

/-! ## Facts about the pool -/

theorem absent_iff (a : String) (l : List Request) :
    (∀ x ∈ l, (fun (r : Request) => decide (r.walletAddress = a)) x = false) ↔
      ∀ r ∈ l, r.walletAddress ≠ a := by
  simp

theorem addRequestValidation_of_absent (now : Nat) (a : String) (t : Nat) (s : Mempool)
    (hno : ∀ r ∈ s.mempool, r.walletAddress ≠ a) (hne : a ≠ "length") :
    addRequestValidation now a t s =
      .ok (⟨a, t, a ++ ":" ++ toString t ++ ":starRegistry", verifyWindowTime now t⟩,
        { s with
          mempool := s.mempool ++
            [⟨a, t, a ++ ":" ++ toString t ++ ":starRegistry", verifyWindowTime now t⟩],
          timeoutRequests :=
            (if a = "__proto__" then s.timeoutRequests
             else (a, ⟨a, now + TimeoutRequestsWindowTime⟩) :: s.timeoutRequests),
          timers := s.timers ++ [⟨a, now + TimeoutRequestsWindowTime⟩] }) := by
  have hidx := findIndex_of_none _ _ ((absent_iff a s.mempool).mpr hno)
  simp only [addRequestValidation, hidx, if_neg hne]
  rfl

theorem addRequestValidation_of_absent_length (now : Nat) (t : Nat) (s : Mempool)
    (hno : ∀ r ∈ s.mempool, r.walletAddress ≠ "length") :
    addRequestValidation now "length" t s =
      .error ("RangeError: Invalid array length",
        { s with
          mempool := s.mempool ++
            [⟨"length", t, "length" ++ ":" ++ toString t ++ ":starRegistry",
              verifyWindowTime now t⟩],
          timers := s.timers ++ [⟨"length", now + TimeoutRequestsWindowTime⟩] }) := by
  have hidx := findIndex_of_none _ _ ((absent_iff "length" s.mempool).mpr hno)
  simp only [addRequestValidation, hidx]
  rfl

theorem addRequestValidation_of_present (now : Nat) (a : String) (t : Nat) (s : Mempool)
    (i : Nat) (r0 : Request)
    (hf : s.mempool.findIdx? (fun r => decide (r.walletAddress = a)) = some i)
    (hr : s.mempool[i]? = some r0) :
    addRequestValidation now a t s =
      .ok ({ r0 with validationWindow := verifyWindowTime now r0.requestTimeStamp },
        { s with mempool := (s.mempool.set i
            { r0 with validationWindow := verifyWindowTime now r0.requestTimeStamp }) }) := by
  have hidx := findIndex_of_some _ _ i hf
  simp only [addRequestValidation, hidx]
  simp [hr]

theorem leaves_addRequestValidation_of_absent (now : Nat) (a : String) (t : Nat)
    (s : Mempool) (hno : ∀ r ∈ s.mempool, r.walletAddress ≠ a) :
    (leaves (addRequestValidation now a t s)).mempool = s.mempool ++
      [⟨a, t, a ++ ":" ++ toString t ++ ":starRegistry", verifyWindowTime now t⟩] ∧
    (leaves (addRequestValidation now a t s)).mempoolValid = s.mempoolValid ∧
    (leaves (addRequestValidation now a t s)).timers =
      s.timers ++ [⟨a, now + TimeoutRequestsWindowTime⟩] := by
  by_cases hne : a = "length"
  · rw [hne] at hno ⊢
    rw [addRequestValidation_of_absent_length now t s hno]
    exact ⟨rfl, rfl, rfl⟩
  · rw [addRequestValidation_of_absent now a t s hno hne]
    exact ⟨rfl, rfl, rfl⟩

theorem leaves_addRequestValidation_of_present (now : Nat) (a : String) (t : Nat)
    (s : Mempool) (i : Nat) (r0 : Request)
    (hf : s.mempool.findIdx? (fun r => decide (r.walletAddress = a)) = some i)
    (hr : s.mempool[i]? = some r0) :
    leaves (addRequestValidation now a t s) =
      { s with mempool := (s.mempool.set i
          { r0 with validationWindow := verifyWindowTime now r0.requestTimeStamp }) } := by
  rw [addRequestValidation_of_present now a t s i r0 hf hr]
  rfl

theorem removeValidationRequest_eq (a : String) (s : Mempool) (hne : a ≠ "length") :
    removeValidationRequest a s =
      .ok ((), { s with
        mempool := s.mempool.eraseP (fun r => decide (r.walletAddress = a)),
        timeoutRequests := s.timeoutRequests.filter (fun entry => entry.1 ≠ a),
        mempoolValid := s.mempoolValid.eraseP (fun v => decide (v.status.address = a)) }) := by
  simp only [removeValidationRequest, findIndex_erase, if_neg hne]

theorem removeValidationRequest_length (s : Mempool) :
    removeValidationRequest "length" s =
      .error ("TypeError: Cannot delete property \x27length\x27 of [object Array]",
        { s with
          mempool := s.mempool.eraseP (fun r => decide (r.walletAddress = "length")) }) := by
  simp only [removeValidationRequest, findIndex_erase, if_true]

theorem leaves_removeValidationRequest (a : String) (s : Mempool) :
    (leaves (removeValidationRequest a s)).mempool =
      s.mempool.eraseP (fun r => decide (r.walletAddress = a)) ∧
    (leaves (removeValidationRequest a s)).timers = s.timers ∧
    (leaves (removeValidationRequest a s)).mempoolValid =
      (if a = "length" then s.mempoolValid
       else s.mempoolValid.eraseP (fun v => decide (v.status.address = a))) ∧
    (a ≠ "length" → (leaves (removeValidationRequest a s)).timeoutRequests =
      s.timeoutRequests.filter (fun entry => entry.1 ≠ a)) := by
  by_cases hne : a = "length"
  · rw [hne, removeValidationRequest_length]
    exact ⟨rfl, rfl, rfl, fun h => absurd rfl h⟩
  · rw [removeValidationRequest_eq a s hne, if_neg hne]
    exact ⟨rfl, rfl, rfl, fun _ => rfl⟩

/-- For an address other than `length` that is not pending the call returns, and the pool
it returns is the pool it leaves. -/
theorem addRequestValidation_ok_of_absent (now : Nat) (a : String) (t : Nat) (s : Mempool)
    (hno : ∀ r ∈ s.mempool, r.walletAddress ≠ a) (hne : a ≠ "length") :
    addRequestValidation now a t s =
      .ok (⟨a, t, a ++ ":" ++ toString t ++ ":starRegistry", verifyWindowTime now t⟩,
        leaves (addRequestValidation now a t s)) := by
  rw [addRequestValidation_of_absent now a t s hno hne]
  rfl

/-- For the address `length` when it is not pending the call throws, and the pool the
exception carries is the pool the call leaves. -/
theorem addRequestValidation_error_of_absent (now : Nat) (t : Nat) (s : Mempool)
    (hno : ∀ r ∈ s.mempool, r.walletAddress ≠ "length") :
    addRequestValidation now "length" t s =
      .error ("RangeError: Invalid array length",
        leaves (addRequestValidation now "length" t s)) := by
  rw [addRequestValidation_of_absent_length now t s hno]
  rfl

theorem removeValidationRequest_ok (a : String) (s : Mempool) (hne : a ≠ "length") :
    removeValidationRequest a s = .ok ((), leaves (removeValidationRequest a s)) := by
  rw [removeValidationRequest_eq a s hne]
  rfl

theorem validateRequestByWallet_of_absent
    (verify : String → String → String → Except String Bool) (now : Nat)
    (a sig : String) (s : Mempool) (hno : ∀ r ∈ s.mempool, r.walletAddress ≠ a) :
    validateRequestByWallet verify now a sig s =
      .ok (⟨true, .text ("validateRequestByWallet: request not found on mempool: " ++ a)⟩,
        s) := by
  have hidx := findIndex_of_none _ _ ((absent_iff a s.mempool).mpr hno)
  simp only [validateRequestByWallet, hidx]
  rfl

theorem validateRequestByWallet_of_present
    (verify : String → String → String → Except String Bool) (now : Nat)
    (a sig : String) (s : Mempool) (i : Nat) (r0 : Request)
    (hf : s.mempool.findIdx? (fun r => decide (r.walletAddress = a)) = some i)
    (hr : s.mempool[i]? = some r0) :
    validateRequestByWallet verify now a sig s =
      match verify r0.message r0.walletAddress sig with
      | .error err =>
        .ok (⟨true, .text ("validateRequestByWallet: an error has occurred while " ++
          "validating signature: " ++ err)⟩, s)
      | .ok true =>
        .ok (⟨false, .request (validRequestOf now a r0)⟩,
          { s with mempoolValid :=
              if verifyAddressRequest a s = false then
                s.mempoolValid ++ [validRequestOf now a r0]
              else s.mempoolValid })
      | .ok false =>
        .ok (⟨true, .text ("validateRequestByWallet: signature is not valid: " ++ a)⟩,
          s) := by
  have hidx := findIndex_of_some _ _ i hf
  simp only [validateRequestByWallet, hidx]
  simp only [Int.toNat_ofNat, hr, ge_iff_le, Int.natCast_nonneg, if_true]
  cases hv : verify r0.message r0.walletAddress sig with
  | error err => rfl
  | ok isValid =>
    cases isValid with
    | false => rfl
    | true =>
      simp only [if_true, validRequestOf, verifyAddressRequest]
      by_cases hneg : findIndex (fun (v : ValidRequest) => decide (v.status.address = a))
          s.mempoolValid < 0
      · simp [hneg]
      · simp [hneg]

theorem map_set_same {α β : Type} (f : α → β) (l : List α) (i : Nat) (x r0 : α)
    (hr : l[i]? = some r0) (hx : f x = f r0) : (l.set i x).map f = l.map f := by
  apply List.ext_getElem?
  intro j
  rw [List.getElem?_map, List.getElem?_map, List.getElem?_set]
  by_cases hij : i = j
  · subst hij
    have hlt : i < l.length := by
      rcases Nat.lt_or_ge i l.length with h | h
      · exact h
      · rw [List.getElem?_eq_none h] at hr
        cases hr
    simp [hlt, hr, hx]
  · simp [hij]

theorem verifyAddressRequest_eq_false (a : String) (s : Mempool) :
    verifyAddressRequest a s = false ↔ ∀ v ∈ s.mempoolValid, v.status.address ≠ a := by
  unfold verifyAddressRequest
  by_cases hneg : findIndex (fun (v : ValidRequest) => decide (v.status.address = a))
      s.mempoolValid < 0
  · simp only [hneg, if_true, true_iff]
    have := (findIndex_neg_iff _ _).mp hneg
    simpa using this
  · simp only [hneg, if_false, Bool.true_eq_false, false_iff]
    intro hall
    apply hneg
    rw [findIndex_neg_iff]
    simpa using hall

theorem lookup_filter_ne (a : String) (l : List (String × Timeout)) :
    (l.filter (fun entry => entry.1 ≠ a)).lookup a = none := by
  induction l with
  | nil => rfl
  | cons e l ih =>
    by_cases he : e.1 = a
    · rw [List.filter_cons_of_neg (by simpa using he)]
      exact ih
    · have hb : (a == e.1) = false := by
        simpa using fun h => he h.symm
      rw [List.filter_cons_of_pos (by simpa using he)]
      obtain ⟨k, v⟩ := e
      rw [List.lookup_cons, hb]
      exact ih

/-- After `removeValidationRequest(a)`, returned or thrown, a pool with one entry per
address has no pending request for `a`; when the call returns (`a` is not `length`) it has
no confirmed request and no table entry for `a` either. -/
theorem removed_is_absent (a : String) (s : Mempool) (hinv : OneEntryEach s) :
    (∀ r ∈ (leaves (removeValidationRequest a s)).mempool, r.walletAddress ≠ a) ∧
    (a ≠ "length" →
      (∀ v ∈ (leaves (removeValidationRequest a s)).mempoolValid, v.status.address ≠ a) ∧
      (leaves (removeValidationRequest a s)).timeoutRequests.lookup a = none) := by
  obtain ⟨h1, -, h3, h4⟩ := leaves_removeValidationRequest a s
  refine ⟨?_, fun hne => ⟨?_, ?_⟩⟩
  · rw [h1]
    exact nodup_eraseP_no_match (fun (r : Request) => r.walletAddress) a s.mempool hinv.1
  · rw [h3, if_neg hne]
    exact nodup_eraseP_no_match (fun (v : ValidRequest) => v.status.address) a
      s.mempoolValid hinv.2
  · rw [h4 hne]
    exact lookup_filter_ne a s.timeoutRequests

theorem removeValidationRequest_of_absent (a : String) (s : Mempool) (hne : a ≠ "length")
    (h1 : ∀ r ∈ s.mempool, r.walletAddress ≠ a)
    (h2 : ∀ v ∈ s.mempoolValid, v.status.address ≠ a)
    (h3 : ∀ entry ∈ s.timeoutRequests, entry.1 ≠ a) :
    removeValidationRequest a s = .ok ((), s) := by
  rw [removeValidationRequest_eq a s hne,
    eraseP_of_no_match _ s.mempool (by simpa using h1),
    eraseP_of_no_match _ s.mempoolValid (by simpa using h2),
    List.filter_eq_self.mpr (by simpa using h3)]

theorem removeValidationRequest_oneEntryEach (a : String) (s : Mempool)
    (hinv : OneEntryEach s) : OneEntryEach (leaves (removeValidationRequest a s)) := by
  obtain ⟨h1, -, h3, -⟩ := leaves_removeValidationRequest a s
  unfold OneEntryEach
  rw [h1, h3]
  refine ⟨List.Nodup.sublist ((List.eraseP_sublist _).map _) hinv.1, ?_⟩
  by_cases hne : a = "length"
  · rw [if_pos hne]
    exact hinv.2
  · rw [if_neg hne]
    exact List.Nodup.sublist ((List.eraseP_sublist _).map _) hinv.2

theorem addRequestValidation_oneEntryEach (now : Nat) (a : String) (t : Nat)
    (s : Mempool) (hinv : OneEntryEach s) :
    OneEntryEach (leaves (addRequestValidation now a t s)) := by
  by_cases hno : ∀ r ∈ s.mempool, r.walletAddress ≠ a
  · obtain ⟨h1, h2, -⟩ := leaves_addRequestValidation_of_absent now a t s hno
    unfold OneEntryEach
    rw [h1, h2]
    refine ⟨?_, hinv.2⟩
    simp only [List.map_append, List.map_cons, List.map_nil]
    rw [List.nodup_append]
    refine ⟨hinv.1, List.nodup_singleton _, ?_⟩
    intro x hx hx1
    rw [List.mem_singleton] at hx1
    rw [hx1] at hx
    obtain ⟨r1, hr1, hr2⟩ := List.mem_map.mp hx
    exact hno r1 hr1 hr2
  · obtain ⟨i, r0, hf, hr, hp, -⟩ := findIdx?_of_exists
      (fun (r : Request) => decide (r.walletAddress = a)) s.mempool
      (fun hall => hno ((absent_iff a s.mempool).mp hall))
    rw [leaves_addRequestValidation_of_present now a t s i r0 hf hr]
    refine ⟨?_, hinv.2⟩
    show (List.map (fun (request : Request) => request.walletAddress)
      (s.mempool.set i _)).Nodup
    rw [map_set_same (fun (request : Request) => request.walletAddress) s.mempool i
      { r0 with validationWindow := verifyWindowTime now r0.requestTimeStamp } r0 hr rfl]
    exact hinv.1

theorem validateRequestByWallet_oneEntryEach
    (verify : String → String → String → Except String Bool) (now : Nat)
    (a sig : String) (s : Mempool) (resp : ResponseObject) (next : Mempool)
    (h : validateRequestByWallet verify now a sig s = .ok (resp, next))
    (hinv : OneEntryEach s) :
    OneEntryEach next ∧ next.mempool = s.mempool ∧ next.timers = s.timers ∧
    (verifyAddressRequest a s = true → next.mempoolValid = s.mempoolValid) := by
  by_cases hno : ∀ r ∈ s.mempool, r.walletAddress ≠ a
  · rw [validateRequestByWallet_of_absent verify now a sig s hno] at h
    injection h with h
    injection h with h1 h2
    subst h2
    exact ⟨hinv, rfl, rfl, fun _ => rfl⟩
  · obtain ⟨i, r0, hf, hr, hp, -⟩ := findIdx?_of_exists
      (fun (r : Request) => decide (r.walletAddress = a)) s.mempool
      (fun hall => hno ((absent_iff a s.mempool).mp hall))
    rw [validateRequestByWallet_of_present verify now a sig s i r0 hf hr] at h
    cases hv : verify r0.message r0.walletAddress sig with
    | error err =>
      rw [hv] at h
      injection h with h
      injection h with h1 h2
      subst h2
      exact ⟨hinv, rfl, rfl, fun _ => rfl⟩
    | ok isValid =>
      cases isValid with
      | false =>
        rw [hv] at h
        injection h with h
        injection h with h1 h2
        subst h2
        exact ⟨hinv, rfl, rfl, fun _ => rfl⟩
      | true =>
        rw [hv] at h
        injection h with h
        injection h with h1 h2
        subst h2
        by_cases hconf : verifyAddressRequest a s = false
        · refine ⟨⟨hinv.1, ?_⟩, rfl, rfl, ?_⟩
          · simp only [hconf, if_true, List.map_append, List.map_cons, List.map_nil]
            rw [List.nodup_append]
            refine ⟨hinv.2, List.nodup_singleton _, ?_⟩
            intro x hx hx1
            rw [List.mem_singleton] at hx1
            rw [hx1] at hx
            obtain ⟨v1, hv1, hv2⟩ := List.mem_map.mp hx
            exact (verifyAddressRequest_eq_false a s).mp hconf v1 hv1 hv2
          · intro htrue
            rw [htrue] at hconf
            cases hconf
        · have htrue : verifyAddressRequest a s = true := by simpa using hconf
          refine ⟨⟨hinv.1, ?_⟩, rfl, rfl, ?_⟩
          · simp only [htrue, Bool.true_eq_false, if_false]
            exact hinv.2
          · intro _
            simp only [htrue, Bool.true_eq_false, if_false]

theorem step_oneEntryEach (verify : String → String → String → Except String Bool)
    (s next : Mempool) (h : Step verify s next) (hinv : OneEntryEach s) :
    OneEntryEach next := by
  cases h with
  | request now a t => exact addRequestValidation_oneEntryEach now a t s hinv
  | validate now a sig _ resp _ h =>
    exact (validateRequestByWallet_oneEntryEach verify now a sig s resp next h hinv).1
  | remove a => exact removeValidationRequest_oneEntryEach a s hinv
  | fire now timeout _ hmem hdue =>
    exact removeValidationRequest_oneEntryEach _ _ hinv

theorem steps_oneEntryEach (verify : String → String → String → Except String Bool)
    (s next : Mempool) (h : Relation.ReflTransGen (Step verify) s next)
    (hinv : OneEntryEach s) : OneEntryEach next := by
  induction h with
  | refl => exact hinv
  | tail _ hstep ih => exact step_oneEntryEach verify _ _ hstep ih

theorem reachable_oneEntryEach (verify : String → String → String → Except String Bool)
    (s : Mempool) (h : Reachable verify s) : OneEntryEach s :=
  steps_oneEntryEach verify _ _ h ⟨List.nodup_nil, List.nodup_nil⟩

theorem verifyWindowTime_eq (now t : Nat) :
    verifyWindowTime now t = 300 - (((now / 1000 : Nat) : Int) - (t : Int)) := by
  simp [verifyWindowTime, TimeoutRequestsWindowTime]

theorem verifyAddressRequest_congr (a : String) (s next : Mempool)
    (h : next.mempoolValid = s.mempoolValid) :
    verifyAddressRequest a next = verifyAddressRequest a s := by
  unfold verifyAddressRequest
  rw [h]

theorem verifyAddressRequest_after_push (a : String) (s next : Mempool) (v : ValidRequest)
    (hv : v.status.address = a)
    (h : next.mempoolValid =
      if verifyAddressRequest a s = false then s.mempoolValid ++ [v] else s.mempoolValid) :
    verifyAddressRequest a next = true := by
  by_cases hconf : verifyAddressRequest a s = false
  · rw [if_pos hconf] at h
    cases hres : verifyAddressRequest a next with
    | true => rfl
    | false =>
      have := (verifyAddressRequest_eq_false a next).mp hres v (by rw [h]; simp)
      exact absurd hv this
  · rw [if_neg hconf] at h
    rw [verifyAddressRequest_congr a s next h]
    simpa using hconf

/-- The pool a call of `addRequestValidation` leaves behind, returned or thrown, is
reachable. -/
theorem reachable_request (verify : String → String → String → Except String Bool)
    (now : Nat) (a : String) (t : Nat) (s : Mempool) (hs : Reachable verify s) :
    Reachable verify (leaves (addRequestValidation now a t s)) :=
  Relation.ReflTransGen.tail hs (Step.request now a t s)

theorem reachable_request_ok (verify : String → String → String → Except String Bool)
    (now : Nat) (a : String) (t : Nat) (s : Mempool) (r : Request) (next : Mempool)
    (hs : Reachable verify s) (h : addRequestValidation now a t s = .ok (r, next)) :
    Reachable verify next := by
  have hstep := reachable_request verify now a t s hs
  rw [h] at hstep
  exact hstep

theorem reachable_remove (verify : String → String → String → Except String Bool)
    (a : String) (s : Mempool) (hs : Reachable verify s) :
    Reachable verify (leaves (removeValidationRequest a s)) :=
  Relation.ReflTransGen.tail hs (Step.remove a s)

theorem reachable_validate (verify : String → String → String → Except String Bool)
    (now : Nat) (a sig : String) (s : Mempool) (resp : ResponseObject) (next : Mempool)
    (hs : Reachable verify s)
    (h : validateRequestByWallet verify now a sig s = .ok (resp, next)) :
    Reachable verify next :=
  Relation.ReflTransGen.tail hs (Step.validate now a sig s resp next h)

theorem reachable_examplePending : Reachable exampleVerify examplePending :=
  reachable_request_ok exampleVerify 1000 "A" 1 Mempool.new ⟨"A", 1, "A:1:starRegistry", 300⟩
    examplePending Relation.ReflTransGen.refl (by decide)

theorem reachable_exampleConfirmed : Reachable exampleVerify exampleConfirmed :=
  reachable_validate exampleVerify 2000 "A" "signed" examplePending
    ⟨false, .request (validRequestOf 2000 "A" ⟨"A", 1, "A:1:starRegistry", 300⟩)⟩
    exampleConfirmed reachable_examplePending (by decide)

theorem reachable_exampleThrown : Reachable exampleVerify exampleThrown := by
  have h := reachable_request exampleVerify 1000 "length" 1 Mempool.new
    Relation.ReflTransGen.refl
  have he : leaves (addRequestValidation 1000 "length" 1 Mempool.new) = exampleThrown := by
    decide
  rw [he] at h
  exact h

theorem exampleVerify_rejectsLength : RejectsLength exampleVerify := by
  intro message signature
  unfold exampleVerify
  by_cases hsig : signature = "malformed"
  · simp [hsig]
  · have hall : ("length".data.all (fun c => decide (c ∈ base58))) = false := by decide
    simp [hsig, hall]

/-- A second `removeValidationRequest(a)` returns and changes nothing, on a pool with one
entry per address and for an address other than `length`. -/
theorem removeValidationRequest_twice (a : String) (s : Mempool) (hinv : OneEntryEach s)
    (hne : a ≠ "length") :
    removeValidationRequest a (leaves (removeValidationRequest a s)) =
      .ok ((), leaves (removeValidationRequest a s)) := by
  obtain ⟨h1, h2⟩ := removed_is_absent a s hinv
  apply removeValidationRequest_of_absent a _ hne h1 (h2 hne).1
  intro entry hentry
  rw [(leaves_removeValidationRequest a s).2.2.2 hne] at hentry
  have := (List.mem_filter.mp hentry).2
  simpa using this

/-- After the timeout of `timeout.walletAddress` has run, the address has no pending
request, and no confirmed one either when it had none that the throwing `delete` could
have left behind. -/
theorem fireTimeout_absent (timeout : Timeout) (s : Mempool) (hinv : OneEntryEach s)
    (hlen : timeout.walletAddress = "length" →
      ∀ v ∈ s.mempoolValid, v.status.address ≠ "length") :
    (∀ r ∈ (fireTimeout timeout s).mempool, r.walletAddress ≠ timeout.walletAddress) ∧
    (∀ v ∈ (fireTimeout timeout s).mempoolValid,
      v.status.address ≠ timeout.walletAddress) := by
  have hinv1 : OneEntryEach { s with timers := s.timers.erase timeout } := hinv
  obtain ⟨h1, h2⟩ := removed_is_absent timeout.walletAddress _ hinv1
  refine ⟨h1, ?_⟩
  by_cases hne : timeout.walletAddress = "length"
  · intro v hv
    have h3 := (leaves_removeValidationRequest timeout.walletAddress
      { s with timers := s.timers.erase timeout }).2.2.1
    have hv1 : v ∈ (leaves (removeValidationRequest timeout.walletAddress
      { s with timers := s.timers.erase timeout })).mempoolValid := hv
    rw [h3, if_pos hne] at hv1
    rw [hne]
    exact hlen hne v hv1
  · exact (h2 hne).1

/-! ## Facts about confirmed requests and about timeouts -/

theorem verifyAddressRequest_eq_true (a : String) (s : Mempool) :
    verifyAddressRequest a s = true ↔ ∃ v ∈ s.mempoolValid, v.status.address = a := by
  constructor
  · intro h
    by_contra hno
    have hfalse := (verifyAddressRequest_eq_false a s).mpr
      (fun v hv hva => hno ⟨v, hv, hva⟩)
    rw [h] at hfalse
    cases hfalse
  · rintro ⟨v, hv, hva⟩
    cases hres : verifyAddressRequest a s with
    | true => rfl
    | false => exact absurd hva ((verifyAddressRequest_eq_false a s).mp hres v hv)

theorem removeValidationRequest_confirmedArePending (a : String) (s : Mempool)
    (hone : OneEntryEach s) (hinv : ConfirmedArePending s)
    (hlen : ∀ v ∈ s.mempoolValid, v.status.address ≠ "length") :
    ConfirmedArePending (leaves (removeValidationRequest a s)) ∧
    ∀ v ∈ (leaves (removeValidationRequest a s)).mempoolValid,
      v.status.address ≠ "length" := by
  obtain ⟨h1, -, h3, -⟩ := leaves_removeValidationRequest a s
  have hsub : ∀ v ∈ (leaves (removeValidationRequest a s)).mempoolValid,
      v ∈ s.mempoolValid ∧ v.status.address ≠ a := by
    intro v hv
    rw [h3] at hv
    by_cases hne : a = "length"
    · rw [if_pos hne] at hv
      rw [hne]
      exact ⟨hv, hlen v hv⟩
    · rw [if_neg hne] at hv
      exact ⟨(List.eraseP_sublist _).subset hv,
        nodup_eraseP_no_match (fun (v : ValidRequest) => v.status.address) a
          s.mempoolValid hone.2 v hv⟩
  refine ⟨?_, fun v hv => hlen v (hsub v hv).1⟩
  intro v hv
  obtain ⟨hmem, hne⟩ := hsub v hv
  obtain ⟨r, hr, hra⟩ := List.mem_map.mp (hinv v hmem)
  refine List.mem_map.mpr ⟨r, ?_, hra⟩
  rw [h1, List.mem_eraseP_of_neg]
  · exact hr
  · have hra' : r.walletAddress ≠ a := by
      rw [hra]
      exact hne
    simpa using hra'

theorem addRequestValidation_confirmedArePending (now : Nat) (a : String) (t : Nat)
    (s : Mempool) (hinv : ConfirmedArePending s) :
    ConfirmedArePending (leaves (addRequestValidation now a t s)) ∧
    (leaves (addRequestValidation now a t s)).mempoolValid = s.mempoolValid := by
  by_cases hno : ∀ r ∈ s.mempool, r.walletAddress ≠ a
  · obtain ⟨h1, h2, -⟩ := leaves_addRequestValidation_of_absent now a t s hno
    refine ⟨?_, h2⟩
    intro v hv
    rw [h2] at hv
    rw [h1, List.map_append]
    exact List.mem_append_left _ (hinv v hv)
  · obtain ⟨i, r0, hf, hr, hp, -⟩ := findIdx?_of_exists
      (fun (r : Request) => decide (r.walletAddress = a)) s.mempool
      (fun hall => hno ((absent_iff a s.mempool).mp hall))
    rw [leaves_addRequestValidation_of_present now a t s i r0 hf hr]
    refine ⟨?_, rfl⟩
    intro v hv
    show v.status.address ∈ List.map (fun (request : Request) => request.walletAddress)
      (s.mempool.set i _)
    rw [map_set_same (fun (request : Request) => request.walletAddress) s.mempool i
      { r0 with validationWindow := verifyWindowTime now r0.requestTimeStamp } r0 hr rfl]
    exact hinv v hv

theorem validateRequestByWallet_confirmedArePending
    (verify : String → String → String → Except String Bool) (hverify : RejectsLength verify)
    (now : Nat) (a sig : String) (s : Mempool) (resp : ResponseObject) (next : Mempool)
    (h : validateRequestByWallet verify now a sig s = .ok (resp, next))
    (hinv : ConfirmedArePending s)
    (hlen : ∀ v ∈ s.mempoolValid, v.status.address ≠ "length") :
    ConfirmedArePending next ∧ ∀ v ∈ next.mempoolValid, v.status.address ≠ "length" := by
  by_cases hno : ∀ r ∈ s.mempool, r.walletAddress ≠ a
  · rw [validateRequestByWallet_of_absent verify now a sig s hno] at h
    injection h with h
    injection h with h1 h2
    subst h2
    exact ⟨hinv, hlen⟩
  · obtain ⟨i, r0, hf, hr, hp, hfind⟩ := findIdx?_of_exists
      (fun (r : Request) => decide (r.walletAddress = a)) s.mempool
      (fun hall => hno ((absent_iff a s.mempool).mp hall))
    rw [validateRequestByWallet_of_present verify now a sig s i r0 hf hr] at h
    cases hv : verify r0.message r0.walletAddress sig with
    | error err =>
      rw [hv] at h
      injection h with h
      injection h with h1 h2
      subst h2
      exact ⟨hinv, hlen⟩
    | ok isValid =>
      cases isValid with
      | false =>
        rw [hv] at h
        injection h with h
        injection h with h1 h2
        subst h2
        exact ⟨hinv, hlen⟩
      | true =>
        rw [hv] at h
        injection h with h
        injection h with h1 h2
        subst h2
        have hpa : r0.walletAddress = a := by simpa using hp
        have hane : a ≠ "length" := by
          intro ha
          rw [hpa, ha] at hv
          exact hverify _ _ hv
        have hmemcases : ∀ v ∈ (if verifyAddressRequest a s = false then
            s.mempoolValid ++ [validRequestOf now a r0] else s.mempoolValid),
            v ∈ s.mempoolValid ∨ v = validRequestOf now a r0 := by
          intro v hvmem
          by_cases hconf : verifyAddressRequest a s = false
          · rw [if_pos hconf] at hvmem
            rcases List.mem_append.mp hvmem with hold | hnew
            · exact Or.inl hold
            · exact Or.inr (List.mem_singleton.mp hnew)
          · rw [if_neg hconf] at hvmem
            exact Or.inl hvmem
        constructor
        · intro v hvmem
          show v.status.address ∈ List.map (fun (request : Request) => request.walletAddress)
            s.mempool
          rcases hmemcases v hvmem with hold | hnew
          · exact hinv v hold
          · rw [hnew]
            have hr0 : r0 ∈ s.mempool := List.mem_of_find?_eq_some hfind
            exact List.mem_map.mpr ⟨r0, hr0, hpa⟩
        · intro v hvmem
          rcases hmemcases v hvmem with hold | hnew
          · exact hlen v hold
          · rw [hnew]
            exact hane

theorem step_confirmedArePending (verify : String → String → String → Except String Bool)
    (hverify : RejectsLength verify)
    (s next : Mempool) (h : Step verify s next) (hone : OneEntryEach s)
    (hinv : ConfirmedArePending s)
    (hlen : ∀ v ∈ s.mempoolValid, v.status.address ≠ "length") :
    ConfirmedArePending next ∧ ∀ v ∈ next.mempoolValid, v.status.address ≠ "length" := by
  cases h with
  | request now a t =>
    obtain ⟨h1, h2⟩ := addRequestValidation_confirmedArePending now a t s hinv
    refine ⟨h1, ?_⟩
    rw [h2]
    exact hlen
  | validate now a sig _ resp _ h =>
    exact validateRequestByWallet_confirmedArePending verify hverify now a sig s resp next h
      hinv hlen
  | remove a => exact removeValidationRequest_confirmedArePending a s hone hinv hlen
  | fire now timeout _ hmem hdue =>
    exact removeValidationRequest_confirmedArePending _ _ hone hinv hlen

/-- In every reachable pool no address has two entries in a list, every confirmed address
is pending, and `length` is not confirmed, when the verifier never accepts a signature for
`length`. -/
theorem reachable_confirmedArePending
    (verify : String → String → String → Except String Bool) (hverify : RejectsLength verify)
    (s : Mempool) (h : Reachable verify s) :
    OneEntryEach s ∧ ConfirmedArePending s ∧
    ∀ v ∈ s.mempoolValid, v.status.address ≠ "length" := by
  induction h with
  | refl =>
    exact ⟨⟨List.nodup_nil, List.nodup_nil⟩, fun v hv => (by cases hv),
      fun v hv => (by cases hv)⟩
  | tail _ hstep ih =>
    exact ⟨step_oneEntryEach verify _ _ hstep ih.1,
      step_confirmedArePending verify hverify _ _ hstep ih.1 ih.2.1 ih.2.2⟩

/-- The timeout of a consumed request outlives it, for every address other than `length`:
after `addRequestValidation` at clock `now1`, `removeValidationRequest` and a second
`addRequestValidation` at clock `now2`, the first timeout is still pending, and when it
runs the second request is removed. -/
theorem stale_timeout_removes (verify : String → String → String → Except String Bool)
    (s : Mempool) (hreach : Reachable verify s) (a : String) (t1 t2 now1 now2 : Nat)
    (hno : ∀ r ∈ s.mempool, r.walletAddress ≠ a) (hne : a ≠ "length") :
    ∃ r1 s1 s2 r2 s3,
      addRequestValidation now1 a t1 s = .ok (r1, s1) ∧
      removeValidationRequest a s1 = .ok ((), s2) ∧
      addRequestValidation now2 a t2 s2 = .ok (r2, s3) ∧
      r2 ∈ s3.mempool ∧ r2.walletAddress = a ∧
      (⟨a, now1 + 300 * 1000⟩ : Timeout) ∈ s3.timers ∧
      (∀ later : Nat, now1 + 300 * 1000 ≤ later →
        Step verify s3 (fireTimeout ⟨a, now1 + 300 * 1000⟩ s3)) ∧
      ∀ r ∈ (fireTimeout ⟨a, now1 + 300 * 1000⟩ s3).mempool, r.walletAddress ≠ a := by
  have hcall1 := addRequestValidation_ok_of_absent now1 a t1 s hno hne
  have hreach1 := reachable_request verify now1 a t1 s hreach
  obtain ⟨-, -, htimers1⟩ := leaves_addRequestValidation_of_absent now1 a t1 s hno
  have hone1 := reachable_oneEntryEach verify _ hreach1
  have hcall2 := removeValidationRequest_ok a (leaves (addRequestValidation now1 a t1 s)) hne
  have hreach2 := reachable_remove verify a _ hreach1
  obtain ⟨-, htimers2, -, -⟩ :=
    leaves_removeValidationRequest a (leaves (addRequestValidation now1 a t1 s))
  have hno2 := (removed_is_absent a _ hone1).1
  have hcall3 := addRequestValidation_ok_of_absent now2 a t2 _ hno2 hne
  have hreach3 := reachable_request verify now2 a t2 _ hreach2
  obtain ⟨hpool3, -, htimers3⟩ := leaves_addRequestValidation_of_absent now2 a t2 _ hno2
  have hone3 := reachable_oneEntryEach verify _ hreach3
  have hmem : (⟨a, now1 + 300 * 1000⟩ : Timeout) ∈
      (leaves (addRequestValidation now2 a t2 (leaves (removeValidationRequest a
        (leaves (addRequestValidation now1 a t1 s)))))).timers := by
    rw [htimers3, htimers2, htimers1]
    simp [TimeoutRequestsWindowTime]
  refine ⟨_, _, _, _, _, hcall1, hcall2, hcall3, ?_, rfl, hmem, ?_, ?_⟩
  · rw [hpool3]
    simp
  · intro later hlater
    exact Step.fire later ⟨a, now1 + 300 * 1000⟩ _ hmem hlater
  · exact (fireTimeout_absent ⟨a, now1 + 300 * 1000⟩ _ hone3 (fun h => absurd h hne)).1

/-- What `validateRequestByWallet` leaves in `mempoolValid`: the entries it found and at
most one new entry, for the address of the call, which has a pending request whose
signature the verifier accepted. -/
theorem validateRequestByWallet_mempoolValid
    (verify : String → String → String → Except String Bool) (now : Nat)
    (a sig : String) (s : Mempool) (resp : ResponseObject) (next : Mempool)
    (h : validateRequestByWallet verify now a sig s = .ok (resp, next)) :
    next.mempool = s.mempool ∧
    ∀ v ∈ next.mempoolValid, v ∈ s.mempoolValid ∨
      (v.status.address = a ∧ ∃ r0 ∈ s.mempool, r0.walletAddress = a ∧
        verify r0.message r0.walletAddress sig = .ok true) := by
  by_cases hno : ∀ r ∈ s.mempool, r.walletAddress ≠ a
  · rw [validateRequestByWallet_of_absent verify now a sig s hno] at h
    injection h with h
    injection h with h1 h2
    subst h2
    exact ⟨rfl, fun v hv => Or.inl hv⟩
  · obtain ⟨i, r0, hf, hr, hp, hfind⟩ := findIdx?_of_exists
      (fun (r : Request) => decide (r.walletAddress = a)) s.mempool
      (fun hall => hno ((absent_iff a s.mempool).mp hall))
    rw [validateRequestByWallet_of_present verify now a sig s i r0 hf hr] at h
    cases hv : verify r0.message r0.walletAddress sig with
    | error err =>
      rw [hv] at h
      injection h with h
      injection h with h1 h2
      subst h2
      exact ⟨rfl, fun v hv => Or.inl hv⟩
    | ok isValid =>
      cases isValid with
      | false =>
        rw [hv] at h
        injection h with h
        injection h with h1 h2
        subst h2
        exact ⟨rfl, fun v hv => Or.inl hv⟩
      | true =>
        rw [hv] at h
        injection h with h
        injection h with h1 h2
        subst h2
        refine ⟨rfl, ?_⟩
        intro v hvmem
        have hvmem1 : v ∈ (if verifyAddressRequest a s = false then
            s.mempoolValid ++ [validRequestOf now a r0] else s.mempoolValid) := hvmem
        by_cases hconf : verifyAddressRequest a s = false
        · rw [if_pos hconf] at hvmem1
          rcases List.mem_append.mp hvmem1 with hold | hnew
          · exact Or.inl hold
          · rw [List.mem_singleton] at hnew
            rw [hnew]
            exact Or.inr ⟨rfl, r0, List.mem_of_find?_eq_some hfind, by simpa using hp, hv⟩
        · rw [if_neg hconf] at hvmem1
          exact Or.inl hvmem1

/-- One event keeps every confirmed address other than `length` pending, whatever the
verifier accepts. -/
theorem step_confirmedOrdinary (verify : String → String → String → Except String Bool)
    (s next : Mempool) (h : Step verify s next) (hone : OneEntryEach s)
    (hinv : ∀ v ∈ s.mempoolValid, v.status.address ≠ "length" →
      v.status.address ∈ s.mempool.map (fun request => request.walletAddress)) :
    ∀ v ∈ next.mempoolValid, v.status.address ≠ "length" →
      v.status.address ∈ next.mempool.map (fun request => request.walletAddress) := by
  have hremove : ∀ (a : String) (s0 : Mempool), OneEntryEach s0 →
      (∀ v ∈ s0.mempoolValid, v.status.address ≠ "length" →
        v.status.address ∈ s0.mempool.map (fun request => request.walletAddress)) →
      ∀ v ∈ (leaves (removeValidationRequest a s0)).mempoolValid,
        v.status.address ≠ "length" →
        v.status.address ∈ (leaves (removeValidationRequest a s0)).mempool.map
          (fun request => request.walletAddress) := by
    intro a s0 hone0 hinv0 v hv hvlen
    obtain ⟨h1, -, h3, -⟩ := leaves_removeValidationRequest a s0
    rw [h3] at hv
    have hsub : v ∈ s0.mempoolValid ∧ v.status.address ≠ a := by
      by_cases hne : a = "length"
      · rw [if_pos hne] at hv
        rw [hne]
        exact ⟨hv, hvlen⟩
      · rw [if_neg hne] at hv
        exact ⟨(List.eraseP_sublist _).subset hv,
          nodup_eraseP_no_match (fun (v : ValidRequest) => v.status.address) a
            s0.mempoolValid hone0.2 v hv⟩
    obtain ⟨r, hr, hra⟩ := List.mem_map.mp (hinv0 v hsub.1 hvlen)
    refine List.mem_map.mpr ⟨r, ?_, hra⟩
    rw [h1, List.mem_eraseP_of_neg]
    · exact hr
    · have hra1 : r.walletAddress ≠ a := by
        rw [hra]
        exact hsub.2
      simpa using hra1
  cases h with
  | request now a t =>
    intro v hv hvlen
    by_cases hno : ∀ r ∈ s.mempool, r.walletAddress ≠ a
    · obtain ⟨h1, h2, -⟩ := leaves_addRequestValidation_of_absent now a t s hno
      rw [h2] at hv
      rw [h1, List.map_append]
      exact List.mem_append_left _ (hinv v hv hvlen)
    · obtain ⟨i, r0, hf, hr, hp, -⟩ := findIdx?_of_exists
        (fun (r : Request) => decide (r.walletAddress = a)) s.mempool
        (fun hall => hno ((absent_iff a s.mempool).mp hall))
      rw [leaves_addRequestValidation_of_present now a t s i r0 hf hr] at hv ⊢
      show v.status.address ∈ List.map (fun (request : Request) => request.walletAddress)
        (s.mempool.set i _)
      rw [map_set_same (fun (request : Request) => request.walletAddress) s.mempool i
        { r0 with validationWindow := verifyWindowTime now r0.requestTimeStamp } r0 hr rfl]
      exact hinv v hv hvlen
  | validate now a sig _ resp _ h =>
    obtain ⟨hpool, hvalid⟩ := validateRequestByWallet_mempoolValid verify now a sig s resp
      next h
    intro v hv hvlen
    rw [hpool]
    rcases hvalid v hv with hold | ⟨hva, r0, hr0, hr0a, -⟩
    · exact hinv v hold hvlen
    · rw [hva]
      exact List.mem_map.mpr ⟨r0, hr0, hr0a⟩
  | remove a => exact hremove a s hone hinv
  | fire now timeout _ hmem hdue => exact hremove _ _ hone hinv

/-- In every reachable pool every confirmed address other than `length` is pending,
whatever the verifier accepts. -/
theorem reachable_confirmedOrdinary
    (verify : String → String → String → Except String Bool) (s : Mempool)
    (h : Reachable verify s) :
    ∀ v ∈ s.mempoolValid, v.status.address ≠ "length" →
      v.status.address ∈ s.mempool.map (fun request => request.walletAddress) := by
  have hboth : OneEntryEach s ∧ ∀ v ∈ s.mempoolValid, v.status.address ≠ "length" →
      v.status.address ∈ s.mempool.map (fun request => request.walletAddress) := by
    induction h with
    | refl => exact ⟨⟨List.nodup_nil, List.nodup_nil⟩, fun v hv => (by cases hv)⟩
    | tail _ hstep ih =>
      exact ⟨step_oneEntryEach verify _ _ hstep ih.1,
        step_confirmedOrdinary verify _ _ hstep ih.1 ih.2⟩
  exact hboth.2

/-- For every address other than `length` that is not pending, `addRequestValidation`
returns the new request, appends exactly it to `mempool`, leaves `mempoolValid` as it was
and makes one timeout, due 300 seconds after the call; it records the timeout in
`timeoutRequests` under the address unless the address is `__proto__`. -/
theorem addRequestValidation_creates (now : Nat) (a : String) (t : Nat) (s : Mempool)
    (hno : ∀ r ∈ s.mempool, r.walletAddress ≠ a) (hne : a ≠ "length") :
    ∃ r next, addRequestValidation now a t s = .ok (r, next) ∧
      r.message = a ++ ":" ++ toString t ++ ":starRegistry" ∧
      r.walletAddress = a ∧ r.requestTimeStamp = t ∧
      next.mempool = s.mempool ++ [r] ∧
      next.mempoolValid = s.mempoolValid ∧
      next.timers = s.timers ++ [⟨a, now + 300 * 1000⟩] ∧
      (a ≠ "__proto__" →
        next.timeoutRequests = (a, ⟨a, now + 300 * 1000⟩) :: s.timeoutRequests) ∧
      (a = "__proto__" → next.timeoutRequests = s.timeoutRequests) :=
  ⟨_, _, addRequestValidation_of_absent now a t s hno hne, rfl, rfl, rfl, rfl, rfl, rfl,
    fun h => if_neg h, fun h => if_pos h⟩

/-- For every address other than `length`, on a reachable pool, `removeValidationRequest`
returns and leaves no pending request, no confirmed request and no table entry for the
address, so `verifyAddressRequest` is `false` and `validateRequestByWallet` answers that no
request is found; a second call returns and changes nothing. -/
theorem removeValidationRequest_clears
    (verify : String → String → String → Except String Bool) (a : String) (s : Mempool)
    (hreach : Reachable verify s) (hne : a ≠ "length") :
    ∃ next, removeValidationRequest a s = .ok ((), next) ∧
      (∀ r ∈ next.mempool, r.walletAddress ≠ a) ∧
      (∀ v ∈ next.mempoolValid, v.status.address ≠ a) ∧
      next.timeoutRequests.lookup a = none ∧
      verifyAddressRequest a next = false ∧
      (∀ (now : Nat) (sig : String),
        validateRequestByWallet verify now a sig next =
          .ok (⟨true,
            .text ("validateRequestByWallet: request not found on mempool: " ++ a)⟩,
            next)) ∧
      removeValidationRequest a next = .ok ((), next) := by
  have hinv := reachable_oneEntryEach verify s hreach
  obtain ⟨h1, h2⟩ := removed_is_absent a s hinv
  obtain ⟨h2, h3⟩ := h2 hne
  exact ⟨_, removeValidationRequest_ok a s hne, h1, h2, h3,
    (verifyAddressRequest_eq_false a _).mpr h2,
    fun now sig => validateRequestByWallet_of_absent verify now a sig _ h1,
    removeValidationRequest_twice a s hinv hne⟩

/-! ## C1 -/

/-- C1: on a store that holds records at exactly the keys `0..h`, `addBlock` resolves, the
record it returns (as text) has height `h + 1` and `previousBlockHash` equal to the `hash`
field of the record stored at key `h`, and that record is stored under key `h + 1`, the
value of its own height field. -/
theorem addBlock_assigns_next_height (digest : String → String) (now0 now : String)
    (newBlock : Block) (db : Store) (h : Nat) (hkeys : KeysUpTo db h) :
    ∃ tail r db1,
      getLevelDBData db (h : Int) = .ok tail ∧
      addBlock digest now0 now newBlock db = .ok (stringify r, db1) ∧
      r.height = (h : Int) + 1 ∧
      r.previousBlockHash = tail.hash ∧
      getLevelDBData db1 ((h : Int) + 1) = .ok r ∧
      getLevelDBData db1 r.height = .ok r := by
  obtain ⟨tail, ht⟩ := tail_of_keysUpTo db h hkeys
  have hc := getBlocksCount_of_keysUpTo db h hkeys
  refine ⟨tail, stamp digest newBlock ((h : Int) + 1) now tail.hash, _,
    (getLevelDBData_eq_ok _ _ _).mpr ht,
    addBlock_of_tail digest now0 now newBlock db h tail hc ht, rfl, rfl, ?_, ?_⟩
  · rw [getLevelDBData_eq_ok, lookup_cons_eq, if_pos rfl]
  · rw [getLevelDBData_eq_ok, lookup_cons_eq]
    exact if_pos rfl

/-- C1 at a one-record store and a fresh candidate. -/
theorem addBlock_assigns_next_height_witness :
    KeysUpTo [(0, Block.new "1")] 0 ∧
    ∃ tail r db1,
      getLevelDBData [(0, Block.new "1")] ((0 : Nat) : Int) = .ok tail ∧
      addBlock (fun _ => "d") "10" "11" (Block.new "2") [(0, Block.new "1")]
        = .ok (stringify r, db1) ∧
      r.height = ((0 : Nat) : Int) + 1 ∧
      r.previousBlockHash = tail.hash ∧
      getLevelDBData db1 (((0 : Nat) : Int) + 1) = .ok r ∧
      getLevelDBData db1 r.height = .ok r :=
  ⟨keysUpTo_singleton _,
    addBlock_assigns_next_height (fun _ => "d") "10" "11" (Block.new "2")
      [(0, Block.new "1")] 0 (keysUpTo_singleton _)⟩

/-! ## C2 -/

/-- C2, as stated, fails: on the bootstrapped ledger, with the identity as digest, a
candidate that arrives with hash `x` is persisted with a hash that is not the digest of the
record with its hash field set to the empty string, and `validateBlock` at the new height
resolves `false`. -/
theorem addBlock_stale_hash_counterexample :
    ∃ r db1,
      addBlock (fun s => s) "1541" "1542" { Block.new "\"star\"" with hash := "x" }
        (generateGenesisBlock (fun s => s) "1540" []) = .ok (stringify r, db1) ∧
      getLevelDBData db1 1 = .ok r ∧
      r.hash ≠ (fun s => s) (stringify { r with hash := "" }) ∧
      validateBlock (fun s => s) db1 1 = .ok false := by
  set_option maxRecDepth 1000000 in
  exact ⟨_, _, rfl, rfl, by decide, by decide⟩

/-- C2, amended: for a candidate whose hash field is the empty string (as the constructor
leaves it), whatever its body and other fields, the record a successful `addBlock` persists
is stored under its height, has hash equal to the digest of that record with its hash field
set to the empty string, and `validateBlock` at the new height resolves `true`. -/
theorem addBlock_hash_of_fresh (digest : String → String) (now0 now : String)
    (newBlock : Block) (db : Store) (out : String) (db1 : Store)
    (hfresh : newBlock.hash = "")
    (hok : addBlock digest now0 now newBlock db = .ok (out, db1)) :
    ∃ r, out = stringify r ∧
      r.body = newBlock.body ∧
      getLevelDBData db1 r.height = .ok r ∧
      r.hash = digest (stringify { r with hash := "" }) ∧
      validateBlock digest db1 r.height = .ok true := by
  rcases Nat.eq_zero_or_pos (getBlocksCount db) with hc | hc
  · have hdb := (getBlocksCount_eq_zero db).mp hc
    subst hdb
    rw [addBlock_of_empty] at hok
    injection hok with hok
    injection hok with h1 h2
    subst h1 h2
    have hh := stamp_hash_of_fresh digest newBlock 1 now
      (stamp digest (Block.new "\"First block in the chain - Genesis block\"")
        0 now0 "").hash hfresh
    refine ⟨_, rfl, rfl, ?_, hh, ?_⟩
    · rw [getLevelDBData_eq_ok]
      rfl
    · rw [validateBlock_of_some digest _ _ _ (by rfl)]
      simp only [decide_eq_true_eq, Except.ok.injEq]
      exact hh
  · cases ht : db.lookup (getBlockHeight db) with
    | none =>
      obtain ⟨e, he⟩ := addBlock_of_no_tail digest now0 now newBlock db hc ht
      rw [he] at hok
      cases hok
    | some tail =>
      obtain ⟨n, hn⟩ : ∃ n : Nat, getBlocksCount db = n + 1 := ⟨getBlocksCount db - 1, by omega⟩
      have hhn : getBlockHeight db = (n : Int) := by
        unfold getBlockHeight
        omega
      rw [hhn] at ht
      rw [addBlock_of_tail digest now0 now newBlock db n tail hn ht] at hok
      injection hok with hok
      injection hok with h1 h2
      subst h1 h2
      have hh := stamp_hash_of_fresh digest newBlock ((n : Int) + 1) now tail.hash hfresh
      have hl : List.lookup (stamp digest newBlock ((n : Int) + 1) now tail.hash).height
          ((((n : Int) + 1), stamp digest newBlock ((n : Int) + 1) now tail.hash) :: db)
          = some (stamp digest newBlock ((n : Int) + 1) now tail.hash) := by
        rw [lookup_cons_eq]
        exact if_pos rfl
      refine ⟨_, rfl, rfl, (getLevelDBData_eq_ok _ _ _).mpr hl, hh, ?_⟩
      rw [validateBlock_of_some digest _ _ _ hl]
      simp only [decide_eq_true_eq, Except.ok.injEq]
      exact hh

/-- C2, amended, at a one-record store, a constant digest and a fresh candidate. -/
theorem addBlock_hash_of_fresh_witness :
    ∃ r, stringify (stamp (fun _ => "d") (Block.new "2") 1 "11" (Block.new "1").hash)
        = stringify r ∧
      r.body = (Block.new "2").body ∧
      getLevelDBData [(1, stamp (fun _ => "d") (Block.new "2") 1 "11" (Block.new "1").hash),
        (0, Block.new "1")] r.height = .ok r ∧
      r.hash = (fun _ => "d") (stringify { r with hash := "" }) ∧
      validateBlock (fun _ => "d")
        [(1, stamp (fun _ => "d") (Block.new "2") 1 "11" (Block.new "1").hash),
         (0, Block.new "1")] r.height = .ok true :=
  addBlock_hash_of_fresh (fun _ => "d") "10" "11" (Block.new "2") [(0, Block.new "1")]
    _ _ rfl (by decide)

/-! ## C3 -/

/-- C3: from the freshly bootstrapped ledger, `N` calls of `addBlock` made one after
another all resolve and leave the store with exactly the keys `0..N` (so `N + 1` entries),
the record at every key `k` of `0..N` has height `k`, and `getBlockHeight` gives `N`. -/
theorem addBlocks_heights_dense (digest : String → String) (now : String)
    (calls : List Call) :
    ∃ db, addBlocks digest calls (generateGenesisBlock digest now []) = .ok db ∧
      KeysUpTo db calls.length ∧
      getBlocksCount db = calls.length + 1 ∧
      (∀ k : Nat, k ≤ calls.length → ∃ r, getBlock db (k : Int) = .ok r ∧ r.height = k) ∧
      getBlockHeight db = calls.length := by
  obtain ⟨hk0, hh0, -, -⟩ := genesis_invariant digest now
  obtain ⟨db, hrun, hk, hh, -⟩ := addBlocks_invariant digest calls _ 0 hk0 hh0
  rw [Nat.zero_add] at hk
  refine ⟨db, hrun, hk, getBlocksCount_of_keysUpTo db _ hk, ?_,
    getBlockHeight_of_keysUpTo db _ hk⟩
  intro k hkle
  obtain ⟨b, hb⟩ := record_of_keysUpTo db _ hk k hkle
  exact ⟨b, (getLevelDBData_eq_ok _ _ _).mpr hb, hh _ b hb⟩

/-! ## C4 -/

/-- C4, as stated, fails: bootstrap, then an append of a candidate that arrives with hash
`x`, then an append of a fresh candidate, with the identity as digest.  The record at
height 2 has a `previousBlockHash` that is not the digest of the record at height 1 with
its hash field cleared, and the record at height 1 has a hash that is not the digest of
itself with the hash field cleared. -/
theorem chain_stale_hash_counterexample :
    ∃ db b p,
      addBlocks (fun s => s)
        [⟨"1541", "1542", { Block.new "\"a\"" with hash := "x" }⟩,
         ⟨"1543", "1544", Block.new "\"b\""⟩]
        (generateGenesisBlock (fun s => s) "1540" []) = .ok db ∧
      getBlock db 2 = .ok b ∧ getBlock db 1 = .ok p ∧
      b.previousBlockHash ≠ (fun s => s) (stringify { p with hash := "" }) ∧
      p.hash ≠ (fun s => s) (stringify { p with hash := "" }) := by
  set_option maxRecDepth 1000000 in
  exact ⟨_, _, _, rfl, rfl, rfl, by decide, by decide⟩

/-- C4, amended: when every candidate arrives with an empty hash field, the calls made one
after another on the bootstrapped ledger all resolve and, for every height `h > 0` of the
result, the record at `h` has `previousBlockHash` equal to the digest of the record at
`h - 1` with its hash field cleared and hash equal to the digest of itself with its hash
field cleared. -/
theorem addBlocks_links_are_digests (digest : String → String) (now : String)
    (calls : List Call) (hfresh : ∀ c ∈ calls, c.newBlock.hash = "") :
    ∃ db, addBlocks digest calls (generateGenesisBlock digest now []) = .ok db ∧
      ∀ h : Nat, 0 < h → h ≤ calls.length →
        ∃ b p, getBlock db (h : Int) = .ok b ∧ getBlock db ((h : Int) - 1) = .ok p ∧
          b.previousBlockHash = digest (stringify { p with hash := "" }) ∧
          b.hash = digest (stringify { b with hash := "" }) := by
  obtain ⟨hk0, hh0, hhash0, hlink0⟩ := genesis_invariant digest now
  obtain ⟨db, hrun, hk, -, hrest⟩ := addBlocks_invariant digest calls _ 0 hk0 hh0
  obtain ⟨hhash, hlink⟩ := hrest hfresh hhash0 hlink0
  rw [Nat.zero_add] at hk
  refine ⟨db, hrun, ?_⟩
  intro h hpos hle
  obtain ⟨b, hb⟩ := record_of_keysUpTo db _ hk h hle
  obtain ⟨p, hp⟩ := record_of_keysUpTo db _ hk (h - 1) (by omega)
  have hcast : ((h - 1 : Nat) : Int) = (h : Int) - 1 := by omega
  rw [hcast] at hp
  refine ⟨b, p, (getLevelDBData_eq_ok _ _ _).mpr hb, (getLevelDBData_eq_ok _ _ _).mpr hp,
    ?_, hhash _ b hb⟩
  rw [hlink.2 _ b p hb hp]
  exact hhash _ p hp

/-- C4, amended, at two appends of fresh candidates. -/
theorem addBlocks_links_are_digests_witness :
    ∃ db, addBlocks (fun _ => "d")
        [⟨"1541", "1542", Block.new "\"a\""⟩, ⟨"1543", "1544", Block.new "\"b\""⟩]
        (generateGenesisBlock (fun _ => "d") "1540" []) = .ok db ∧
      ∀ h : Nat, 0 < h →
        h ≤ [(⟨"1541", "1542", Block.new "\"a\""⟩ : Call),
          ⟨"1543", "1544", Block.new "\"b\""⟩].length →
        ∃ b p, getBlock db (h : Int) = .ok b ∧ getBlock db ((h : Int) - 1) = .ok p ∧
          b.previousBlockHash = (fun _ => "d") (stringify { p with hash := "" }) ∧
          b.hash = (fun _ => "d") (stringify { b with hash := "" }) :=
  addBlocks_links_are_digests (fun _ => "d") "1540"
    [⟨"1541", "1542", Block.new "\"a\""⟩, ⟨"1543", "1544", Block.new "\"b\""⟩]
    (by decide)

/-! ## C5 -/

/-- C5: on the ledger made from the empty store by `generateGenesisBlock` and then `N`
calls of `addBlock` on fresh candidates (empty hash field), one after another,
`validateChain` resolves to the empty list; `N = 0` is the freshly bootstrapped ledger. -/
theorem validateChain_of_untouched (digest : String → String) (now : String)
    (calls : List Call) (hfresh : ∀ c ∈ calls, c.newBlock.hash = "") :
    ∃ db, addBlocks digest calls (generateGenesisBlock digest now []) = .ok db ∧
      validateChain digest db = .ok [] := by
  obtain ⟨hk0, hh0, hhash0, hlink0⟩ := genesis_invariant digest now
  obtain ⟨db, hrun, hk, hh, hrest⟩ := addBlocks_invariant digest calls _ 0 hk0 hh0
  obtain ⟨hhash, hlink⟩ := hrest hfresh hhash0 hlink0
  rw [Nat.zero_add] at hk
  refine ⟨db, hrun, ?_⟩
  rw [validateChain_of_checks digest db (calls.length + 1) (fun _ => true) (fun _ => true)
    (getBlocksCount_of_keysUpTo db _ hk)
    (fun i hi => validateBlock_of_hashesOk digest db _ hk hhash i (by omega))
    (fun i hi => validateBlockLink_of_linksOk db _ hk hh hlink i (by omega))]
  simp

/-- C5 at the freshly bootstrapped ledger and after one append of a fresh candidate. -/
theorem validateChain_of_untouched_witness :
    (∃ db, addBlocks (fun s => s) [] (generateGenesisBlock (fun s => s) "1540" [])
        = .ok db ∧ validateChain (fun s => s) db = .ok []) ∧
    (∃ db, addBlocks (fun s => s) [⟨"1541", "1542", Block.new "\"a\""⟩]
        (generateGenesisBlock (fun s => s) "1540" []) = .ok db ∧
      validateChain (fun s => s) db = .ok []) :=
  ⟨validateChain_of_untouched (fun s => s) "1540" [] (by decide),
   validateChain_of_untouched (fun s => s) "1540" [⟨"1541", "1542", Block.new "\"a\""⟩]
     (by decide)⟩

/-! ## C6 -/

/-- C6, as stated, fails: on the bootstrapped ledger (height 0) two calls of `addBlock`
whose store accesses alternate both resolve with a record of height 1; afterwards the
height is 1, not 2, and key 1 holds the record of the second call, which has overwritten
the record of the first. -/
theorem overlapping_addBlocks_counterexample :
    getBlockHeight (generateGenesisBlock (fun s => s) "1540" []) = 0 ∧
    ∃ ra rb db1,
      run (fun s => s)
        [Turn.first, Turn.second, Turn.first, Turn.second,
         Turn.first, Turn.second, Turn.first, Turn.second]
        ⟨.called "1541" "1542" (Block.new "\"a\""),
         .called "1541" "1542" (Block.new "\"b\""),
         generateGenesisBlock (fun s => s) "1540" []⟩ = ⟨.resolved ra, .resolved rb, db1⟩ ∧
      ra.height = 1 ∧ rb.height = 1 ∧
      getBlockHeight db1 = 1 ∧
      getBlock db1 1 = .ok rb ∧ ra ≠ rb := by
  set_option maxRecDepth 1000000 in
  exact ⟨by decide, _, _, _, rfl, rfl, rfl, by decide, rfl, by decide⟩

/-- C6, amended: on a ledger with records at exactly the keys `0..h`, when the second call
of `addBlock` reads the height after the first call has started (`j` of its store accesses,
`1 ≤ j ≤ 3`) and before the first call has written, then however the remaining store
accesses interleave (`post`): each call resolves once it has had its accesses, both
resolve with a record of height `h + 1` whose `previousBlockHash` is the hash field of the
record at key `h`, every record stored above key `h` carries height `h + 1`, and the
store is never the ledger with records at exactly the keys `0..h+2` whose height fields
are their keys. -/
theorem overlapping_addBlocks_same_height (digest : String → String) (db : Store)
    (h : Nat) (hkeys : KeysUpTo db h) (a b : Call) (j : Nat) (hj1 : 1 ≤ j) (hj3 : j ≤ 3)
    (post : List Turn) :
    ∃ tail c, getLevelDBData db (h : Int) = .ok tail ∧
      c = run digest (List.replicate j Turn.first ++ Turn.second :: post)
        ⟨.called a.now0 a.now a.newBlock, .called b.now0 b.now b.newBlock, db⟩ ∧
      (4 ≤ j + post.count Turn.first → ∃ r, c.first = .resolved r) ∧
      (3 ≤ post.count Turn.second → ∃ r, c.second = .resolved r) ∧
      (∀ r, c.first = .resolved r →
        r.height = (h : Int) + 1 ∧ r.previousBlockHash = tail.hash) ∧
      (∀ r, c.second = .resolved r →
        r.height = (h : Int) + 1 ∧ r.previousBlockHash = tail.hash) ∧
      (∀ (k : Int) (r : Block), (h : Int) < k → c.db.lookup k = some r →
        r.height = (h : Int) + 1) ∧
      ¬ (KeysUpTo c.db (h + 2) ∧ HeightIsKey c.db) := by
  obtain ⟨tail, ht⟩ := tail_of_keysUpTo db h hkeys
  obtain ⟨hpre, hpf, hps⟩ := prefix_overlapped digest db h hkeys tail ht a b j hj1 hj3
  obtain ⟨hinv, hf, hs⟩ := run_overlapped digest h tail post _ hpre
  rw [← run_append, List.append_assoc, List.singleton_append] at hinv hf hs
  rw [hpf] at hf
  rw [hps] at hs
  obtain ⟨m, hm, hk, hlook, hrec, hfirst, hsecond⟩ := hinv
  refine ⟨tail, _, (getLevelDBData_eq_ok _ _ _).mpr ht, rfl, ?_, ?_, ?_, ?_, hrec, ?_⟩
  · intro hcount
    exact resolved_of_no_steps_left h tail m _ hfirst (by omega)
  · intro hcount
    exact resolved_of_no_steps_left h tail m _ hsecond (by omega)
  · intro r hr
    rw [hr] at hfirst
    exact resolved_of_inFlight h tail m r hfirst
  · intro r hr
    rw [hr] at hsecond
    exact resolved_of_inFlight h tail m r hsecond
  · rintro ⟨hk2, hheight⟩
    obtain ⟨r, hr⟩ := record_of_keysUpTo _ (h + 2) hk2 (h + 2) (le_refl _)
    have e1 := hrec _ r (by push_cast; omega) hr
    have e2 := hheight _ r hr
    rw [e1] at e2
    push_cast at e2
    omega

/-- C6, amended, at a one-record store and the schedule that alternates the two calls. -/
theorem overlapping_addBlocks_same_height_witness :
    KeysUpTo [(0, Block.new "1")] 0 ∧
    ∃ tail c, getLevelDBData [(0, Block.new "1")] ((0 : Nat) : Int) = .ok tail ∧
      c = run (fun _ => "d")
        (List.replicate 1 Turn.first ++ Turn.second ::
          [Turn.first, Turn.second, Turn.first, Turn.second, Turn.first, Turn.second])
        ⟨.called "10" "11" (Block.new "2"), .called "10" "12" (Block.new "3"),
          [(0, Block.new "1")]⟩ ∧
      (∃ r, c.first = .resolved r) ∧
      (∃ r, c.second = .resolved r) ∧
      ¬ (KeysUpTo c.db (0 + 2) ∧ HeightIsKey c.db) := by
  obtain ⟨tail, c, h1, h2, h3, h4, -, -, -, h8⟩ :=
    overlapping_addBlocks_same_height (fun _ => "d") [(0, Block.new "1")] 0
      (keysUpTo_singleton _) ⟨"10", "11", Block.new "2"⟩ ⟨"10", "12", Block.new "3"⟩ 1
      (le_refl _) (by decide)
      [Turn.first, Turn.second, Turn.first, Turn.second, Turn.first, Turn.second]
  exact ⟨keysUpTo_singleton _, tail, c, h1, h2, h3 (by decide), h4 (by decide), h8⟩

/-! ## C7 -/

/-- C7: on an empty store (height below 0) `generateGenesisBlock` leaves exactly one
record, at key 0, with height 0, `previousBlockHash` the empty string and hash the digest
of that record with the hash field empty; on a store with at least one record it leaves
the store unchanged. -/
theorem generateGenesisBlock_spec (digest : String → String) (now : String) (db : Store) :
    (getBlockHeight db < 0 →
      ∃ g, getLevelDBData (generateGenesisBlock digest now db) 0 = .ok g ∧
        getBlocksCount (generateGenesisBlock digest now db) = 1 ∧
        KeysUpTo (generateGenesisBlock digest now db) 0 ∧
        g.height = 0 ∧ g.previousBlockHash = "" ∧
        g.hash = digest (stringify { g with hash := "" })) ∧
    (0 < getBlocksCount db → generateGenesisBlock digest now db = db) := by
  constructor
  · intro hneg
    have hc : getBlocksCount db = 0 := by
      unfold getBlockHeight at hneg
      omega
    have hdb := (getBlocksCount_eq_zero db).mp hc
    subst hdb
    rw [generateGenesisBlock_of_empty]
    refine ⟨_, rfl, rfl, keysUpTo_singleton _, rfl, rfl, ?_⟩
    exact stamp_hash_of_fresh digest (Block.new genesisBlockBody) 0 now "" rfl
  · exact generateGenesisBlock_of_nonempty digest now db

/-- C7 at the empty store and at a store of one record. -/
theorem generateGenesisBlock_spec_witness :
    (∃ g, getLevelDBData (generateGenesisBlock (fun _ => "d") "1540" []) 0 = .ok g ∧
        getBlocksCount (generateGenesisBlock (fun _ => "d") "1540" []) = 1 ∧
        KeysUpTo (generateGenesisBlock (fun _ => "d") "1540" []) 0 ∧
        g.height = 0 ∧ g.previousBlockHash = "" ∧
        g.hash = (fun _ => "d") (stringify { g with hash := "" })) ∧
    generateGenesisBlock (fun _ => "d") "1540" [(0, Block.new "1")] = [(0, Block.new "1")] :=
  ⟨(generateGenesisBlock_spec (fun _ => "d") "1540" []).1 (by decide),
   (generateGenesisBlock_spec (fun _ => "d") "1540" [(0, Block.new "1")]).2 (by decide)⟩

/-! ## C8 -/

/-- C8: `validateBlock(k)` rejects when no record is stored at key `k`; when a record is
stored there it resolves, with `true` exactly when the stored hash equals the digest of the
stored record with its hash field set to the empty string and with `false` otherwise. -/
theorem validateBlock_spec (digest : String → String) (db : Store) (k : Int) :
    (db.lookup k = none → ∃ e, validateBlock digest db k = .error e) ∧
    (∀ b, db.lookup k = some b →
      validateBlock digest db k =
        .ok (decide (b.hash = digest (stringify { b with hash := "" })))) := by
  constructor
  · intro hb
    exact ⟨_, validateBlock_of_none digest db k hb⟩
  · intro b hb
    exact validateBlock_of_some digest db k b hb

/-- C8 at an absent key and at a stored record whose hash does not match. -/
theorem validateBlock_spec_witness :
    (∃ e, validateBlock (fun _ => "d") [(0, Block.new "1")] 5 = .error e) ∧
    validateBlock (fun _ => "d") [(0, Block.new "1")] 0 =
      .ok (decide ((Block.new "1").hash =
        (fun _ => "d") (stringify { Block.new "1" with hash := "" }))) :=
  ⟨(validateBlock_spec (fun _ => "d") [(0, Block.new "1")] 5).1 (by decide),
   (validateBlock_spec (fun _ => "d") [(0, Block.new "1")] 0).2 (Block.new "1") (by decide)⟩

/-! ## C9 -/

/-- C9, as stated, fails: the record stored at key 0 has `previousBlockHash` the empty
string, yet `validateBlockLink(0)` does not resolve `true`; the record carries height 1, so
the check goes on to fetch key `-1` and rejects. -/
theorem validateBlockLink_counterexample :
    List.lookup 0 [((0 : Int), { Block.new "1" with height := 1 })]
      = some { Block.new "1" with height := 1 } ∧
    ({ Block.new "1" with height := 1 } : Block).previousBlockHash = "" ∧
    validateBlockLink [(0, { Block.new "1" with height := 1 })] 0 =
      .error ("validateBlockLink: Error found when calling getBlock of previous block: " ++
        "NotFoundError: Key not found in database [-1]") := by
  decide

/-- C9, amended: `validateBlockLink(k)` decides by the height field of the record stored at
key `k`.  When that field is 0 it resolves `true` exactly when the record has
`previousBlockHash` the empty string; when it is not 0 and a record is stored at key
`k - 1` it resolves `true` exactly when `previousBlockHash` equals the hash field of that
record, and when no record is stored at key `k - 1` it rejects. -/
theorem validateBlockLink_spec (db : Store) (k : Int) (b : Block)
    (hb : db.lookup k = some b) :
    (b.height = 0 → validateBlockLink db k = .ok (decide (b.previousBlockHash = ""))) ∧
    (b.height ≠ 0 → ∀ p, db.lookup (k - 1) = some p →
      validateBlockLink db k = .ok (decide (b.previousBlockHash = p.hash))) ∧
    (b.height ≠ 0 → db.lookup (k - 1) = none → ∃ e, validateBlockLink db k = .error e) := by
  refine ⟨?_, ?_, ?_⟩
  · intro h0
    exact validateBlockLink_of_genesis db k b hb h0
  · intro h0 p hp
    exact validateBlockLink_of_later db k b p hb h0 hp
  · intro h0 hp
    exact ⟨_, validateBlockLink_of_no_previous db k b hb h0 hp⟩

/-- C9, amended, at a two-record store: key 0 holds a record of height 0 and key 1 a record
of height 1. -/
theorem validateBlockLink_spec_witness :
    validateBlockLink [(1, { Block.new "2" with height := 1 }), (0, Block.new "1")] 0 =
      .ok (decide ((Block.new "1").previousBlockHash = "")) ∧
    validateBlockLink [(1, { Block.new "2" with height := 1 }), (0, Block.new "1")] 1 =
      .ok (decide (({ Block.new "2" with height := 1 } : Block).previousBlockHash
        = (Block.new "1").hash)) :=
  ⟨(validateBlockLink_spec [(1, { Block.new "2" with height := 1 }), (0, Block.new "1")] 0
      (Block.new "1") (by decide)).1 (by decide),
   (validateBlockLink_spec [(1, { Block.new "2" with height := 1 }), (0, Block.new "1")] 1
      { Block.new "2" with height := 1 } (by decide)).2.1 (by decide) (Block.new "1")
      (by decide)⟩

/-! ## C10 -/

/-- C10: on a store with records at exactly the keys `0..n` on which every `validateBlock`
and every `validateBlockLink` of `0..n` resolves, `validateChain` resolves to the list with
one entry `block hash invalid for block i` for each `i` of `0..n`, ascending, whose
`validateBlock` gave `false`, followed by one entry `previous block hash invalid for
block i` for each `i` of `0..n`, ascending, whose `validateBlockLink` gave `false`; the
list is empty exactly when every one of these checks gave `true`. -/
theorem validateChain_spec (digest : String → String) (db : Store) (n : Nat)
    (hkeys : KeysUpTo db n)
    (hvb : ∀ i : Nat, i ≤ n → ∃ r, validateBlock digest db (i : Int) = .ok r)
    (hvl : ∀ i : Nat, i ≤ n → ∃ r, validateBlockLink db (i : Int) = .ok r) :
    validateChain digest db =
      .ok ((List.range (n + 1)).filterMap (fun (i : Nat) =>
            if validateBlock digest db (i : Int) = .ok false then
              some ("block hash invalid for block " ++ toString i)
            else none) ++
          (List.range (n + 1)).filterMap (fun (i : Nat) =>
            if validateBlockLink db (i : Int) = .ok false then
              some ("previous block hash invalid for block " ++ toString i)
            else none)) ∧
    (validateChain digest db = .ok [] ↔
      ∀ i : Nat, i ≤ n →
        validateBlock digest db (i : Int) = .ok true ∧
        validateBlockLink db (i : Int) = .ok true) := by
  have hb : ∀ i : Nat, i < n + 1 → validateBlock digest db (i : Int) =
      .ok (decide (validateBlock digest db (i : Int) = .ok true)) := by
    intro i hi
    obtain ⟨r, hr⟩ := hvb i (by omega)
    rw [hr]
    cases r <;> simp
  have hl : ∀ i : Nat, i < n + 1 → validateBlockLink db (i : Int) =
      .ok (decide (validateBlockLink db (i : Int) = .ok true)) := by
    intro i hi
    obtain ⟨r, hr⟩ := hvl i (by omega)
    rw [hr]
    cases r <;> simp
  have hb2 : ∀ i : Nat, i < n + 1 →
      (decide (validateBlock digest db (i : Int) = .ok true) = false ↔
        validateBlock digest db (i : Int) = .ok false) := by
    intro i hi
    obtain ⟨r, hr⟩ := hvb i (by omega)
    rw [hr]
    cases r <;> simp
  have hl2 : ∀ i : Nat, i < n + 1 →
      (decide (validateBlockLink db (i : Int) = .ok true) = false ↔
        validateBlockLink db (i : Int) = .ok false) := by
    intro i hi
    obtain ⟨r, hr⟩ := hvl i (by omega)
    rw [hr]
    cases r <;> simp
  have hmain := validateChain_of_checks digest db (n + 1) _ _
    (getBlocksCount_of_keysUpTo db n hkeys) hb hl
  have hlist : validateChain digest db =
      .ok ((List.range (n + 1)).filterMap (fun (i : Nat) =>
            if validateBlock digest db (i : Int) = .ok false then
              some ("block hash invalid for block " ++ toString i)
            else none) ++
          (List.range (n + 1)).filterMap (fun (i : Nat) =>
            if validateBlockLink db (i : Int) = .ok false then
              some ("previous block hash invalid for block " ++ toString i)
            else none)) := by
    rw [hmain]
    congr 2
    · apply List.filterMap_congr
      intro i hi
      simp only [hb2 i (List.mem_range.mp hi)]
    · apply List.filterMap_congr
      intro i hi
      simp only [hl2 i (List.mem_range.mp hi)]
  refine ⟨hlist, ?_⟩
  rw [hlist]
  simp only [Except.ok.injEq, List.append_eq_nil, List.filterMap_eq_nil_iff, List.mem_range]
  constructor
  · rintro ⟨h1, h2⟩ i hi
    have e1 := h1 i (by omega)
    have e2 := h2 i (by omega)
    obtain ⟨r1, hr1⟩ := hvb i hi
    obtain ⟨r2, hr2⟩ := hvl i hi
    rw [hr1] at e1 ⊢
    rw [hr2] at e2 ⊢
    cases r1 <;> cases r2 <;> simp at e1 e2 ⊢
  · intro h
    constructor
    · intro i hi
      rw [(h i (by omega)).1]
      simp
    · intro i hi
      rw [(h i (by omega)).2]
      simp

/-- C10 at a two-record store whose second record fails both checks. -/
theorem validateChain_spec_witness :
    validateChain (fun _ => "d")
        [(1, { Block.new "2" with height := 1, previousBlockHash := "p" }),
         (0, { Block.new "1" with hash := "d" })] =
      .ok ((List.range (1 + 1)).filterMap (fun (i : Nat) =>
            if validateBlock (fun _ => "d")
                [(1, { Block.new "2" with height := 1, previousBlockHash := "p" }),
                 (0, { Block.new "1" with hash := "d" })] (i : Int) = .ok false then
              some ("block hash invalid for block " ++ toString i)
            else none) ++
          (List.range (1 + 1)).filterMap (fun (i : Nat) =>
            if validateBlockLink
                [(1, { Block.new "2" with height := 1, previousBlockHash := "p" }),
                 (0, { Block.new "1" with hash := "d" })] (i : Int) = .ok false then
              some ("previous block hash invalid for block " ++ toString i)
            else none)) ∧
    (validateChain (fun _ => "d")
        [(1, { Block.new "2" with height := 1, previousBlockHash := "p" }),
         (0, { Block.new "1" with hash := "d" })] = .ok [] ↔
      ∀ i : Nat, i ≤ 1 →
        validateBlock (fun _ => "d")
          [(1, { Block.new "2" with height := 1, previousBlockHash := "p" }),
           (0, { Block.new "1" with hash := "d" })] (i : Int) = .ok true ∧
        validateBlockLink
          [(1, { Block.new "2" with height := 1, previousBlockHash := "p" }),
           (0, { Block.new "1" with hash := "d" })] (i : Int) = .ok true) :=
  validateChain_spec (fun _ => "d")
    [(1, { Block.new "2" with height := 1, previousBlockHash := "p" }),
     (0, { Block.new "1" with hash := "d" })] 1
    (by
      simpa using keysUpTo_put_next [(0, { Block.new "1" with hash := "d" })] 0
        ({ Block.new "2" with height := 1, previousBlockHash := "p" } : Block)
        (keysUpTo_singleton _))
    (by
      intro i hi
      interval_cases i
      · exact ⟨true, by decide⟩
      · exact ⟨false, by decide⟩)
    (by
      intro i hi
      interval_cases i
      · exact ⟨true, by decide⟩
      · exact ⟨false, by decide⟩)

/-! ## C11 -/

/-- C11, as stated, fails: the bootstrapped ledger whose genesis record is overwritten with
a copy carrying height 7 holds a well-formed record at key 0, and `validateChain` rejects
on it, because `validateBlockLink(0)` goes on to fetch key `-1`. -/
theorem validateChain_tampered_height_counterexample :
    getBlocksCount (_modifyBlock (generateGenesisBlock (fun s => s) "1540" []) 0
      { stamp (fun s => s) (Block.new genesisBlockBody) 0 "1540" "" with height := 7 }) = 1 ∧
    getLevelDBData (_modifyBlock (generateGenesisBlock (fun s => s) "1540" []) 0
      { stamp (fun s => s) (Block.new genesisBlockBody) 0 "1540" "" with height := 7 }) 0 =
      .ok { stamp (fun s => s) (Block.new genesisBlockBody) 0 "1540" "" with height := 7 } ∧
    validateChain (fun s => s) (_modifyBlock (generateGenesisBlock (fun s => s) "1540" []) 0
      { stamp (fun s => s) (Block.new genesisBlockBody) 0 "1540" "" with height := 7 }) =
      .error ("validateChain: Error found when executing Promise.all " ++
        "(validateBlock and validateBlockLink): " ++
        "validateBlockLink: Error found when calling getBlock of previous block: " ++
        "NotFoundError: Key not found in database [-1]") := by
  set_option maxRecDepth 1000000 in
  exact ⟨by decide, by decide, by decide⟩

/-- C11, amended: on a store with records at exactly the keys `0..n` whose record at key 0
carries height 0, whatever the hash and `previousBlockHash` fields of the records and the
height fields of the records at keys `1..n`, `validateChain` resolves with the list of
discrepancies; when the record at key 0 carries another height, `validateChain`
rejects. -/
theorem validateChain_resolves_of_genesis_height (digest : String → String) (db : Store)
    (n : Nat) (hkeys : KeysUpTo db n) (g : Block) (hg : db.lookup 0 = some g) :
    (g.height = 0 →
      validateChain digest db =
        .ok ((List.range (n + 1)).filterMap (fun (i : Nat) =>
              if validateBlock digest db (i : Int) = .ok false then
                some ("block hash invalid for block " ++ toString i)
              else none) ++
            (List.range (n + 1)).filterMap (fun (i : Nat) =>
              if validateBlockLink db (i : Int) = .ok false then
                some ("previous block hash invalid for block " ++ toString i)
              else none))) ∧
    (g.height ≠ 0 → ∃ e, validateChain digest db = .error e) := by
  have hc := getBlocksCount_of_keysUpTo db n hkeys
  constructor
  · intro h0
    exact validateChain_of_resolved digest db (n + 1) hc
      (fun i hi => validateBlock_resolves digest db n hkeys i (by omega))
      (fun i hi => validateBlockLink_resolves db n hkeys g hg h0 i (by omega))
  · intro h0
    have hnone : db.lookup ((0 : Int) - 1) = none := by
      cases hl : db.lookup ((0 : Int) - 1) with
      | none => rfl
      | some v =>
        have := ((hkeys ((0 : Int) - 1)).mp (by rw [hl]; rfl)).1
        omega
    have hrej := validateBlockLink_of_no_previous db 0 g hg h0 hnone
    exact validateChain_of_rejected_link digest db (n + 1) hc 0 (by omega) _ hrej

/-- C11, amended, at a two-record store with a tampered second record, and at a one-record
store whose record carries height 7. -/
theorem validateChain_resolves_of_genesis_height_witness :
    validateChain (fun _ => "d")
        [(1, { Block.new "2" with height := 5, hash := "zz", previousBlockHash := "q" }),
         (0, Block.new "1")] =
      .ok ((List.range (1 + 1)).filterMap (fun (i : Nat) =>
            if validateBlock (fun _ => "d")
                [(1, { Block.new "2" with height := 5, hash := "zz", previousBlockHash := "q" }),
                 (0, Block.new "1")] (i : Int) = .ok false then
              some ("block hash invalid for block " ++ toString i)
            else none) ++
          (List.range (1 + 1)).filterMap (fun (i : Nat) =>
            if validateBlockLink
                [(1, { Block.new "2" with height := 5, hash := "zz", previousBlockHash := "q" }),
                 (0, Block.new "1")] (i : Int) = .ok false then
              some ("previous block hash invalid for block " ++ toString i)
            else none)) ∧
    ∃ e, validateChain (fun _ => "d") [(0, { Block.new "1" with height := 7 })]
      = .error e :=
  ⟨(validateChain_resolves_of_genesis_height (fun _ => "d")
      [(1, { Block.new "2" with height := 5, hash := "zz", previousBlockHash := "q" }),
       (0, Block.new "1")] 1
      (by
        simpa using keysUpTo_put_next [(0, Block.new "1")] 0
          ({ Block.new "2" with height := 5, hash := "zz", previousBlockHash := "q" } : Block)
          (keysUpTo_singleton _))
      (Block.new "1") (by decide)).1 (by decide),
   (validateChain_resolves_of_genesis_height (fun _ => "d")
      [(0, { Block.new "1" with height := 7 })] 0 (keysUpTo_singleton _)
      { Block.new "1" with height := 7 } (by decide)).2 (by decide)⟩

/-! ## C12 -/

/-- C12: on a valid ledger (records at exactly the keys `0..n`, height fields equal to the
keys, hashes and links intact), overwriting the record at a stored height `k` through
`_modifyBlock` with a copy that differs only in its body makes `validateBlock(k)` resolve
`false` and makes `validateChain` resolve with a list that contains `block hash invalid
for block k`, provided the digest of the copy with its hash cleared differs from the
digest of the original with its hash cleared. -/
theorem modifyBlock_body_detected (digest : String → String) (db : Store) (n k : Nat)
    (hk : k ≤ n) (b : Block) (body : String)
    (hkeys : KeysUpTo db n) (hheight : HeightIsKey db) (hhash : HashesOk digest db)
    (_hlink : LinksOk db) (hb : db.lookup (k : Int) = some b)
    (hdigest : digest (stringify { ({ b with body := body } : Block) with hash := "" }) ≠
      digest (stringify { b with hash := "" })) :
    validateBlock digest (_modifyBlock db (k : Int) { b with body := body }) (k : Int)
      = .ok false ∧
    ∃ log, validateChain digest (_modifyBlock db (k : Int) { b with body := body })
        = .ok log ∧
      ("block hash invalid for block " ++ toString k) ∈ log := by
  obtain ⟨hkeys1, -, hlook, g, hg, hg0⟩ :=
    modifyBlock_body_invariant db n k hk b body hkeys hheight hb
  have hfalse : validateBlock digest (_modifyBlock db (k : Int) { b with body := body })
      (k : Int) = .ok false := by
    rw [validateBlock_of_some digest _ _ _ hlook]
    have hne : ¬ (({ b with body := body } : Block).hash =
        digest (stringify { ({ b with body := body } : Block) with hash := "" })) := by
      intro h
      apply hdigest
      rw [← h]
      exact hhash _ b hb
    simp only [hne, decide_False]
  refine ⟨hfalse, _, validateChain_of_resolved digest _ (n + 1)
    (getBlocksCount_of_keysUpTo _ n hkeys1)
    (fun i hi => validateBlock_resolves digest _ n hkeys1 i (by omega))
    (fun i hi => validateBlockLink_resolves _ n hkeys1 g hg hg0 i (by omega)), ?_⟩
  apply List.mem_append_left
  rw [List.mem_filterMap]
  exact ⟨k, List.mem_range.mpr (by omega), by rw [if_pos hfalse]⟩

/-- C12 at the bootstrapped ledger with the identity as digest: the body of the genesis
record is replaced. -/
theorem modifyBlock_body_detected_witness :
    validateBlock (fun s => s)
      (_modifyBlock (generateGenesisBlock (fun s => s) "1540" []) ((0 : Nat) : Int)
        { stamp (fun s => s) (Block.new genesisBlockBody) 0 "1540" "" with body := "0" })
      ((0 : Nat) : Int) = .ok false ∧
    ∃ log, validateChain (fun s => s)
        (_modifyBlock (generateGenesisBlock (fun s => s) "1540" []) ((0 : Nat) : Int)
          { stamp (fun s => s) (Block.new genesisBlockBody) 0 "1540" "" with body := "0" })
        = .ok log ∧
      ("block hash invalid for block " ++ toString 0) ∈ log :=
  modifyBlock_body_detected (fun s => s) (generateGenesisBlock (fun s => s) "1540" []) 0 0
    (le_refl _) (stamp (fun s => s) (Block.new genesisBlockBody) 0 "1540" "") "0"
    (genesis_invariant (fun s => s) "1540").1
    (genesis_invariant (fun s => s) "1540").2.1
    (genesis_invariant (fun s => s) "1540").2.2.1
    (genesis_invariant (fun s => s) "1540").2.2.2
    (by rw [generateGenesisBlock_of_empty]; rfl)
    (by
      set_option maxRecDepth 1000000 in
      decide)

/-! ## C13 -/

/-- C13: on a store whose keys are exactly `0..n`, `addBlock` resolves, leaves the value
stored at every key of `0..n` as it was and adds exactly one key, `n + 1`. -/
theorem addBlock_append_only (digest : String → String) (now0 now : String)
    (newBlock : Block) (db : Store) (n : Nat) (hkeys : KeysUpTo db n) :
    ∃ out db1, addBlock digest now0 now newBlock db = .ok (out, db1) ∧
      (∀ k : Int, 0 ≤ k → k ≤ (n : Int) → getLevelDBData db1 k = getLevelDBData db k) ∧
      KeysUpTo db1 (n + 1) ∧
      getBlocksCount db1 = getBlocksCount db + 1 ∧
      db.lookup ((n : Int) + 1) = none := by
  obtain ⟨tail, ht⟩ := tail_of_keysUpTo db n hkeys
  have hc := getBlocksCount_of_keysUpTo db n hkeys
  have hk1 := keysUpTo_put_next db n (stamp digest newBlock ((n : Int) + 1) now tail.hash)
    hkeys
  refine ⟨_, _, addBlock_of_tail digest now0 now newBlock db n tail hc ht, ?_, hk1, ?_, ?_⟩
  · intro k h0 hn
    unfold getLevelDBData
    rw [lookup_cons_eq, if_neg (by omega)]
  · rw [getBlocksCount_of_keysUpTo _ (n + 1) hk1, hc]
  · cases hl : db.lookup ((n : Int) + 1) with
    | none => rfl
    | some v =>
      have := ((hkeys ((n : Int) + 1)).mp (by rw [hl]; rfl)).2
      omega

/-- C13 at a one-record store. -/
theorem addBlock_append_only_witness :
    ∃ out db1, addBlock (fun _ => "d") "10" "11" (Block.new "2") [(0, Block.new "1")]
        = .ok (out, db1) ∧
      (∀ k : Int, 0 ≤ k → k ≤ ((0 : Nat) : Int) →
        getLevelDBData db1 k = getLevelDBData [(0, Block.new "1")] k) ∧
      KeysUpTo db1 (0 + 1) ∧
      getBlocksCount db1 = getBlocksCount [(0, Block.new "1")] + 1 ∧
      List.lookup (((0 : Nat) : Int) + 1) [((0 : Int), Block.new "1")] = none :=
  addBlock_append_only (fun _ => "d") "10" "11" (Block.new "2") [(0, Block.new "1")] 0
    (keysUpTo_singleton _)

/-! ## C14 -/

/-- C14: `getBlockByHash(x)` resolves exactly when some stored record has hash field `x`;
it then resolves with the text of the first record of the read stream that has hash `x`;
when no stored record has hash `x` it rejects with the not-found warning. -/
theorem getBlockByHash_spec (db : Store) (x : String) :
    ((∃ out, getBlockByHash db x = .ok out) ↔
      ∃ k b, db.lookup k = some b ∧ b.hash = x) ∧
    (∀ out, getBlockByHash db x = .ok out →
      ∃ k r pre post, scan db = pre ++ (k, r) :: post ∧
        (∀ e ∈ pre, e.2.hash ≠ x) ∧
        db.lookup k = some r ∧ r.hash = x ∧ out = stringify r) ∧
    ((¬ ∃ k b, db.lookup k = some b ∧ b.hash = x) →
      getBlockByHash db x =
        .error ("Warning: Block has not been found by hash: " ++ x)) := by
  have hfind := getBlockByHash_eq_find db x
  have hsome : ∀ out, getBlockByHash db x = .ok out →
      ∃ k r pre post, scan db = pre ++ (k, r) :: post ∧
        (∀ e ∈ pre, e.2.hash ≠ x) ∧
        db.lookup k = some r ∧ r.hash = x ∧ out = stringify r := by
    intro out hout
    rw [hfind] at hout
    cases hf : (scan db).find? (fun data => decide (data.2.hash = x)) with
    | none =>
      rw [hf] at hout
      cases hout
    | some d =>
      rw [hf] at hout
      injection hout with hout
      obtain ⟨hp, pre, post, hsplit, hpre⟩ := List.find?_eq_some.mp hf
      obtain ⟨k, r⟩ := d
      have hmem : (k, r) ∈ scan db := by
        rw [hsplit]
        simp
      refine ⟨k, r, pre, post, hsplit, ?_, (mem_scan_iff db k r).mp hmem, ?_, hout.symm⟩
      · intro e he
        simpa using hpre e he
      · simpa using hp
  have hnone : (¬ ∃ k b, db.lookup k = some b ∧ b.hash = x) →
      getBlockByHash db x =
        .error ("Warning: Block has not been found by hash: " ++ x) := by
    intro hno
    rw [hfind]
    have hf : (scan db).find? (fun data => decide (data.2.hash = x)) = none := by
      rw [List.find?_eq_none]
      rintro ⟨k, b⟩ hmem hp
      exact hno ⟨k, b, (mem_scan_iff db k b).mp hmem, by simpa using hp⟩
    rw [hf]
  refine ⟨⟨?_, ?_⟩, hsome, hnone⟩
  · rintro ⟨out, hout⟩
    obtain ⟨k, r, -, -, -, -, hl, hr, -⟩ := hsome out hout
    exact ⟨k, r, hl, hr⟩
  · intro hex
    by_contra hno
    cases hres : getBlockByHash db x with
    | ok out => exact hno ⟨out, hres⟩
    | error e =>
      rw [hfind] at hres
      cases hf : (scan db).find? (fun data => decide (data.2.hash = x)) with
      | some d =>
        rw [hf] at hres
        cases hres
      | none =>
        rw [List.find?_eq_none] at hf
        obtain ⟨k, b, hl, hb⟩ := hex
        exact hf (k, b) ((mem_scan_iff db k b).mpr hl) (by simpa using hb)

/-- C14 at a store with keys 2 and 10 whose records share the hash `h`: the stream visits
key 10 before key 2, so the record at key 10 is returned; no record has hash `z`. -/
theorem getBlockByHash_spec_witness :
    (∃ k r pre post,
      scan [(2, { Block.new "2" with hash := "h" }), (10, { Block.new "10" with hash := "h" })]
        = pre ++ (k, r) :: post ∧
      (∀ e ∈ pre, e.2.hash ≠ "h") ∧
      List.lookup k
        [((2 : Int), { Block.new "2" with hash := "h" }),
         (10, { Block.new "10" with hash := "h" })] = some r ∧
      r.hash = "h" ∧ stringify { Block.new "10" with hash := "h" } = stringify r) ∧
    getBlockByHash
      [(2, { Block.new "2" with hash := "h" }), (10, { Block.new "10" with hash := "h" })]
      "z" = .error ("Warning: Block has not been found by hash: " ++ "z") :=
  ⟨(getBlockByHash_spec
      [(2, { Block.new "2" with hash := "h" }), (10, { Block.new "10" with hash := "h" })]
      "h").2.1 _ (by decide),
   (getBlockByHash_spec
      [(2, { Block.new "2" with hash := "h" }), (10, { Block.new "10" with hash := "h" })]
      "z").2.2 (by
        rintro ⟨k, b, hl, hb⟩
        rw [lookup_cons_eq] at hl
        by_cases h2 : k = 2
        · rw [if_pos h2] at hl
          injection hl with hl
          rw [← hl] at hb
          exact absurd hb (by decide)
        · rw [if_neg h2, lookup_cons_eq] at hl
          by_cases h10 : k = 10
          · rw [if_pos h10] at hl
            injection hl with hl
            rw [← hl] at hb
            exact absurd hb (by decide)
          · rw [if_neg h10] at hl
            simp at hl)⟩

/-! ## C15 -/

/-- C15 fails on the code at the wallet address `length`.  On the empty pool, with the
clock at 1000 milliseconds, `addRequestValidation('length', 1)` pushes the request and
makes its timeout, and then throws `RangeError: Invalid array length` at the assignment to
`timeoutRequests['length']`: no request is returned and the table gets no entry.  The same
call for the wallet address `A` returns its request. -/
theorem addRequestValidation_length_throws :
    addRequestValidation 1000 "length" 1 Mempool.new =
      .error ("RangeError: Invalid array length", exampleThrown) ∧
    exampleThrown.mempool = [⟨"length", 1, "length:1:starRegistry", 300⟩] ∧
    exampleThrown.timers = [⟨"length", 301000⟩] ∧
    exampleThrown.timeoutRequests = [] ∧
    addRequestValidation 1000 "A" 1 Mempool.new =
      .ok (⟨"A", 1, "A:1:starRegistry", 300⟩, examplePending) := by
  refine ⟨by decide, rfl, rfl, rfl, by decide⟩

/-! ## C16 -/

/-- C16: `addRequestValidation(a, t)` made when the clock shows second `t`, followed by
`addRequestValidation(a, t + 1)` made when it shows second `t + 1`, returns the same
request the second time (same wallet address, message and time stamp, only
`validationWindow` renewed) and adds no entry to `mempool`; each `validationWindow` is 300
minus the seconds elapsed since the time stamp of the request, so the second is strictly
smaller than the first.  When `a` had no pending request before, the time stamp is `t`,
the message is `a:t:starRegistry`, the windows are 300 and 299 and `mempool` has gained
exactly that one request.  The first call returns the request `r1` it stores, except for
the address `length` when it is not pending yet: then the first call throws after it has
stored `r1`, and the second call returns it all the same. -/
theorem addRequestValidation_twice (now1 now2 : Nat) (a : String) (t : Nat) (s : Mempool)
    (h1 : now1 / 1000 = t) (h2 : now2 / 1000 = t + 1) :
    ∃ r1 s1 r2 s2,
      (¬ (a = "length" ∧ ∀ r ∈ s.mempool, r.walletAddress ≠ a) →
        addRequestValidation now1 a t s = .ok (r1, s1)) ∧
      ((a = "length" ∧ ∀ r ∈ s.mempool, r.walletAddress ≠ a) →
        addRequestValidation now1 a t s =
          .error ("RangeError: Invalid array length", s1)) ∧
      r1 ∈ s1.mempool ∧ r1.walletAddress = a ∧
      addRequestValidation now2 a (t + 1) s1 = .ok (r2, s2) ∧
      r2 = { r1 with validationWindow := r2.validationWindow } ∧
      s2.mempool.length = s1.mempool.length ∧
      r1.validationWindow = 300 - ((t : Int) - (r1.requestTimeStamp : Int)) ∧
      r2.validationWindow = 300 - (((t : Int) + 1) - (r1.requestTimeStamp : Int)) ∧
      r2.validationWindow < r1.validationWindow ∧
      ((∀ r ∈ s.mempool, r.walletAddress ≠ a) →
        r1.requestTimeStamp = t ∧
        r1.message = a ++ ":" ++ toString t ++ ":starRegistry" ∧
        r1.validationWindow = 300 ∧ r2.validationWindow = 299 ∧
        s2.mempool = s.mempool ++ [r2]) := by
  by_cases hno : ∀ r ∈ s.mempool, r.walletAddress ≠ a
  · have hf := findIdx?_append_new (fun (r : Request) => decide (r.walletAddress = a))
      s.mempool ⟨a, t, a ++ ":" ++ toString t ++ ":starRegistry", verifyWindowTime now1 t⟩
      ((absent_iff a s.mempool).mpr hno) (by simp)
    have hr : (s.mempool ++
        [(⟨a, t, a ++ ":" ++ toString t ++ ":starRegistry", verifyWindowTime now1 t⟩ :
          Request)])[s.mempool.length]? =
        some ⟨a, t, a ++ ":" ++ toString t ++ ":starRegistry", verifyWindowTime now1 t⟩ := by
      simp
    obtain ⟨hpool, -, -⟩ := leaves_addRequestValidation_of_absent now1 a t s hno
    rw [← hpool] at hf hr
    have hsecond := addRequestValidation_of_present now2 a (t + 1)
      (leaves (addRequestValidation now1 a t s)) s.mempool.length _ hf hr
    refine ⟨⟨a, t, a ++ ":" ++ toString t ++ ":starRegistry", verifyWindowTime now1 t⟩,
      leaves (addRequestValidation now1 a t s), _, _, ?_, ?_, ?_, rfl, hsecond, rfl, by simp,
      ?_, ?_, ?_, ?_⟩
    · intro hnot
      have hne : a ≠ "length" := fun h => hnot ⟨h, hno⟩
      exact addRequestValidation_ok_of_absent now1 a t s hno hne
    · rintro ⟨hlen, -⟩
      rw [hlen] at hno ⊢
      exact addRequestValidation_error_of_absent now1 t s hno
    · rw [hpool]
      simp
    · simp only [verifyWindowTime_eq, h1]
    · simp only [verifyWindowTime_eq, h2]
      push_cast
      rfl
    · simp only [verifyWindowTime_eq, h1, h2]
      push_cast
      omega
    · intro _
      refine ⟨rfl, rfl, ?_, ?_, ?_⟩
      · simp only [verifyWindowTime_eq, h1]
        omega
      · simp only [verifyWindowTime_eq, h2]
        push_cast
        omega
      · rw [hpool]
        simp
  · obtain ⟨i, r0, hf, hr, hp, hfind⟩ := findIdx?_of_exists
      (fun (r : Request) => decide (r.walletAddress = a)) s.mempool
      (fun hall => hno ((absent_iff a s.mempool).mp hall))
    have hfirst := addRequestValidation_of_present now1 a t s i r0 hf hr
    have hlt : i < s.mempool.length := by
      rcases Nat.lt_or_ge i s.mempool.length with h | h
      · exact h
      · rw [List.getElem?_eq_none h] at hr
        cases hr
    have hf1 := findIdx?_set (fun (r : Request) => decide (r.walletAddress = a)) s.mempool i
      { r0 with validationWindow := verifyWindowTime now1 r0.requestTimeStamp } hf hp
    have hr1 : (s.mempool.set i
        { r0 with validationWindow := verifyWindowTime now1 r0.requestTimeStamp })[i]? =
        some { r0 with validationWindow := verifyWindowTime now1 r0.requestTimeStamp } := by
      rw [List.getElem?_set_self hlt]
    have hsecond := addRequestValidation_of_present now2 a (t + 1)
      { s with mempool := (s.mempool.set i
          { r0 with validationWindow := verifyWindowTime now1 r0.requestTimeStamp }) }
      i _ hf1 hr1
    refine ⟨_, _, _, _, fun _ => hfirst, fun h => absurd h.2 hno, ?_, by simpa using hp,
      hsecond, rfl, by simp, ?_, ?_, ?_, ?_⟩
    · exact List.mem_iff_getElem?.mpr ⟨i, hr1⟩
    · simp only [verifyWindowTime_eq, h1]
    · simp only [verifyWindowTime_eq, h2]
      push_cast
      rfl
    · simp only [verifyWindowTime_eq, h1, h2]
      push_cast
      omega
    · intro habs
      exact absurd habs hno

/-- C16 at the empty pool, with the clock at 5000 and then at 6999 milliseconds, for the
wallet address `A` and for the wallet address `length`. -/
theorem addRequestValidation_twice_witness :
    (∃ r1 s1 r2 s2,
      addRequestValidation 5000 "A" 5 Mempool.new = .ok (r1, s1) ∧
      addRequestValidation 6999 "A" (5 + 1) s1 = .ok (r2, s2) ∧
      r2 = { r1 with validationWindow := r2.validationWindow } ∧
      s2.mempool.length = s1.mempool.length ∧
      r1.validationWindow = 300 - (((5 : Nat) : Int) - (r1.requestTimeStamp : Int)) ∧
      r2.validationWindow = 300 - ((((5 : Nat) : Int) + 1) - (r1.requestTimeStamp : Int)) ∧
      r2.validationWindow < r1.validationWindow ∧
      ((∀ r ∈ Mempool.new.mempool, r.walletAddress ≠ "A") →
        r1.requestTimeStamp = 5 ∧
        r1.message = "A" ++ ":" ++ toString 5 ++ ":starRegistry" ∧
        r1.validationWindow = 300 ∧ r2.validationWindow = 299 ∧
        s2.mempool = Mempool.new.mempool ++ [r2])) ∧
    (∃ r1 s1 r2 s2,
      addRequestValidation 5000 "length" 5 Mempool.new =
        .error ("RangeError: Invalid array length", s1) ∧
      r1 ∈ s1.mempool ∧ r1.walletAddress = "length" ∧
      addRequestValidation 6999 "length" (5 + 1) s1 = .ok (r2, s2) ∧
      r2 = { r1 with validationWindow := r2.validationWindow } ∧
      s2.mempool.length = s1.mempool.length ∧
      r1.validationWindow = 300 ∧ r2.validationWindow = 299 ∧
      r2.message = "length" ++ ":" ++ toString 5 ++ ":starRegistry") := by
  obtain ⟨r1, s1, r2, s2, k1, -, -, -, k2, k3, k4, k5, k6, k7, k8⟩ :=
    addRequestValidation_twice 5000 6999 "A" 5 Mempool.new (by decide) (by decide)
  obtain ⟨q1, p1, q2, p2, -, l1, l2, l3, l4, l5, l6, -, -, -, l7⟩ :=
    addRequestValidation_twice 5000 6999 "length" 5 Mempool.new (by decide) (by decide)
  have habsent : ∀ r ∈ Mempool.new.mempool, r.walletAddress ≠ "length" := by decide
  obtain ⟨-, m2, m3, m4, -⟩ := l7 habsent
  refine ⟨⟨r1, s1, r2, s2, k1 (by decide), k2, k3, k4, k5, k6, k7, k8⟩,
    ⟨q1, p1, q2, p2, l1 ⟨rfl, habsent⟩, l2, l3, l4, l5, l6, m3, m4, ?_⟩⟩
  rw [l5]
  exact m2

/-! ## C17 -/

/-- C17: `validateRequestByWallet(a, sig)` returns the not-found error exactly when `a` has
no pending request.  When `a` has the pending request `r`: if the verifier throws on
`(r.message, a, sig)` it returns the verification error; if the verifier returns `false`
it returns the invalid-signature error; if the verifier returns `true` it returns
`error = false` with a valid request that has `registerStar = true` and a status carrying
`a` and `r.message`, and afterwards `verifyAddressRequest(a)` is `true`. -/
theorem validateRequestByWallet_spec
    (verify : String → String → String → Except String Bool) (now : Nat)
    (a sig : String) (s : Mempool) :
    ∃ resp next, validateRequestByWallet verify now a sig s = .ok (resp, next) ∧
      (resp = ⟨true, .text ("validateRequestByWallet: request not found on mempool: " ++ a)⟩
        ↔ ∀ r ∈ s.mempool, r.walletAddress ≠ a) ∧
      (∀ r, s.mempool.find? (fun r => decide (r.walletAddress = a)) = some r →
        (∀ err, verify r.message a sig = .error err →
          resp = ⟨true, .text ("validateRequestByWallet: an error has occurred while " ++
            "validating signature: " ++ err)⟩ ∧ next = s) ∧
        (verify r.message a sig = .ok false →
          resp = ⟨true, .text ("validateRequestByWallet: signature is not valid: " ++ a)⟩ ∧
          next = s) ∧
        (verify r.message a sig = .ok true →
          resp.error = false ∧
          (∃ v, resp.data = .request v ∧ v.registerStar = true ∧
            v.status.address = a ∧ v.status.message = r.message) ∧
          next.mempool = s.mempool ∧
          verifyAddressRequest a next = true)) := by
  by_cases hno : ∀ r ∈ s.mempool, r.walletAddress ≠ a
  · refine ⟨_, _, validateRequestByWallet_of_absent verify now a sig s hno,
      ⟨fun _ => hno, fun _ => rfl⟩, ?_⟩
    intro r hr
    have hnone : s.mempool.find? (fun r => decide (r.walletAddress = a)) = none := by
      rw [List.find?_eq_none]
      intro x hx
      simpa using hno x hx
    rw [hnone] at hr
    cases hr
  · obtain ⟨i, r0, hf, hr, hp, hfind⟩ := findIdx?_of_exists
      (fun (r : Request) => decide (r.walletAddress = a)) s.mempool
      (fun hall => hno ((absent_iff a s.mempool).mp hall))
    have hpa : r0.walletAddress = a := by simpa using hp
    have hcall := validateRequestByWallet_of_present verify now a sig s i r0 hf hr
    rw [hpa] at hcall
    cases hv : verify r0.message a sig with
    | error err =>
      rw [hv] at hcall
      refine ⟨_, _, hcall, ⟨fun h => ?_, fun h => absurd h hno⟩, ?_⟩
      · injection h with _ h
        injection h with h
        exact absurd h.symm (notFound_ne_verifyError a err)
      · intro r hr1
        rw [hfind] at hr1
        injection hr1 with hr1
        subst hr1
        refine ⟨fun err1 he => ?_, fun he => ?_, fun he => ?_⟩
        · rw [hv] at he
          injection he with he
          rw [he]
          exact ⟨rfl, rfl⟩
        · rw [hv] at he
          cases he
        · rw [hv] at he
          cases he
    | ok isValid =>
      cases isValid with
      | false =>
        rw [hv] at hcall
        refine ⟨_, _, hcall, ⟨fun h => ?_, fun h => absurd h hno⟩, ?_⟩
        · injection h with _ h
          injection h with h
          exact absurd h.symm (notFound_ne_invalid a a)
        · intro r hr1
          rw [hfind] at hr1
          injection hr1 with hr1
          subst hr1
          refine ⟨fun err1 he => ?_, fun _ => ⟨rfl, rfl⟩, fun he => ?_⟩
          · rw [hv] at he
            cases he
          · rw [hv] at he
            cases he
      | true =>
        rw [hv] at hcall
        refine ⟨_, _, hcall, ⟨fun h => ?_, fun h => absurd h hno⟩, ?_⟩
        · injection h with h _
          cases h
        · intro r hr1
          rw [hfind] at hr1
          injection hr1 with hr1
          subst hr1
          refine ⟨fun err1 he => ?_, fun he => ?_, fun _ => ?_⟩
          · rw [hv] at he
            cases he
          · rw [hv] at he
            cases he
          · exact ⟨rfl, ⟨_, rfl, rfl, rfl, rfl⟩, rfl,
              verifyAddressRequest_after_push a s _ (validRequestOf now a r0) rfl rfl⟩

/-- C17 on the pool with one pending request for `A`: a malformed signature, a wrong
signature and the right signature for `A`, and a request for `B`, which has none
pending. -/
theorem validateRequestByWallet_spec_witness :
    (∃ resp next, validateRequestByWallet exampleVerify 2000 "A" "malformed" examplePending
        = .ok (resp, next) ∧
      resp = ⟨true, .text ("validateRequestByWallet: an error has occurred while " ++
        "validating signature: " ++ "Error: Invalid signature length")⟩ ∧
      next = examplePending) ∧
    (∃ resp next, validateRequestByWallet exampleVerify 2000 "A" "wrong" examplePending
        = .ok (resp, next) ∧
      resp = ⟨true, .text ("validateRequestByWallet: signature is not valid: " ++ "A")⟩ ∧
      next = examplePending) ∧
    (∃ resp next, validateRequestByWallet exampleVerify 2000 "A" "signed" examplePending
        = .ok (resp, next) ∧ resp.error = false ∧ verifyAddressRequest "A" next = true) ∧
    (∃ resp next, validateRequestByWallet exampleVerify 2000 "B" "signed" examplePending
        = .ok (resp, next) ∧
      resp = ⟨true,
        .text ("validateRequestByWallet: request not found on mempool: " ++ "B")⟩) := by
  obtain ⟨r1, n1, h1, -, k1⟩ :=
    validateRequestByWallet_spec exampleVerify 2000 "A" "malformed" examplePending
  obtain ⟨r2, n2, h2, -, k2⟩ :=
    validateRequestByWallet_spec exampleVerify 2000 "A" "wrong" examplePending
  obtain ⟨r3, n3, h3, -, k3⟩ :=
    validateRequestByWallet_spec exampleVerify 2000 "A" "signed" examplePending
  obtain ⟨r4, n4, h4, k4, -⟩ :=
    validateRequestByWallet_spec exampleVerify 2000 "B" "signed" examplePending
  have e1 := (k1 ⟨"A", 1, "A:1:starRegistry", 300⟩ (by decide)).1
    "Error: Invalid signature length" (by decide)
  have e2 := (k2 ⟨"A", 1, "A:1:starRegistry", 300⟩ (by decide)).2.1 (by decide)
  have e3 := (k3 ⟨"A", 1, "A:1:starRegistry", 300⟩ (by decide)).2.2 (by decide)
  have e4 := k4.mpr (by decide)
  exact ⟨⟨r1, n1, h1, e1.1, e1.2⟩, ⟨r2, n2, h2, e2.1, e2.2⟩,
    ⟨r3, n3, h3, e3.1, e3.2.2.2⟩, ⟨r4, n4, h4, e4⟩⟩

/-! ## C18 -/

/-- C18 fails on the code at the wallet address `length`.  On every pool
`removeValidationRequest('length')` splices the pending request out of `mempool` and then
throws a `TypeError` at `delete timeoutRequests['length']`: the call does not return, it
never reaches `mempoolValid`, and a second call throws again.  The pool `exampleThrown`, in
which `length` is pending, is reachable from the empty pool. -/
theorem removeValidationRequest_length_throws :
    (∀ s : Mempool, removeValidationRequest "length" s =
      .error ("TypeError: Cannot delete property \x27length\x27 of [object Array]",
        { s with
          mempool := s.mempool.eraseP (fun r => decide (r.walletAddress = "length")) })) ∧
    Reachable exampleVerify exampleThrown ∧
    removeValidationRequest "length" exampleThrown =
      .error ("TypeError: Cannot delete property \x27length\x27 of [object Array]",
        { exampleThrown with mempool := [] }) ∧
    removeValidationRequest "length" { exampleThrown with mempool := [] } =
      .error ("TypeError: Cannot delete property \x27length\x27 of [object Array]",
        { exampleThrown with mempool := [] }) ∧
    removeValidationRequest "A" exampleConfirmed =
      .ok ((), { exampleConfirmed with mempool := [], timeoutRequests := [],
                                       mempoolValid := [] }) := by
  refine ⟨removeValidationRequest_length, reachable_exampleThrown, by decide, by decide,
    by decide⟩

/-! ## C19 -/

/-- C19: in every pool reachable from the empty pool by calls of `addRequestValidation`,
`validateRequestByWallet` and `removeValidationRequest` and by timeouts running, no wallet
address has two entries in `mempool` and none has two entries in `mempoolValid`; and
confirming again an address that is already confirmed, with a signature the verifier
accepts for its pending request, succeeds and leaves both lists as they were. -/
theorem reachable_one_entry_each
    (verify : String → String → String → Except String Bool) (s : Mempool)
    (hreach : Reachable verify s) :
    (s.mempool.map (fun request => request.walletAddress)).Nodup ∧
    (s.mempoolValid.map (fun validRequest => validRequest.status.address)).Nodup ∧
    ∀ (now : Nat) (a sig : String) (r : Request),
      verifyAddressRequest a s = true →
      s.mempool.find? (fun r => decide (r.walletAddress = a)) = some r →
      verify r.message r.walletAddress sig = .ok true →
      ∃ resp next, validateRequestByWallet verify now a sig s = .ok (resp, next) ∧
        resp.error = false ∧
        next.mempool = s.mempool ∧ next.mempoolValid = s.mempoolValid := by
  have hinv := reachable_oneEntryEach verify s hreach
  refine ⟨hinv.1, hinv.2, ?_⟩
  intro now a sig r hconf hr hv
  have hex : ¬ ∀ x ∈ s.mempool, (fun (r : Request) => decide (r.walletAddress = a)) x = false := by
    intro hall
    have hp := (List.find?_eq_some.mp hr).1
    have hmem := List.mem_of_find?_eq_some hr
    have hq : decide (r.walletAddress = a) = false := hall r hmem
    rw [hq] at hp
    cases hp
  obtain ⟨i, r0, hf, hr0, -, hfind⟩ := findIdx?_of_exists _ s.mempool hex
  rw [hfind] at hr
  injection hr with hr
  subst hr
  have hcall := validateRequestByWallet_of_present verify now a sig s i r0 hf hr0
  rw [hv] at hcall
  refine ⟨_, _, hcall, rfl, rfl, ?_⟩
  simp only [hconf, Bool.true_eq_false, if_false]

/-- C19 on the pool where `A` is pending and confirmed: a second confirmation. -/
theorem reachable_one_entry_each_witness :
    (exampleConfirmed.mempool.map (fun request => request.walletAddress)).Nodup ∧
    (exampleConfirmed.mempoolValid.map
      (fun validRequest => validRequest.status.address)).Nodup ∧
    ∃ resp next, validateRequestByWallet exampleVerify 3000 "A" "signed" exampleConfirmed
        = .ok (resp, next) ∧
      resp.error = false ∧
      next.mempool = exampleConfirmed.mempool ∧
      next.mempoolValid = exampleConfirmed.mempoolValid :=
  ⟨(reachable_one_entry_each exampleVerify exampleConfirmed reachable_exampleConfirmed).1,
   (reachable_one_entry_each exampleVerify exampleConfirmed reachable_exampleConfirmed).2.1,
   (reachable_one_entry_each exampleVerify exampleConfirmed reachable_exampleConfirmed).2.2
     3000 "A" "signed" ⟨"A", 1, "A:1:starRegistry", 300⟩ (by decide) (by decide)
     (by decide)⟩

/-! ## C20 -/

/-- C20: on a reachable pool where `a` has no pending request, `addRequestValidation(a, t)`
called at clock reading `now` stores the request and makes a timeout for `a` that is due
300 seconds later; the call returns the request, except for the address `length`, where it
throws after both are done.  Whatever events follow, as long as that timeout is still
pending the runtime may run it once the clock has reached its due time, and right after it
has run `a` has no entry in `mempool` and none in `mempoolValid`, and
`validateRequestByWallet(a, sig)` returns the not-found error for every signature.  For the
address `length` this supposes a verifier that never accepts a signature for `length`, as
the callback then ends in a `TypeError` before it reaches `mempoolValid`. -/
theorem eviction_clears (verify : String → String → String → Except String Bool)
    (s : Mempool) (hreach : Reachable verify s) (now : Nat) (a : String) (t : Nat)
    (hno : ∀ r ∈ s.mempool, r.walletAddress ≠ a)
    (hverify : a = "length" → RejectsLength verify) :
    ∃ r s1,
      (a ≠ "length" → addRequestValidation now a t s = .ok (r, s1)) ∧
      (a = "length" →
        addRequestValidation now a t s = .error ("RangeError: Invalid array length", s1)) ∧
      r ∈ s1.mempool ∧ r.walletAddress = a ∧
      (⟨a, now + 300 * 1000⟩ : Timeout) ∈ s1.timers ∧
      ∀ s2, Relation.ReflTransGen (Step verify) s1 s2 →
        (⟨a, now + 300 * 1000⟩ : Timeout) ∈ s2.timers →
        ∀ later : Nat, now + 300 * 1000 ≤ later →
          Step verify s2 (fireTimeout ⟨a, now + 300 * 1000⟩ s2) ∧
          (∀ r ∈ (fireTimeout ⟨a, now + 300 * 1000⟩ s2).mempool, r.walletAddress ≠ a) ∧
          (∀ v ∈ (fireTimeout ⟨a, now + 300 * 1000⟩ s2).mempoolValid,
            v.status.address ≠ a) ∧
          ∀ (clock : Nat) (sig : String),
            validateRequestByWallet verify clock a sig
                (fireTimeout ⟨a, now + 300 * 1000⟩ s2) =
              .ok (⟨true,
                .text ("validateRequestByWallet: request not found on mempool: " ++ a)⟩,
                fireTimeout ⟨a, now + 300 * 1000⟩ s2) := by
  obtain ⟨hpool, -, htimers⟩ := leaves_addRequestValidation_of_absent now a t s hno
  refine ⟨⟨a, t, a ++ ":" ++ toString t ++ ":starRegistry", verifyWindowTime now t⟩,
    leaves (addRequestValidation now a t s), ?_, ?_, ?_, rfl, ?_, ?_⟩
  · intro hne
    exact addRequestValidation_ok_of_absent now a t s hno hne
  · intro hlen
    rw [hlen] at hno ⊢
    exact addRequestValidation_error_of_absent now t s hno
  · rw [hpool]
    simp
  · rw [htimers]
    simp [TimeoutRequestsWindowTime]
  · intro s2 hsteps hmem later hlater
    have hreach1 := reachable_request verify now a t s hreach
    have hreach2 : Reachable verify s2 := Relation.ReflTransGen.trans hreach1 hsteps
    have hinv2 := reachable_oneEntryEach verify s2 hreach2
    obtain ⟨h1, h2⟩ := fireTimeout_absent ⟨a, now + 300 * 1000⟩ s2 hinv2
      (fun hlen => (reachable_confirmedArePending verify (hverify hlen) s2 hreach2).2.2)
    exact ⟨Step.fire later ⟨a, now + 300 * 1000⟩ s2 hmem hlater, h1, h2,
      fun clock sig => validateRequestByWallet_of_absent verify clock a sig _ h1⟩

/-- C20 from the empty pool: the request for `A` is made at 1000 milliseconds, confirmed
at 2000, and its timeout runs at 301000; and the request for `length` is made at 1000
milliseconds, where the call throws, and its timeout runs at 301000. -/
theorem eviction_clears_witness :
    (∃ r s1, addRequestValidation 1000 "A" 1 Mempool.new = .ok (r, s1) ∧
      (⟨"A", 1000 + 300 * 1000⟩ : Timeout) ∈ s1.timers ∧
      (fireTimeout ⟨"A", 1000 + 300 * 1000⟩ exampleConfirmed).mempool = [] ∧
      (fireTimeout ⟨"A", 1000 + 300 * 1000⟩ exampleConfirmed).mempoolValid = [] ∧
      Step exampleVerify exampleConfirmed
        (fireTimeout ⟨"A", 1000 + 300 * 1000⟩ exampleConfirmed) ∧
      ∀ (clock : Nat) (sig : String),
        validateRequestByWallet exampleVerify clock "A" sig
            (fireTimeout ⟨"A", 1000 + 300 * 1000⟩ exampleConfirmed) =
          .ok (⟨true,
            .text ("validateRequestByWallet: request not found on mempool: " ++ "A")⟩,
            fireTimeout ⟨"A", 1000 + 300 * 1000⟩ exampleConfirmed)) ∧
    (addRequestValidation 1000 "length" 1 Mempool.new =
        .error ("RangeError: Invalid array length", exampleThrown) ∧
      (⟨"length", 1000 + 300 * 1000⟩ : Timeout) ∈ exampleThrown.timers ∧
      (fireTimeout ⟨"length", 1000 + 300 * 1000⟩ exampleThrown).mempool = [] ∧
      (fireTimeout ⟨"length", 1000 + 300 * 1000⟩ exampleThrown).mempoolValid = [] ∧
      Step exampleVerify exampleThrown
        (fireTimeout ⟨"length", 1000 + 300 * 1000⟩ exampleThrown) ∧
      ∀ (clock : Nat) (sig : String),
        validateRequestByWallet exampleVerify clock "length" sig
            (fireTimeout ⟨"length", 1000 + 300 * 1000⟩ exampleThrown) =
          .ok (⟨true,
            .text ("validateRequestByWallet: request not found on mempool: " ++ "length")⟩,
            fireTimeout ⟨"length", 1000 + 300 * 1000⟩ exampleThrown)) := by
  constructor
  · obtain ⟨r, s1, h1, -, -, -, h2, h3⟩ :=
      eviction_clears exampleVerify Mempool.new Relation.ReflTransGen.refl 1000 "A" 1
        (by decide) (fun h => absurd h (by decide))
    have h1 := h1 (by decide)
    have hs1 : s1 = examplePending := by
      have h4 : addRequestValidation 1000 "A" 1 Mempool.new
          = .ok (⟨"A", 1, "A:1:starRegistry", 300⟩, examplePending) := by decide
      rw [h1] at h4
      injection h4 with h4
      injection h4
    subst hs1
    have hsteps :
        Relation.ReflTransGen (Step exampleVerify) examplePending exampleConfirmed :=
      Relation.ReflTransGen.single
        (Step.validate 2000 "A" "signed" examplePending
          ⟨false, .request (validRequestOf 2000 "A" ⟨"A", 1, "A:1:starRegistry", 300⟩)⟩
          exampleConfirmed (by decide))
    obtain ⟨k1, -, -, k4⟩ := h3 exampleConfirmed hsteps (by decide) 301000 (by decide)
    exact ⟨r, _, h1, h2, by decide, by decide, k1, k4⟩
  · obtain ⟨r, s1, -, h1, -, -, h2, h3⟩ :=
      eviction_clears exampleVerify Mempool.new Relation.ReflTransGen.refl 1000 "length" 1
        (by decide) (fun _ => exampleVerify_rejectsLength)
    have h1 := h1 rfl
    have hs1 : s1 = exampleThrown := by
      have h4 : addRequestValidation 1000 "length" 1 Mempool.new
          = .error ("RangeError: Invalid array length", exampleThrown) := by decide
      rw [h1] at h4
      injection h4 with h4
      injection h4
    subst hs1
    obtain ⟨k1, -, -, k4⟩ := h3 _ Relation.ReflTransGen.refl (by decide) 301000 (by decide)
    exact ⟨h1, h2, by decide, by decide, k1, k4⟩

/-! ## C21 -/

/-- C21 fails on the code.  From the empty pool: `A` requests validation at 1000
milliseconds (time stamp 1), the request is consumed by `removeValidationRequest`, and `A`
requests again at 20000 milliseconds (time stamp 20).  The timeout of the first request is
still pending, the runtime may run it at 301000 milliseconds, which is before the 320000
of the second request, and it removes the second request: `validateRequestByWallet` then
answers that no request is found. -/
theorem consumed_request_timeout_removes_new_request :
    addRequestValidation 1000 "A" 1 Mempool.new =
      .ok (⟨"A", 1, "A:1:starRegistry", 300⟩, examplePending) ∧
    ∃ s2, removeValidationRequest "A" examplePending = .ok ((), s2) ∧
    s2.mempool = [] ∧
    ∃ r s3,
      addRequestValidation 20000 "A" 20 s2 = .ok (r, s3) ∧
      s3.mempool = [r] ∧ r.requestTimeStamp = 20 ∧ r.validationWindow = 300 ∧
      s3.timers = [⟨"A", 301000⟩, ⟨"A", 320000⟩] ∧
      Step exampleVerify s3 (fireTimeout ⟨"A", 301000⟩ s3) ∧
      301000 < 20000 + 300 * 1000 ∧
      (fireTimeout ⟨"A", 301000⟩ s3).mempool = [] ∧
      validateRequestByWallet exampleVerify 301000 "A" "signed"
          (fireTimeout ⟨"A", 301000⟩ s3) =
        .ok (⟨true,
          .text ("validateRequestByWallet: request not found on mempool: " ++ "A")⟩,
          fireTimeout ⟨"A", 301000⟩ s3) := by
  refine ⟨by decide,
    { examplePending with mempool := [], timeoutRequests := [] }, by decide, rfl,
    ⟨"A", 20, "A:20:starRegistry", 300⟩,
    { mempool := [⟨"A", 20, "A:20:starRegistry", 300⟩],
      timeoutRequests := [("A", ⟨"A", 320000⟩)], mempoolValid := [],
      timers := [⟨"A", 301000⟩, ⟨"A", 320000⟩] },
    by decide, rfl, rfl, rfl, rfl, ?_, by decide, by decide, by decide⟩
  exact Step.fire 301000 ⟨"A", 301000⟩ _ (by decide) (by decide)

/-! ## C22 -/

/-- C22: in every pool reachable from the empty pool, every wallet address with an entry in
`mempoolValid` has an entry in `mempool`; so for a confirmed address `a`,
`addRequestValidation(a, t)` returns the request that is already pending, adds no entry to
`mempool`, makes no timeout, and leaves `mempoolValid` as it was, with `a` still
confirmed.  For the address `length`, and for no other, this supposes a verifier that
never accepts a signature for `length`. -/
theorem confirmed_is_pending (verify : String → String → String → Except String Bool)
    (s : Mempool) (hreach : Reachable verify s) :
    (∀ v ∈ s.mempoolValid, (v.status.address = "length" → RejectsLength verify) →
      ∃ r ∈ s.mempool, r.walletAddress = v.status.address) ∧
    ∀ (now : Nat) (a : String) (t : Nat), verifyAddressRequest a s = true →
      (a = "length" → RejectsLength verify) →
      ∃ r0 r next, r0 ∈ s.mempool ∧ r0.walletAddress = a ∧
        addRequestValidation now a t s = .ok (r, next) ∧
        r = { r0 with validationWindow := r.validationWindow } ∧
        next.mempool.length = s.mempool.length ∧
        next.mempool.map (fun request => request.walletAddress) =
          s.mempool.map (fun request => request.walletAddress) ∧
        next.timers = s.timers ∧
        next.timeoutRequests = s.timeoutRequests ∧
        next.mempoolValid = s.mempoolValid ∧
        verifyAddressRequest a next = true := by
  have hpending : ∀ v ∈ s.mempoolValid, (v.status.address = "length" → RejectsLength verify) →
      ∃ r ∈ s.mempool, r.walletAddress = v.status.address := by
    intro v hv hverify
    by_cases hlen : v.status.address = "length"
    · obtain ⟨-, -, hnone⟩ := reachable_confirmedArePending verify (hverify hlen) s hreach
      exact absurd hlen (hnone v hv)
    · obtain ⟨r, hr, hra⟩ :=
        List.mem_map.mp (reachable_confirmedOrdinary verify s hreach v hv hlen)
      exact ⟨r, hr, hra⟩
  refine ⟨hpending, ?_⟩
  intro now a t hconf hverify
  obtain ⟨v, hv, hva⟩ := (verifyAddressRequest_eq_true a s).mp hconf
  obtain ⟨r1, hr1, hr1a⟩ := hpending v hv (fun h => hverify (hva ▸ h))
  have hex : ¬ ∀ x ∈ s.mempool,
      (fun (r : Request) => decide (r.walletAddress = a)) x = false := by
    intro hall
    have hq : decide (r1.walletAddress = a) = false := hall r1 hr1
    rw [hr1a, hva] at hq
    simp at hq
  obtain ⟨i, r0, hf, hr0, hp, hfind⟩ := findIdx?_of_exists _ s.mempool hex
  have hcall := addRequestValidation_of_present now a t s i r0 hf hr0
  refine ⟨r0, _, _, List.mem_of_find?_eq_some hfind, by simpa using hp, hcall, rfl,
    by simp, ?_, rfl, rfl, rfl, ?_⟩
  · exact map_set_same (fun (request : Request) => request.walletAddress) s.mempool i
      { r0 with validationWindow := verifyWindowTime now r0.requestTimeStamp } r0 hr0 rfl
  · exact (verifyAddressRequest_congr a s _ rfl).trans hconf

/-- C22 on the pool where `A` is pending and confirmed: a new request for `A`. -/
theorem confirmed_is_pending_witness :
    (∀ v ∈ exampleConfirmed.mempoolValid,
      ∃ r ∈ exampleConfirmed.mempool, r.walletAddress = v.status.address) ∧
    ∃ r0 r next, r0 ∈ exampleConfirmed.mempool ∧ r0.walletAddress = "A" ∧
      addRequestValidation 9000 "A" 9 exampleConfirmed = .ok (r, next) ∧
      r = { r0 with validationWindow := r.validationWindow } ∧
      next.mempool.length = exampleConfirmed.mempool.length ∧
      next.mempool.map (fun request => request.walletAddress) =
        exampleConfirmed.mempool.map (fun request => request.walletAddress) ∧
      next.timers = exampleConfirmed.timers ∧
      next.timeoutRequests = exampleConfirmed.timeoutRequests ∧
      next.mempoolValid = exampleConfirmed.mempoolValid ∧
      verifyAddressRequest "A" next = true :=
  ⟨fun v hv =>
     (confirmed_is_pending exampleVerify exampleConfirmed reachable_exampleConfirmed).1 v hv
       (fun _ => exampleVerify_rejectsLength),
   (confirmed_is_pending exampleVerify exampleConfirmed reachable_exampleConfirmed).2
     9000 "A" 9 (by decide) (fun _ => exampleVerify_rejectsLength)⟩

end Notary
